import Mathlib

/-!
Calf delay modules (`src/modules_delay.cpp`).

A shallow embedding of the delay processors of `modules_delay.cpp`: the
reverb, the vintage delay, the compensation delay and the Haas enhancer.

Conventions of the embedding.

* Samples (`float`) are an arbitrary carrier `α`; the arithmetic the code
  performs on them (`+`, `*`, `-`, `<`, the literal `0`) is the carrier's, so
  every statement proved for all `α` holds for any interpretation of these
  operations.  Rounding is not modelled.
* `uint32_t` values are `Nat` with explicit reduction modulo `2 ^ 32`; `int`
  values are `Int`.
* A `float *` block is a function `Nat → α`; storing into it is `upd`.
* A counted loop `for (i = lo; i < hi; i++) body` is `for_range body lo (hi - lo)`.
-/

/-- The modulus of `uint32_t` arithmetic. -/
def U32 : Nat := 4294967296

/-- Store `v` at index `i` of a block: `a[i] = v`. -/
def upd {α : Type} (a : Nat → α) (i : Nat) (v : α) : Nat → α :=
  fun j => if j = i then v else a j

/-- The loop `for (i = lo; i < lo + count; i++) s = body i s`. -/
def for_range {σ : Type} (body : Nat → σ → σ) : Nat → Nat → σ → σ
  | _, 0, s => s
  | i, count + 1, s => for_range body (i + 1) count (body i s)

/-- The sample `d` positions before sample `n` of a stream that is silent
before its first sample: `inp[n - d]`, and `0` when `n - d < 0`. -/
def tap {α : Type} [Zero α] (inp : Nat → α) (n d : Nat) : α :=
  if d ≤ n then inp (n - d) else 0

namespace comp_delay_audio_module

/-- The fields of `comp_delay_audio_module` that `process` uses. -/
structure State (α : Type) where
  buffer : Nat → α
  buf_size : Nat
  delay : Nat
  write_ptr : Nat

/-- The parameter table as `process` reads it: `bypass` is the outcome of
`*params[param_bypass] > 0.5f`, `dry` is `*params[par_dry]`, `wet` is
`*params[par_wet]`. -/
structure Params (α : Type) where
  bypass : Bool
  dry : α
  wet : α

/-- The variables of the processing loop: `buffer`, `w_ptr`, `r_ptr`, `outs[0]`. -/
structure Loop (α : Type) where
  buffer : Nat → α
  w_ptr : Nat
  r_ptr : Nat
  outs : Nat → α

/-- One iteration of the loop of `process` (lines 390-399). -/
def body {α : Type} [Add α] [Mul α] (dry wet : α) (b_mask : Nat) (ins : Nat → α)
    (i : Nat) (l : Loop α) : Loop α :=
  let sample := ins i
  let buffer := upd l.buffer l.w_ptr sample
  { buffer := buffer
    outs := upd l.outs i (dry * sample + wet * buffer l.r_ptr)
    w_ptr := ((l.w_ptr + 1) % U32) &&& b_mask
    r_ptr := ((l.r_ptr + 1) % U32) &&& b_mask }

/-- The function `comp_delay_audio_module::process` (lines 375-403): the state after the
call and the contents of `outs[0]` after it. -/
def process {α : Type} [Add α] [Mul α] (s : State α) (p : Params α)
    (offset numsamples : Nat) (ins outs : Nat → α) : State α × (Nat → α) :=
  if p.bypass then
    -- while (offset < numsamples) { outs[0][offset] = ins[0][offset]; ++offset; }
    (s, for_range (fun i o => upd o i (ins i)) offset (numsamples - offset) outs)
  else
    let b_mask := (s.buf_size + U32 - 1) % U32
    let end_ := (offset + numsamples) % U32
    let w_ptr := s.write_ptr
    let r_ptr := (((s.write_ptr + s.buf_size) % U32 + U32 - s.delay) % U32) &&& b_mask
    let l := for_range (body p.dry p.wet b_mask ins) offset (end_ - offset)
      { buffer := s.buffer, w_ptr := w_ptr, r_ptr := r_ptr, outs := outs }
    ({ s with buffer := l.buffer, write_ptr := l.w_ptr }, l.outs)

/-- The function `comp_delay_audio_module::activate` (lines 343-346). -/
def activate {α : Type} (s : State α) : State α :=
  { s with write_ptr := 0 }

/-- The function `comp_delay_audio_module::params_changed` (lines 331-341): `delay` is
replaced by the value computed from the distance and temperature parameters
(`new_delay`, the result of the `uint32_t` conversion); nothing else changes. -/
def params_changed {α : Type} (new_delay : Nat) (s : State α) : State α :=
  { s with delay := new_delay }

/-- The loop `while (new_buf_size < min_buf_size) new_buf_size <<= 1` of
`set_sample_rate`, with `uint32_t` shifts; `none` when `fuel` iterations do
not end it. -/
def grow (min_buf_size : Nat) : Nat → Nat → Option Nat
  | 0, _ => none
  | fuel + 1, new_buf_size =>
    if new_buf_size < min_buf_size then grow min_buf_size fuel ((new_buf_size * 2) % U32)
    else some new_buf_size

/-- The function `comp_delay_audio_module::set_sample_rate` (lines 352-373).  `max_delay sr`
stands for `(uint32_t)(srate * COMP_DELAY_MAX_DELAY)`; the macro is defined in
a header outside this file.  The result is `none` when the sizing loop does
not terminate. -/
def set_sample_rate {α : Type} [Zero α] (max_delay : Nat → Nat) (sr : Nat) (s : State α) :
    Option (State α) :=
  let min_buf_size := max_delay sr
  match grow min_buf_size 34 1 with
  | none => none
  | some new_buf_size => some { s with buffer := fun _ => 0, buf_size := new_buf_size }

/-- A stream fed through consecutive `process` calls.  Each call is
`(offset, numsamples)`; the host places the next `numsamples` samples of
`inp` at `ins[0][offset ..]` and collects `outs[0][offset ..]`.  `done` is the
number of samples already consumed, `outs0` the host's output block before a
call. -/
def stream {α : Type} [Add α] [Mul α] (p : Params α) (inp outs0 : Nat → α) :
    State α → Nat → List (Nat × Nat) → List α
  | _, _, [] => []
  | s, done, (offset, numsamples) :: rest =>
    let r := process s p offset numsamples (fun i => inp (done + (i - offset))) outs0
    (List.range numsamples).map (fun j => r.2 (offset + j))
      ++ stream p inp outs0 r.1 (done + numsamples) rest

end comp_delay_audio_module

namespace haas_enhancer_audio_module

/-- The fields of `haas_enhancer_audio_module` that `process` uses. -/
structure State (α : Type) where
  buffer : Nat → α
  buf_size : Nat
  write_ptr : Nat
  m_source : Nat
  s_delay0 : Nat
  s_delay1 : Nat
  s_bal_l0 : α
  s_bal_l1 : α
  s_bal_r0 : α
  s_bal_r1 : α

/-- The parameter table as `process` uses it: `bypass` is the outcome of
`*params[par_bypass] > 0.5f`; `m_gain` and `s_gain` are read, the three meter
slots are written. -/
structure Params (α : Type) where
  bypass : Bool
  m_gain : α
  s_gain : α
  mtr_m : α
  mtr_s_l : α
  mtr_s_r : α

/-- The variables of the processing loop. -/
structure Loop (α : Type) where
  buffer : Nat → α
  w_ptr : Nat
  s0_ptr : Nat
  s1_ptr : Nat
  outs0 : Nat → α
  outs1 : Nat → α
  mtr_mid : α
  mtr_side_l : α
  mtr_side_r : α

/-- The `switch (m_source)` of the loop (lines 506-513); `half` is the
literal `0.5f`. -/
def mid_source {α : Type} [Add α] [Sub α] [Mul α] [Zero α] (half : α) (m_source : Nat)
    (l r : α) : α :=
  match m_source with
  | 0 => l
  | 1 => r
  | 2 => (l + r) * half
  | 3 => (l - r) * half
  | _ => 0

/-- One iteration of the loop of `process` (lines 503-541). -/
def body {α : Type} [Add α] [Sub α] [Mul α] [Zero α] [LT α] [DecidableRel (LT.lt : α → α → Prop)]
    (half : α) (s : State α) (p : Params α) (b_mask : Nat) (ins0 ins1 : Nat → α)
    (i : Nat) (l : Loop α) : Loop α :=
  let mid := mid_source half s.m_source (ins0 i) (ins1 i)
  let buffer := upd l.buffer l.w_ptr mid
  let mid := mid * p.m_gain
  let side0 := buffer l.s0_ptr * p.s_gain
  let side1 := buffer l.s1_ptr * p.s_gain
  let side_l := side0 * s.s_bal_l0 - side1 * s.s_bal_l1
  let side_r := side1 * s.s_bal_r1 - side0 * s.s_bal_r0
  { buffer := buffer
    outs0 := upd l.outs0 i (mid + side_l)
    outs1 := upd l.outs1 i (mid + side_r)
    w_ptr := ((l.w_ptr + 1) % U32) &&& b_mask
    s0_ptr := ((l.s0_ptr + 1) % U32) &&& b_mask
    s1_ptr := ((l.s1_ptr + 1) % U32) &&& b_mask
    mtr_mid := if l.mtr_mid < mid then mid else l.mtr_mid
    mtr_side_l := if l.mtr_side_l < side_l then side_l else l.mtr_side_l
    mtr_side_r := if l.mtr_side_r < side_r then side_r else l.mtr_side_r }

/-- The result of a `process` call: the module state, the parameter table
(with its meter slots) and the two output blocks. -/
structure Result (α : Type) where
  state : State α
  params : Params α
  outs0 : Nat → α
  outs1 : Nat → α

/-- The loop of the non-bypassed branch of `process` (lines 490-541), started
from the state and run over `[offset, end)`. -/
def run_loop {α : Type} [Add α] [Sub α] [Mul α] [Zero α] [LT α]
    [DecidableRel (LT.lt : α → α → Prop)] (half : α) (s : State α) (p : Params α)
    (offset numsamples : Nat) (ins0 ins1 outs0 outs1 : Nat → α) : Loop α :=
  let b_mask := (s.buf_size + U32 - 1) % U32
  let end_ := (offset + numsamples) % U32
  let w_ptr := s.write_ptr
  let s0_ptr := (((w_ptr + s.buf_size) % U32 + U32 - s.s_delay0) % U32) &&& b_mask
  let s1_ptr := (((w_ptr + s.buf_size) % U32 + U32 - s.s_delay1) % U32) &&& b_mask
  for_range (body half s p b_mask ins0 ins1) offset (end_ - offset)
    { buffer := s.buffer, w_ptr := w_ptr, s0_ptr := s0_ptr, s1_ptr := s1_ptr,
      outs0 := outs0, outs1 := outs1, mtr_mid := 0, mtr_side_l := 0, mtr_side_r := 0 }

/-- The function `haas_enhancer_audio_module::process` (lines 481-552). -/
def process {α : Type} [Add α] [Sub α] [Mul α] [Zero α] [LT α]
    [DecidableRel (LT.lt : α → α → Prop)] (half : α) (s : State α) (p : Params α)
    (offset numsamples : Nat) (ins0 ins1 outs0 outs1 : Nat → α) : Result α :=
  if p.bypass then
    -- while (offset < numsamples) { outs[0][offset] = ...; outs[1][offset] = ...; ++offset; }
    let o := for_range (fun i (o : (Nat → α) × (Nat → α)) => (upd o.1 i (ins0 i), upd o.2 i (ins1 i)))
      offset (numsamples - offset) (outs0, outs1)
    { state := s, params := p, outs0 := o.1, outs1 := o.2 }
  else
    let l := run_loop half s p offset numsamples ins0 ins1 outs0 outs1
    { state := { s with buffer := l.buffer, write_ptr := l.w_ptr }
      params := { p with mtr_m := l.mtr_mid, mtr_s_l := l.mtr_side_l, mtr_s_r := l.mtr_side_r }
      outs0 := l.outs0
      outs1 := l.outs1 }

/-- A stereo stream fed through consecutive `process` calls, as for the
compensation delay: the collected `(outs[0], outs[1])` samples. -/
def stream {α : Type} [Add α] [Sub α] [Mul α] [Zero α] [LT α]
    [DecidableRel (LT.lt : α → α → Prop)] (half : α) (inL inR outs0 outs1 : Nat → α) :
    State α → Params α → Nat → List (Nat × Nat) → List (α × α)
  | _, _, _, [] => []
  | s, p, done, (offset, numsamples) :: rest =>
    let r := process half s p offset numsamples (fun i => inL (done + (i - offset)))
      (fun i => inR (done + (i - offset))) outs0 outs1
    (List.range numsamples).map (fun j => (r.outs0 (offset + j), r.outs1 (offset + j)))
      ++ stream half inL inR outs0 outs1 r.state r.params (done + numsamples) rest

end haas_enhancer_audio_module

namespace vintage_delay_audio_module

/-- The collaborators of the vintage delay that live outside this file, over
samples `α`, `gain_smoothing` objects `G` and biquad filters `F`:
`dsp::sanitize`, `lerp`, `gain_smoothing::get` (the value read and the object
after the read), `gain_smoothing::step`, the biquad's `process` and
`process_lp` (the filtered sample and the filter after it) and its
`sanitize`; and the capacity `MAX_DELAY` of the two delay buffers. -/
structure Env (α G F : Type) where
  MAX_DELAY : Nat
  sanitize : α → α
  lerp : α → α → α → α
  get : G → α × G
  step : G → G
  process : F → α → α × F
  process_lp : F → α → α × F
  fsanitize : F → F

/-- Modelled from the spec: the index mask of the delay buffers, declared
with `MAX_DELAY` in a header outside this file; a power-of-two capacity is
indexed with the bitmask `capacity - 1`. -/
def ADDR_MASK {α G F : Type} (E : Env α G F) : Nat := E.MAX_DELAY - 1

/-- The C expression `x & m` for an `int` `x` and a non-negative mask `m`:
the bitwise and of the two's complement representation of `x`. -/
def iand (x : Int) (m : Nat) : Int := ((x % 4294967296).toNat &&& m : Nat)

/-- The fields of `vintage_delay_audio_module` that `process` uses. -/
structure State (α G F : Type) where
  buffers0 : Nat → α
  buffers1 : Nat → α
  bufptr : Int
  age : Int
  deltime_l : Int
  deltime_r : Int
  mixmode : Int
  medium : Int
  amt_left : G
  amt_right : G
  fb_left : G
  fb_right : G
  dry : G
  chmix : G
  biquad_left0 : F
  biquad_left1 : F
  biquad_right0 : F
  biquad_right1 : F

/-- Modelled from the spec: the four routing modes STEREO, PINGPONG, LR, RL;
the `MIXMODE_*` enumeration is declared in a header outside this file. -/
def MIXMODE_STEREO : Int := 0

/-- Routing mode PINGPONG, see `MIXMODE_STEREO`. -/
def MIXMODE_PINGPONG : Int := 1

/-- Routing mode LR, see `MIXMODE_STEREO`. -/
def MIXMODE_LR : Int := 2

/-- Routing mode RL, see `MIXMODE_STEREO`. -/
def MIXMODE_RL : Int := 3

/-- The function `vintage_delay_audio_module::activate` (lines 166-170). -/
def activate {α G F : Type} (s : State α G F) : State α G F :=
  { s with bufptr := 0, age := 0 }

/-- The outcome of a delay-line step: `out`, `del` and the two smoothers. -/
structure Line (α G : Type) where
  out : α
  del : α
  amt : G
  fb : G

/-- The function `delayline_impl` (lines 195-211). -/
def delayline_impl {α G F : Type} [Add α] [Mul α] [Zero α] (E : Env α G F)
    (age deltime : Int) (dry_value delayed_value : α) (amt fb : G) : Line α G :=
  if age ≤ deltime then
    { out := 0, del := dry_value, amt := E.step amt, fb := E.step fb }
  else
    let delayed := E.sanitize delayed_value
    let a := E.get amt
    let f := E.get fb
    { out := delayed * a.1, del := dry_value + delayed * f.1, amt := a.2, fb := f.2 }

/-- The function `delayline2_impl` (lines 214-229). -/
def delayline2_impl {α G F : Type} [Add α] [Mul α] [Zero α] (E : Env α G F)
    (age deltime : Int) (dry_value delayed_value delayed_value_for_fb : α) (amt fb : G) :
    Line α G :=
  if age ≤ deltime then
    { out := 0, del := dry_value, amt := E.step amt, fb := E.step fb }
  else
    let a := E.get amt
    let f := E.get fb
    { out := E.sanitize (delayed_value * a.1)
      del := E.sanitize (dry_value + delayed_value_for_fb * f.1)
      amt := a.2, fb := f.2 }

/-- The function `delay_mix` (lines 231-237): the new `(out_left, out_right)`. -/
def delay_mix {α G F : Type} [Add α] [Mul α] (E : Env α G F)
    (dry_left dry_right out_left out_right dry chmix : α) : α × α :=
  let tmp_left := E.lerp out_left out_right chmix
  let tmp_right := E.lerp out_right out_left chmix
  (dry_left * dry + tmp_left, dry_right * dry + tmp_right)

/-- The module state together with the two output blocks. -/
structure Run (α G F : Type) where
  st : State α G F
  outs0 : Nat → α
  outs1 : Nat → α

/-- The end of a loop iteration (lines 256-260 and 277-281): mix, advance
`age`, store the outputs and the delay-line values, advance `bufptr`. -/
def finish {α G F : Type} [Add α] [Mul α] (E : Env α G F) (ins0 ins1 : Nat → α) (i : Nat)
    (r : Run α G F) (left right : Line α G) : Run α G F :=
  let s := r.st
  let d := E.get s.dry
  let c := E.get s.chmix
  let o := delay_mix E (ins0 i) (ins1 i) left.out right.out d.1 c.1
  { st := { s with
      amt_left := left.amt, fb_left := left.fb, amt_right := right.amt, fb_right := right.fb
      dry := d.2, chmix := c.2
      age := s.age + 1
      buffers0 := upd s.buffers0 s.bufptr.toNat left.del
      buffers1 := upd s.buffers1 s.bufptr.toNat right.del
      bufptr := iand (s.bufptr + 1) (E.MAX_DELAY - 1) }
    outs0 := upd r.outs0 i o.1
    outs1 := upd r.outs1 i o.2 }

/-- The buffer `buffers[v]` for `v` equal to 0 or 1. -/
def bufsel {α G F : Type} (s : State α G F) (v : Int) : Nat → α :=
  if v = 0 then s.buffers0 else s.buffers1

/-- One iteration of the `MIXMODE_STEREO` / `MIXMODE_PINGPONG` loop (lines 252-261). -/
def body_stereo {α G F : Type} [Add α] [Mul α] [Zero α] (E : Env α G F) (v : Int)
    (ins0 ins1 : Nat → α) (i : Nat) (r : Run α G F) : Run α G F :=
  let s := r.st
  let left := delayline_impl E s.age s.deltime_l (ins0 i)
    (bufsel s v (iand (s.bufptr - s.deltime_l) (ADDR_MASK E)).toNat) s.amt_left s.fb_left
  let right := delayline_impl E s.age s.deltime_r (ins1 i)
    (bufsel s (1 - v) (iand (s.bufptr - s.deltime_r) (ADDR_MASK E)).toNat) s.amt_right s.fb_right
  finish E ins0 ins1 i r left right

/-- One iteration of the `MIXMODE_LR` / `MIXMODE_RL` loop (lines 273-282). -/
def body_lr {α G F : Type} [Add α] [Mul α] [Zero α] (E : Env α G F)
    (v deltime_fb deltime_l_corr deltime_r_corr : Int)
    (ins0 ins1 : Nat → α) (i : Nat) (r : Run α G F) : Run α G F :=
  let s := r.st
  let left := delayline2_impl E s.age s.deltime_l (ins0 i)
    (bufsel s v (iand (s.bufptr - deltime_l_corr) (ADDR_MASK E)).toNat)
    (bufsel s v (iand (s.bufptr - deltime_fb) (ADDR_MASK E)).toNat) s.amt_left s.fb_left
  let right := delayline2_impl E s.age s.deltime_r (ins1 i)
    (bufsel s (1 - v) (iand (s.bufptr - deltime_r_corr) (ADDR_MASK E)).toNat)
    (bufsel s (1 - v) (iand (s.bufptr - deltime_fb) (ADDR_MASK E)).toNat) s.amt_right s.fb_right
  finish E ins0 ins1 i r left right

/-- The `switch (mixmode)` of `process` (lines 246-284) over `count` samples
starting at index `offset`. -/
def mix_loop {α G F : Type} [Add α] [Mul α] [Zero α] (E : Env α G F)
    (ins0 ins1 : Nat → α) (offset count : Nat) (r : Run α G F) : Run α G F :=
  let s := r.st
  if s.mixmode = MIXMODE_STEREO ∨ s.mixmode = MIXMODE_PINGPONG then
    let v : Int := if s.mixmode = MIXMODE_PINGPONG then 1 else 0
    for_range (body_stereo E v ins0 ins1) offset count r
  else if s.mixmode = MIXMODE_LR ∨ s.mixmode = MIXMODE_RL then
    let v : Int := if s.mixmode = MIXMODE_RL then 1 else 0
    let deltime_fb := s.deltime_l + s.deltime_r
    let deltime_l_corr := if s.mixmode = MIXMODE_RL then deltime_fb else s.deltime_l
    let deltime_r_corr := if s.mixmode = MIXMODE_LR then deltime_fb else s.deltime_r
    for_range (body_lr E v deltime_fb deltime_l_corr deltime_r_corr ins0 ins1) offset count r
  else r

/-- One iteration of the `medium == 2` replay loop (lines 291-296). -/
def body_medium2 {α G F : Type} (E : Env α G F) (_i : Nat) (s : State α G F) : State α G F :=
  let l1 := E.process s.biquad_left1 (s.buffers0 s.bufptr.toNat)
  let l0 := E.process_lp s.biquad_left0 l1.1
  let r1 := E.process s.biquad_right1 (s.buffers1 s.bufptr.toNat)
  let r0 := E.process_lp s.biquad_right0 r1.1
  { s with
    buffers0 := upd s.buffers0 s.bufptr.toNat l0.1
    buffers1 := upd s.buffers1 s.bufptr.toNat r0.1
    biquad_left1 := l1.2, biquad_left0 := l0.2, biquad_right1 := r1.2, biquad_right0 := r0.2
    bufptr := iand (s.bufptr + 1) (E.MAX_DELAY - 1) }

/-- One iteration of the `medium == 1` replay loop (lines 299-304). -/
def body_medium1 {α G F : Type} (E : Env α G F) (_i : Nat) (s : State α G F) : State α G F :=
  let l1 := E.process s.biquad_left1 (s.buffers0 s.bufptr.toNat)
  let r1 := E.process s.biquad_right1 (s.buffers1 s.bufptr.toNat)
  { s with
    buffers0 := upd s.buffers0 s.bufptr.toNat l1.1
    buffers1 := upd s.buffers1 s.bufptr.toNat r1.1
    biquad_left1 := l1.2, biquad_right1 := r1.2
    bufptr := iand (s.bufptr + 1) (E.MAX_DELAY - 1) }

/-- The statement `if (age >= MAX_DELAY) age = MAX_DELAY;` (lines 285-286). -/
def saturate {α G F : Type} (E : Env α G F) (s : State α G F) : State α G F :=
  if s.age ≥ E.MAX_DELAY then { s with age := E.MAX_DELAY } else s

/-- The tail of `process` (lines 285-308): saturate `age`, then replay the
block through the medium filters. -/
def post {α G F : Type} (E : Env α G F) (orig_bufptr : Int) (offset count : Nat)
    (s : State α G F) : State α G F :=
  let s := saturate E s
  if s.medium > 0 then
    let s := { s with bufptr := orig_bufptr }
    let s :=
      if s.medium = 2 then
        let s := for_range (body_medium2 E) offset count s
        { s with biquad_left0 := E.fsanitize s.biquad_left0
                 biquad_right0 := E.fsanitize s.biquad_right0 }
      else for_range (body_medium1 E) offset count s
    { s with biquad_left1 := E.fsanitize s.biquad_left1
             biquad_right1 := E.fsanitize s.biquad_right1 }
  else s

/-- The function `vintage_delay_audio_module::process` (lines 239-311). -/
def process {α G F : Type} [Add α] [Mul α] [Zero α] (E : Env α G F) (s : State α G F)
    (offset numsamples : Nat) (ins0 ins1 outs0 outs1 : Nat → α) : Run α G F :=
  let end_ := (offset + numsamples) % U32
  let orig_bufptr := s.bufptr
  let r := mix_loop E ins0 ins1 offset (end_ - offset) { st := s, outs0 := outs0, outs1 := outs1 }
  { r with st := post E orig_bufptr offset (end_ - offset) r.st }

/-- A stereo stream fed through consecutive `process` calls, as for the
compensation delay: the collected `(outs[0], outs[1])` samples. -/
def stream {α G F : Type} [Add α] [Mul α] [Zero α] (E : Env α G F)
    (inL inR outs0 outs1 : Nat → α) : State α G F → Nat → List (Nat × Nat) → List (α × α)
  | _, _, [] => []
  | s, done, (offset, numsamples) :: rest =>
    let r := process E s offset numsamples (fun i => inL (done + (i - offset)))
      (fun i => inR (done + (i - offset))) outs0 outs1
    (List.range numsamples).map (fun j => (r.outs0 (offset + j), r.outs1 (offset + j)))
      ++ stream E inL inR outs0 outs1 r.st (done + numsamples) rest

/-- A `gain_smoothing` object after `n` reads. -/
def smoother_after {α G F : Type} (E : Env α G F) (g : G) : Nat → G
  | 0 => g
  | n + 1 => (E.get (smoother_after E g n)).2

/-- The value the `n`-th read of a `gain_smoothing` object yields (counting from 0). -/
def smoothed {α G F : Type} (E : Env α G F) (g : G) (n : Nat) : α :=
  (E.get (smoother_after E g n)).1

/-- An instance of the collaborators for concrete evaluation: integer
samples, delay buffers of `M` cells, a `sanitize` that changes nothing,
`lerp v1 v2 mix = v1 + (v2 - v1) * mix`, smoothers that have settled (a
smoother is its constant value; reading or stepping leaves it unchanged) and
medium filters that multiply by the constant `a0`. -/
def settled (M : Nat) (a0 : Int) : Env Int Int Unit where
  MAX_DELAY := M
  sanitize := fun v => v
  lerp := fun v1 v2 mix => v1 + (v2 - v1) * mix
  get := fun g => (g, g)
  step := fun g => g
  process := fun f x => (a0 * x, f)
  process_lp := fun f x => (a0 * x, f)
  fsanitize := fun f => f

/-- A freshly constructed module (lines 109-118: both buffers zero-filled)
with the given routing mode, delay times, medium and smoothers, as
`params_changed` leaves them, before `activate`; `f` is the state of the four
medium filters. -/
def constructed {α G F : Type} [Zero α] (mixmode deltime_l deltime_r medium : Int)
    (amt_left amt_right fb_left fb_right dry chmix : G) (f : F) : State α G F where
  buffers0 := fun _ => 0
  buffers1 := fun _ => 0
  bufptr := 0
  age := 0
  deltime_l := deltime_l
  deltime_r := deltime_r
  mixmode := mixmode
  medium := medium
  amt_left := amt_left
  amt_right := amt_right
  fb_left := fb_left
  fb_right := fb_right
  dry := dry
  chmix := chmix
  biquad_left0 := f
  biquad_left1 := f
  biquad_right0 := f
  biquad_right1 := f

/-- The run with its `age` counter replaced by `a`. -/
def with_age {α G F : Type} (r : Run α G F) (a : Int) : Run α G F :=
  { r with st := { r.st with age := a } }

/-- Two consecutive `process` calls over the same host blocks: `n` samples
from index `offset`, then `m` samples from index `offset + n`. -/
def process_twice {α G F : Type} [Add α] [Mul α] [Zero α] (E : Env α G F) (s : State α G F)
    (offset n m : Nat) (ins0 ins1 outs0 outs1 : Nat → α) : Run α G F :=
  let first := process E s offset n ins0 ins1 outs0 outs1
  process E first.st (offset + n) m ins0 ins1 first.outs0 first.outs1

/-- The test signal 1, 2, 3, ... -/
def ramp : Nat → Int := fun i => (i : Int) + 1

/-- The silent block. -/
def silence : Nat → Int := fun _ => 0

/-- The relation between a module in LR mode with delay times `(a, b)` and a
module in RL mode with delay times `(b, a)` that the two keep while they
process the same signal on both input channels: same cursor and age, the
four delay buffers equal cell by cell (cells not written since `activate()`
still zero), the feedback smoothers equal and the amount smoothers
exchanged.  `M` is `MAX_DELAY`. -/
structure Mirror {α G F : Type} [Zero α] (M : Nat) (a b : Int) (lr rl : State α G F) :
    Prop where
  lr_mode : lr.mixmode = MIXMODE_LR
  rl_mode : rl.mixmode = MIXMODE_RL
  lr_l : lr.deltime_l = a
  lr_r : lr.deltime_r = b
  rl_l : rl.deltime_l = b
  rl_r : rl.deltime_r = a
  lr_medium : lr.medium = 0
  rl_medium : rl.medium = 0
  age_eq : rl.age = lr.age
  age_nonneg : 0 ≤ lr.age
  ptr_eq : rl.bufptr = lr.bufptr
  ptr_nonneg : 0 ≤ lr.bufptr
  ptr_lt : lr.bufptr < M
  buf1 : ∀ i, i < M → lr.buffers1 i = lr.buffers0 i
  buf2 : ∀ i, i < M → rl.buffers0 i = lr.buffers0 i
  buf3 : ∀ i, i < M → rl.buffers1 i = lr.buffers0 i
  fresh : lr.age < M → lr.bufptr = lr.age ∧
    ∀ i : Nat, lr.age ≤ i → i < M → lr.buffers0 i = 0
  fb1 : lr.fb_right = lr.fb_left
  fb2 : rl.fb_left = lr.fb_left
  fb3 : rl.fb_right = lr.fb_left
  amt1 : rl.amt_left = lr.amt_right
  amt2 : rl.amt_right = lr.amt_left
  dry_eq : rl.dry = lr.dry
  chmix_eq : rl.chmix = lr.chmix

/-- The left delay-line step of an LR iteration with delay times `(a, b)`,
all taps read from `buffers[0]`. -/
def lr_left {α G F : Type} [Add α] [Mul α] [Zero α] (E : Env α G F) (a b : Int)
    (ins : Nat → α) (i : Nat) (r : Run α G F) : Line α G :=
  delayline2_impl E r.st.age a (ins i)
    (r.st.buffers0 (iand (r.st.bufptr - a) (ADDR_MASK E)).toNat)
    (r.st.buffers0 (iand (r.st.bufptr - (a + b)) (ADDR_MASK E)).toNat)
    r.st.amt_left r.st.fb_left

/-- The right delay-line step of an LR iteration with delay times `(a, b)`,
all taps read from `buffers[0]` and the feedback smoother taken from the
left line. -/
def lr_right {α G F : Type} [Add α] [Mul α] [Zero α] (E : Env α G F) (a b : Int)
    (ins : Nat → α) (i : Nat) (r : Run α G F) : Line α G :=
  delayline2_impl E r.st.age b (ins i)
    (r.st.buffers0 (iand (r.st.bufptr - (a + b)) (ADDR_MASK E)).toNat)
    (r.st.buffers0 (iand (r.st.bufptr - (a + b)) (ADDR_MASK E)).toNat)
    r.st.amt_right r.st.fb_left

/-- The first `n` samples of the two output blocks. -/
def heads {α G F : Type} (r : Run α G F) (n : Nat) : List (α × α) :=
  (List.range n).map fun i => (r.outs0 i, r.outs1 i)

end vintage_delay_audio_module

namespace comp_delay_audio_module

/-- The value `comp_delay_audio_module::process` returns (line 402, reached from both
branches): the request mask. -/
def process_returns (_offset _numsamples _inputs_mask outputs_mask : Nat) : Nat :=
  outputs_mask

end comp_delay_audio_module

namespace haas_enhancer_audio_module

/-- The value `haas_enhancer_audio_module::process` returns (line 551, reached from
both branches): the request mask. -/
def process_returns (_offset _numsamples _inputs_mask outputs_mask : Nat) : Nat :=
  outputs_mask

end haas_enhancer_audio_module

namespace vintage_delay_audio_module

/-- The value `vintage_delay_audio_module::process` returns: the local `ostate`, set
to 3 on line 241, never assigned again and returned on line 310. -/
def process_returns (_offset _numsamples _inputs_mask _outputs_mask : Nat) : Nat :=
  let ostate := 3
  ostate

/-- The parameter table as `params_changed` reads it (`*params[par_sync]`,
`*params[par_bpm]`, ...). -/
structure Controls (α : Type) where
  sync : α
  bpm : α
  bpm_host : α
  divide : α
  time_l : α
  time_r : α
  feedback : α
  dryamount : α
  mixmode : α
  medium : α
  amount : α
  width : α

/-- The arithmetic of `params_changed` beyond the carrier's `+`, `-`, `*` and
`<`: the conversions of `srate` (`uint32_t`) and of an `int` to a
floating-point value, the quotient `/`, `pow`, `dsp::fastf2i_drm`,
`gain_smoothing::set_inertia`, and the literals `60.0`, `1` and `0.5`. -/
structure Maths (α G : Type) where
  ofNat : Nat → α
  ofInt : Int → α
  div : α → α → α
  pow : α → α → α
  fastf2i_drm : α → Int
  set_inertia : G → α → G
  sixty : α
  one : α
  half : α

/-- The parameter table after the tempo synchronisation of lines 122-123. -/
def synced {α G : Type} [LT α] [DecidableRel (LT.lt : α → α → Prop)] (A : Maths α G)
    (c : Controls α) : Controls α :=
  if A.half < c.sync then { c with bpm := c.bpm_host } else c

/-- The delay times `(deltime_l, deltime_r)` that `params_changed` computes
(lines 122-126). -/
def delay_times {α G : Type} [Mul α] [LT α] [DecidableRel (LT.lt : α → α → Prop)]
    (A : Maths α G) (srate : Nat) (c : Controls α) : Int × Int :=
  let c := synced A c
  let unit := A.div (A.sixty * A.ofNat srate) (c.bpm * c.divide)
  (A.fastf2i_drm (unit * c.time_l), A.fastf2i_drm (unit * c.time_r))

/-- The function `vintage_delay_audio_module::calc_filters` (lines 184-192): the four medium
filters get new coefficients.  The biquad's `set_lp_rbj` and `set_bp_rbj`
(with the literal frequency and Q of the call applied, the sample rate left
open) and `copy_coeffs` are defined outside this file. -/
def calc_filters {α G F : Type} (set_lp_rbj set_bp_rbj : F → Nat → F) (copy_coeffs : F → F → F)
    (srate : Nat) (s : State α G F) : State α G F :=
  let left0 := set_lp_rbj s.biquad_left0 srate
  let left1 := set_bp_rbj s.biquad_left1 srate
  { s with
    biquad_left0 := left0
    biquad_left1 := left1
    biquad_right0 := copy_coeffs s.biquad_right0 left0
    biquad_right1 := copy_coeffs s.biquad_right1 left1 }

/-- The function `vintage_delay_audio_module::params_changed` (lines 120-164): the parameter
table and the module after the call.  The argument `calc_filters` is the
effect of the call `calc_filters()` of line 163 on the module (the function
of lines 184-192, with the biquad's operations and the sample rate applied);
`old_medium` is the field the new medium is compared with. -/
def params_changed {α G F : Type} [Mul α] [Sub α] [LT α] [DecidableRel (LT.lt : α → α → Prop)]
    (A : Maths α G) (calc_filters : State α G F → State α G F) (srate : Nat) (old_medium : Int)
    (c : Controls α) (s : State α G F) : Controls α × State α G F :=
  let c := synced A c
  let unit := A.div (A.sixty * A.ofNat srate) (c.bpm * c.divide)
  let deltime_l := A.fastf2i_drm (unit * c.time_l)
  let deltime_r := A.fastf2i_drm (unit * c.time_r)
  let deltime_fb := deltime_l + deltime_r
  let fb := c.feedback
  let s := { s with
    deltime_l := deltime_l, deltime_r := deltime_r
    dry := A.set_inertia s.dry c.dryamount
    mixmode := A.fastf2i_drm c.mixmode
    medium := A.fastf2i_drm c.medium }
  let s :=
    if s.mixmode = MIXMODE_STEREO then
      { s with
        fb_left := A.set_inertia s.fb_left fb
        fb_right := A.set_inertia s.fb_right (A.pow fb (A.div c.time_r c.time_l))
        amt_left := A.set_inertia s.amt_left c.amount
        amt_right := A.set_inertia s.amt_right c.amount }
    else if s.mixmode = MIXMODE_PINGPONG then
      { s with
        fb_left := A.set_inertia s.fb_left fb
        fb_right := A.set_inertia s.fb_right fb
        amt_left := A.set_inertia s.amt_left c.amount
        amt_right := A.set_inertia s.amt_right c.amount }
    else if s.mixmode = MIXMODE_LR then
      { s with
        fb_left := A.set_inertia s.fb_left fb
        fb_right := A.set_inertia s.fb_right fb
        amt_left := A.set_inertia s.amt_left c.amount
        amt_right := A.set_inertia s.amt_right
          (c.amount * A.pow fb (A.div (A.one * A.ofInt deltime_r) (A.ofInt deltime_fb))) }
    else if s.mixmode = MIXMODE_RL then
      { s with
        fb_left := A.set_inertia s.fb_left fb
        fb_right := A.set_inertia s.fb_right fb
        amt_left := A.set_inertia s.amt_left
          (c.amount * A.pow fb (A.div (A.one * A.ofInt deltime_l) (A.ofInt deltime_fb)))
        amt_right := A.set_inertia s.amt_right c.amount }
    else s
  let s := { s with chmix := A.set_inertia s.chmix ((A.one - c.width) * A.half) }
  (c, if s.medium ≠ old_medium then calc_filters s else s)

/-- An integer interpretation of the arithmetic of `params_changed` for
concrete evaluation: quotients are integer quotients, and a quotient whose
divisor is zero is `z`; `pow` is the integer power, `fastf2i_drm` changes
nothing, the literal `0.5` is truncated to 0, and a smoother is its target. -/
def integers (z : Int) : Maths Int Int where
  ofNat := fun n => (n : Int)
  ofInt := fun i => i
  div := fun x y => if y = 0 then z else x / y
  pow := fun b e => b ^ e.toNat
  fastf2i_drm := fun x => x
  set_inertia := fun _ v => v
  sixty := 60
  one := 1
  half := 0

/-- A parameter snapshot in LR mode whose two time parameters are zero: no
tempo synchronisation, 120 bpm, divide 1, feedback 2, amount 1. -/
def zero_times : Controls Int where
  sync := 0
  bpm := 120
  bpm_host := 120
  divide := 1
  time_l := 0
  time_r := 0
  feedback := 2
  dryamount := 0
  mixmode := 2
  medium := 0
  amount := 1
  width := 0

end vintage_delay_audio_module

namespace reverb_audio_module

/-- The collaborators of the reverb that live outside this file, over samples
`α`, `gain_smoothing` objects `G`, the pre-delay line `P`, the tone filters
`B`, the reverb engine `R` and the meter helper `V`: `gain_smoothing::get`
(the value read and the object after the read), `pre_delay.process`, the
filters' `process` and `sanitize`, `reverb.process` (which replaces its two
arguments), `reverb.extra_sanitize`, `fabs`, `std::max`, the literal `1.f`,
and the meters' `fall` and `process`. -/
structure Env (α G P B R V : Type) where
  get : G → α × G
  pre_delay : P → α → α → Int → (α × α) × P
  filter : B → α → α × B
  sanitize : B → B
  reverb : R → α → α → (α × α) × R
  extra_sanitize : R → R
  fabs : α → α
  max : α → α → α
  one : α
  fall : V → Nat → V
  meters : V → α → α → V

/-- The fields of `reverb_audio_module` that `process` uses. -/
structure State (α G P B R V : Type) where
  srate : Nat
  clip : Nat
  predelay_amt : Int
  dryamount : G
  amount : G
  pre_delay : P
  left_lo : B
  left_hi : B
  right_lo : B
  right_hi : B
  reverb : R
  meter_wet : α
  meter_out : α
  meters : V

/-- The module state together with the two output blocks. -/
structure Run (α G P B R V : Type) where
  st : State α G P B R V
  outs0 : Nat → α
  outs1 : Nat → α

/-- One iteration of the loop of `process` (lines 76-93). -/
def body {α G P B R V : Type} [Add α] [Mul α] [LT α] [DecidableRel (LT.lt : α → α → Prop)]
    (E : Env α G P B R V) (ins0 ins1 : Nat → α) (i : Nat) (r : Run α G P B R V) :
    Run α G P B R V :=
  let s := r.st
  let dry := E.get s.dryamount
  let wet := E.get s.amount
  let s2 := E.pre_delay s.pre_delay (ins0 i) (ins1 i) s.predelay_amt
  let lh := E.filter s.left_hi s2.1.1
  let ll := E.filter s.left_lo lh.1
  let rh := E.filter s.right_hi s2.1.2
  let rl := E.filter s.right_lo rh.1
  let rv := E.reverb s.reverb ll.1 rl.1
  let o0 := dry.1 * ins0 i + wet.1 * rv.1.1
  let o1 := dry.1 * ins1 i + wet.1 * rv.1.2
  { st := { s with
      dryamount := dry.2, amount := wet.2, pre_delay := s2.2
      left_hi := lh.2, left_lo := ll.2, right_hi := rh.2, right_lo := rl.2
      reverb := rv.2
      meter_wet := E.max (E.fabs (wet.1 * rv.1.1)) (E.fabs (wet.1 * rv.1.2))
      meter_out := E.max (E.fabs o0) (E.fabs o1)
      clip := if E.one < o0 ∨ E.one < o1 then s.srate >>> 3 else s.clip }
    outs0 := upd r.outs0 i o0
    outs1 := upd r.outs1 i o1 }

/-- The function `reverb_audio_module::process` (lines 72-103): the state and output
blocks after the call, and the value returned. -/
def process {α G P B R V : Type} [Add α] [Mul α] [LT α] [DecidableRel (LT.lt : α → α → Prop)]
    (E : Env α G P B R V) (s : State α G P B R V)
    (offset numsamples _inputs_mask outputs_mask : Nat) (ins0 ins1 outs0 outs1 : Nat → α) :
    Run α G P B R V × Nat :=
  -- numsamples += offset;
  let numsamples := (numsamples + offset) % U32
  -- clip -= std::min(clip, numsamples);
  let s := { s with clip := s.clip - min s.clip numsamples }
  let r := for_range (body E ins0 ins1) offset (numsamples - offset)
    { st := s, outs0 := outs0, outs1 := outs1 }
  let t := r.st
  ({ r with st := { t with
      meters := E.meters (E.fall t.meters numsamples) t.meter_wet t.meter_out
      reverb := E.extra_sanitize t.reverb
      left_lo := E.sanitize t.left_lo, left_hi := E.sanitize t.left_hi
      right_lo := E.sanitize t.right_lo, right_hi := E.sanitize t.right_hi } },
   outputs_mask)

/-- An instance of the collaborators for concrete evaluation: integer samples,
settled gains (a smoother is its constant value), and a pre-delay, tone
filters and reverb engine that pass their input through. -/
def passthrough : Env Int Int Unit Unit Unit Unit where
  get := fun g => (g, g)
  pre_delay := fun p l r _ => ((l, r), p)
  filter := fun b x => (x, b)
  sanitize := fun b => b
  reverb := fun e l r => ((l, r), e)
  extra_sanitize := fun e => e
  fabs := fun x => |x|
  max := fun x y => max x y
  one := 1
  fall := fun v _ => v
  meters := fun v _ _ => v

/-- A reverb at `srate` Hz with clip counter `clip`, dry gain 1 and wet gain 0. -/
def dry_only (srate clip : Nat) : State Int Int Unit Unit Unit Unit where
  srate := srate
  clip := clip
  predelay_amt := 1
  dryamount := 1
  amount := 0
  pre_delay := ()
  left_lo := ()
  left_hi := ()
  right_lo := ()
  right_hi := ()
  reverb := ()
  meter_wet := 0
  meter_out := 0
  meters := ()

end reverb_audio_module

/-! ## The Haas enhancer's metered signals -/

/-- The states a counted loop passes through: each iteration's index with the
state it starts from, in order. -/
def for_states {σ : Type} (body : Nat → σ → σ) : Nat → Nat → σ → List (Nat × σ)
  | _, 0, _ => []
  | i, count + 1, s => (i, s) :: for_states body (i + 1) count (body i s)

namespace haas_enhancer_audio_module

/-- The three values a loop iteration meters (lines 506-529): the gained mid
signal, `side_l` and `side_r` of sample `i`. -/
def metered {α : Type} [Add α] [Sub α] [Mul α] [Zero α] (half : α) (s : State α) (p : Params α)
    (ins0 ins1 : Nat → α) (i : Nat) (l : Loop α) : α × α × α :=
  let mid := mid_source half s.m_source (ins0 i) (ins1 i)
  let buffer := upd l.buffer l.w_ptr mid
  let mid := mid * p.m_gain
  let side0 := buffer l.s0_ptr * p.s_gain
  let side1 := buffer l.s1_ptr * p.s_gain
  let side_l := side0 * s.s_bal_l0 - side1 * s.s_bal_l1
  let side_r := side1 * s.s_bal_r1 - side0 * s.s_bal_r0
  (mid, side_l, side_r)

/-- The metered values of the samples of a non-bypassed block, in order: the
loop of `run_loop`, with the values of each iteration collected. -/
def block_values {α : Type} [Add α] [Sub α] [Mul α] [Zero α] [LT α]
    [DecidableRel (LT.lt : α → α → Prop)] (half : α) (s : State α) (p : Params α)
    (offset numsamples : Nat) (ins0 ins1 outs0 outs1 : Nat → α) : List (α × α × α) :=
  let b_mask := (s.buf_size + U32 - 1) % U32
  let end_ := (offset + numsamples) % U32
  let w_ptr := s.write_ptr
  let s0_ptr := (((w_ptr + s.buf_size) % U32 + U32 - s.s_delay0) % U32) &&& b_mask
  let s1_ptr := (((w_ptr + s.buf_size) % U32 + U32 - s.s_delay1) % U32) &&& b_mask
  (for_states (body half s p b_mask ins0 ins1) offset (end_ - offset)
    { buffer := s.buffer, w_ptr := w_ptr, s0_ptr := s0_ptr, s1_ptr := s1_ptr,
      outs0 := outs0, outs1 := outs1, mtr_mid := 0, mtr_side_l := 0, mtr_side_r := 0 }).map
    (fun x => metered half s p ins0 ins1 x.1 x.2)

end haas_enhancer_audio_module

/-! ## Specification vocabulary -/

/-- The buffer position `d` places behind `w` in a ring of `S` cells. -/
def behind (S w d : Nat) : Nat := if d ≤ w then w - d else w + S - d

/-- The ring holds the last `S` samples of the stream: the cell `d` places
behind the write position holds sample `n - d` (silence before the start). -/
def Holds {α : Type} [Zero α] (S : Nat) (inp : Nat → α) (buffer : Nat → α) (w n : Nat) : Prop :=
  ∀ d, 1 ≤ d → d ≤ S → buffer (behind S w d) = tap inp n d

/-- The mid signal of the Haas enhancer as the specification words it: the
left input, the right input, half the sum or half the difference for
`m_source` 0, 1, 2, 3, and silence for any other `m_source`. -/
def spec_mid {α : Type} [Add α] [Sub α] [Mul α] [Zero α] (half : α) (m_source : Nat)
    (inL inR : Nat → α) (n : Nat) : α :=
  if m_source = 0 then inL n
  else if m_source = 1 then inR n
  else if m_source = 2 then (inL n + inR n) * half
  else if m_source = 3 then (inL n - inR n) * half
  else 0

/-- A unit impulse at sample 0: `one` at index 0, silence elsewhere. -/
def impulse {α : Type} [Zero α] (one : α) : Nat → α :=
  fun n => if n = 0 then one else 0

/-- The ring holds the samples written since the start: for `d` up to the
ring size and up to the number `n` of samples written, the cell `d` places
behind the write position holds sample `n - d`.  Nothing is said about cells
not written yet. -/
def Recent {α : Type} (S : Nat) (inp buffer : Nat → α) (w n : Nat) : Prop :=
  ∀ d, 1 ≤ d → d ≤ S → d ≤ n → buffer (behind S w d) = inp (n - d)

namespace vintage_delay_audio_module

/-- A smoother that has settled at the value `v`: a read yields `v`, and
neither a read nor a step changes the smoother. -/
def Settled {α G F : Type} (E : Env α G F) (g : G) (v : α) : Prop :=
  E.get g = (v, g) ∧ E.step g = g

/-- The counter `age` of a module `n` samples after `activate()`: the sample
count itself, or `MAX_DELAY` (`M`) or more once the count has reached it. -/
def Aged (M : Nat) (age : Int) (n : Nat) : Prop :=
  age = n ∨ ((M : Int) ≤ age ∧ M ≤ n)

/-- What a STEREO module with medium 0 keeps `n` samples after `activate()`
while its left input is the stream `inL`, its left feedback is zero and its
gains are settled: the settings, the smoothers, a cursor inside the ring, and
a left buffer that holds the input samples written so far. -/
structure StereoLeft {α G F : Type} (M dl : Nat) (ga gf gd gc : G) (inL : Nat → α)
    (s : State α G F) (n : Nat) : Prop where
  mode : s.mixmode = MIXMODE_STEREO
  medium : s.medium = 0
  deltime : s.deltime_l = dl
  amt : s.amt_left = ga
  fb : s.fb_left = gf
  dry : s.dry = gd
  chmix : s.chmix = gc
  ptr_nonneg : 0 ≤ s.bufptr
  ptr_lt : s.bufptr < M
  age : Aged M s.age n
  recent : Recent M inL s.buffers0 s.bufptr.toNat n

end vintage_delay_audio_module

namespace vintage_delay_audio_module

/-- What a PINGPONG module with medium 0 and settled gains keeps `n` samples
after `activate()`: the settings, the smoothers, a cursor inside the ring,
and, up to sample `T`, two buffers that hold the streams `a0` and `a1` of the
values written so far. -/
structure PingPong {α G F : Type} (M dl dr T : Nat) (gal gar gfl gfr gd gc : G)
    (a0 a1 : Nat → α) (s : State α G F) (n : Nat) : Prop where
  mode : s.mixmode = MIXMODE_PINGPONG
  medium : s.medium = 0
  deltime_l : s.deltime_l = dl
  deltime_r : s.deltime_r = dr
  amt_l : s.amt_left = gal
  amt_r : s.amt_right = gar
  fb_l : s.fb_left = gfl
  fb_r : s.fb_right = gfr
  dry : s.dry = gd
  chmix : s.chmix = gc
  ptr_nonneg : 0 ≤ s.bufptr
  ptr_lt : s.bufptr < M
  age : Aged M s.age n
  recent0 : n ≤ T → Recent M a0 s.buffers0 s.bufptr.toNat n
  recent1 : n ≤ T → Recent M a1 s.buffers1 s.bufptr.toNat n

/-- A unit impulse at sample `t`: 1 at index `t`, silence elsewhere. -/
def impulse_at {α : Type} [Zero α] [One α] (t : Nat) : Nat → α :=
  fun n => if n = t then 1 else 0

end vintage_delay_audio_module

/-! # Theorems -/

/-! ## Circular buffer arithmetic -/

theorem and_mask_eq_mod (x k : Nat) : x &&& (2 ^ k - 1) = x % 2 ^ k :=
  Nat.and_pow_two_sub_one_eq_mod x k

theorem succ_mod_ring (S w : Nat) (hw : w < S) :
    (w + 1) % S = if w + 1 = S then 0 else w + 1 := by
  split_ifs with h
  · rw [h, Nat.mod_self]
  · exact Nat.mod_eq_of_lt (by omega)

theorem sub_mod_ring (S w d : Nat) (hw : w < S) (hd : d ≤ S) :
    (w + S - d) % S = behind S w d := by
  unfold behind
  split_ifs with h1
  · rw [Nat.mod_eq_sub_mod (by omega), Nat.mod_eq_of_lt (by omega)]; omega
  · exact Nat.mod_eq_of_lt (by omega)

/-- The mask `buf_size - 1` computed in `uint32_t` for a power-of-two size. -/
theorem mask_pow (k : Nat) (hk : k ≤ 31) : (2 ^ k + U32 - 1) % U32 = 2 ^ k - 1 := by
  have h1 : 0 < 2 ^ k := Nat.two_pow_pos k
  have h2 : 2 ^ k ≤ 2 ^ 31 := Nat.pow_le_pow_right (by decide) hk
  have h3 : 2 ^ k + U32 - 1 = (2 ^ k - 1) + U32 := by omega
  rw [h3, Nat.add_mod_right]
  exact Nat.mod_eq_of_lt (by unfold U32; omega)

/-- Advancing a pointer: `(ptr + 1) & b_mask` in `uint32_t`. -/
theorem advance_ptr (k w : Nat) (hk : k ≤ 31) (hw : w < 2 ^ k) :
    ((w + 1) % U32) &&& (2 ^ k - 1) = if w + 1 = 2 ^ k then 0 else w + 1 := by
  have h2 : 2 ^ k ≤ 2 ^ 31 := Nat.pow_le_pow_right (by decide) hk
  rw [and_mask_eq_mod, Nat.mod_eq_of_lt (show w + 1 < U32 by unfold U32; omega)]
  exact succ_mod_ring _ _ hw

/-- The initial read pointer `(write_ptr + buf_size - delay) & b_mask`. -/
theorem initial_ptr (k w d : Nat) (hk : k ≤ 31) (hw : w < 2 ^ k) (hd : d ≤ 2 ^ k) :
    (((w + 2 ^ k) % U32 + U32 - d) % U32) &&& (2 ^ k - 1) = behind (2 ^ k) w d := by
  have h2 : 2 ^ k ≤ 2 ^ 31 := Nat.pow_le_pow_right (by decide) hk
  rw [and_mask_eq_mod, Nat.mod_eq_of_lt (show w + 2 ^ k < U32 by unfold U32; omega)]
  have h3 : w + 2 ^ k + U32 - d = (w + 2 ^ k - d) + U32 := by omega
  rw [h3, Nat.add_mod_right, Nat.mod_eq_of_lt (show w + 2 ^ k - d < U32 by unfold U32; omega)]
  exact sub_mod_ring _ _ _ hw hd

theorem behind_lt (S w d : Nat) (hw : w < S) (hd : 1 ≤ d) : behind S w d < S := by
  unfold behind; split_ifs <;> omega

theorem behind_advance (S w d : Nat) (hw : w < S) (hd : d < S) :
    behind S (if w + 1 = S then 0 else w + 1) d
      = (if behind S w d + 1 = S then 0 else behind S w d + 1) := by
  unfold behind; split_ifs <;> omega

/-- Writing the next sample and advancing keeps the ring's contents in step
with the stream. -/
theorem Holds.write {α : Type} [Zero α] {S : Nat} {inp buffer : Nat → α} {w n : Nat}
    (h : Holds S inp buffer w n) :
    Holds S inp (upd buffer w (inp n)) (if w + 1 = S then 0 else w + 1) (n + 1) := by
  intro d hd1 hdS
  by_cases h1 : d = 1
  · subst h1
    have : behind S (if w + 1 = S then 0 else w + 1) 1 = w := by
      unfold behind; split_ifs <;> omega
    simp [this, upd, tap]
  · have hpos : behind S (if w + 1 = S then 0 else w + 1) d = behind S w (d - 1) := by
      unfold behind; split_ifs <;> omega
    have hne : behind S w (d - 1) ≠ w := by
      unfold behind; split_ifs <;> omega
    rw [hpos]
    simp only [upd, if_neg hne]
    rw [h (d - 1) (by omega) (by omega)]
    unfold tap
    by_cases h2 : d ≤ n + 1
    · rw [if_pos h2, if_pos (by omega)]; congr 1; omega
    · rw [if_neg h2, if_neg (by omega)]

/-- Reading `d` places behind the sample just written gives the stream's
sample `d` places back. -/
theorem Holds.read {α : Type} [Zero α] {S : Nat} {inp buffer : Nat → α} {w n : Nat}
    (h : Holds S inp buffer w n) (d : Nat) (hd : d < S) :
    upd buffer w (inp n) (behind S w d) = tap inp n d := by
  by_cases h0 : d = 0
  · subst h0; simp [behind, upd, tap]
  · have hne : behind S w d ≠ w := by
      unfold behind; split_ifs <;> omega
    simp only [upd, if_neg hne]
    exact h d (by omega) (by omega)

theorem Holds.zero {α : Type} [Zero α] {S : Nat} (inp buffer : Nat → α) (w : Nat)
    (hw : w < S) (hz : ∀ i, i < S → buffer i = 0) : Holds S inp buffer w 0 := by
  intro d hd1 _
  rw [hz _ (behind_lt S w d hw hd1)]
  unfold tap
  rw [if_neg (by omega)]

/-! ## Loops -/

/-- A property of the state that every iteration keeps is kept by the loop. -/
theorem for_range_keeps {σ : Type} (body : Nat → σ → σ) (P : σ → Prop)
    (h : ∀ i s, P s → P (body i s)) : ∀ (count i : Nat) (s : σ), P s → P (for_range body i count s) := by
  intro count
  induction count with
  | zero => intro i s hs; exact hs
  | succ c ih => intro i s hs; exact ih (i + 1) _ (h i s hs)

/-! ## Compensation delay -/

namespace comp_delay_audio_module

theorem body_spec {α : Type} [Add α] [Mul α] [Zero α] (k delay : Nat) (hk : k ≤ 31)
    (hd : delay < 2 ^ k) (dry wet : α) (inp ins : Nat → α) (i n : Nat) (l : Loop α)
    (hw : l.w_ptr < 2 ^ k) (hr : l.r_ptr = behind (2 ^ k) l.w_ptr delay)
    (hh : Holds (2 ^ k) inp l.buffer l.w_ptr n) (hi : ins i = inp n) :
    (body dry wet (2 ^ k - 1) ins i l).w_ptr < 2 ^ k ∧
    (body dry wet (2 ^ k - 1) ins i l).r_ptr
      = behind (2 ^ k) (body dry wet (2 ^ k - 1) ins i l).w_ptr delay ∧
    Holds (2 ^ k) inp (body dry wet (2 ^ k - 1) ins i l).buffer
      (body dry wet (2 ^ k - 1) ins i l).w_ptr (n + 1) ∧
    (body dry wet (2 ^ k - 1) ins i l).outs
      = upd l.outs i (dry * inp n + wet * tap inp n delay) := by
  have hr1 : l.r_ptr < 2 ^ k := by
    rw [hr]; unfold behind; split_ifs <;> omega
  simp only [body, hi, advance_ptr k _ hk hw, advance_ptr k _ hk hr1]
  refine ⟨by split_ifs <;> omega, ?_, hh.write, ?_⟩
  · rw [hr, behind_advance _ _ _ hw hd]
  · rw [hr, hh.read delay hd]

theorem loop_spec {α : Type} [Add α] [Mul α] [Zero α] (k delay : Nat) (hk : k ≤ 31)
    (hd : delay < 2 ^ k) (dry wet : α) (inp ins : Nat → α) :
    ∀ (count i n : Nat) (l : Loop α), l.w_ptr < 2 ^ k →
      l.r_ptr = behind (2 ^ k) l.w_ptr delay →
      Holds (2 ^ k) inp l.buffer l.w_ptr n →
      (∀ j, j < count → ins (i + j) = inp (n + j)) →
      (for_range (body dry wet (2 ^ k - 1) ins) i count l).w_ptr < 2 ^ k ∧
      Holds (2 ^ k) inp (for_range (body dry wet (2 ^ k - 1) ins) i count l).buffer
        (for_range (body dry wet (2 ^ k - 1) ins) i count l).w_ptr (n + count) ∧
      (∀ j, j < count → (for_range (body dry wet (2 ^ k - 1) ins) i count l).outs (i + j)
        = dry * inp (n + j) + wet * tap inp (n + j) delay) ∧
      (∀ m, m < i → (for_range (body dry wet (2 ^ k - 1) ins) i count l).outs m = l.outs m) := by
  intro count
  induction count with
  | zero =>
    intro i n l hw _ hh _
    exact ⟨hw, hh, fun j hj => absurd hj (Nat.not_lt_zero j), fun _ _ => rfl⟩
  | succ c ih =>
    intro i n l hw hr hh hins
    obtain ⟨bw, br, bh, bo⟩ := body_spec k delay hk hd dry wet inp ins i n l hw hr hh
      (by simpa using hins 0 (Nat.succ_pos c))
    obtain ⟨rw', rh, ro, rf⟩ := ih (i + 1) (n + 1) _ bw br bh
      (fun j hj => by have := hins (j + 1) (by omega); rwa [show i + 1 + j = i + (j + 1) by omega,
        show n + 1 + j = n + (j + 1) by omega])
    simp only [for_range]
    refine ⟨rw', by rwa [show n + (c + 1) = n + 1 + c by omega], ?_, ?_⟩
    · intro j hj
      cases j with
      | zero =>
        show (for_range (body dry wet (2 ^ k - 1) ins) (i + 1) c
          (body dry wet (2 ^ k - 1) ins i l)).outs i = dry * inp n + wet * tap inp n delay
        rw [rf i (Nat.lt_succ_self i), bo]
        simp [upd]
      | succ j =>
        have := ro j (by omega)
        rwa [show i + 1 + j = i + (j + 1) by omega,
          show n + 1 + j = n + (j + 1) by omega] at this
    · intro m hm
      rw [rf m (by omega), bo]
      simp only [upd, if_neg (show m ≠ i by omega)]

/-- A non-bypassed `process` call on a state whose ring holds the stream so
far: its window of `outs[0]` is the dry/wet mix and the ring holds the
stream extended by the block. -/
theorem process_spec {α : Type} [Add α] [Mul α] [Zero α] (k : Nat) (hk : k ≤ 31)
    (s : State α) (p : Params α) (inp ins outs : Nat → α) (offset numsamples n : Nat)
    (hb : p.bypass = false) (hS : s.buf_size = 2 ^ k) (hw : s.write_ptr < 2 ^ k)
    (hd : s.delay < 2 ^ k) (hh : Holds (2 ^ k) inp s.buffer s.write_ptr n)
    (hlen : offset + numsamples < U32)
    (hins : ∀ j, j < numsamples → ins (offset + j) = inp (n + j)) :
    (process s p offset numsamples ins outs).1.buf_size = 2 ^ k ∧
    (process s p offset numsamples ins outs).1.delay = s.delay ∧
    (process s p offset numsamples ins outs).1.write_ptr < 2 ^ k ∧
    Holds (2 ^ k) inp (process s p offset numsamples ins outs).1.buffer
      (process s p offset numsamples ins outs).1.write_ptr (n + numsamples) ∧
    (∀ j, j < numsamples → (process s p offset numsamples ins outs).2 (offset + j)
      = p.dry * inp (n + j) + p.wet * tap inp (n + j) s.delay) := by
  have hcount : (offset + numsamples) % U32 - offset = numsamples := by
    rw [Nat.mod_eq_of_lt hlen]; omega
  have h := loop_spec k s.delay hk hd p.dry p.wet inp ins numsamples offset n
    { buffer := s.buffer, w_ptr := s.write_ptr,
      r_ptr := behind (2 ^ k) s.write_ptr s.delay, outs := outs } hw rfl hh hins
  simp only [process, hb, hS, mask_pow k hk, hcount, initial_ptr k _ _ hk hw (Nat.le_of_lt hd),
    Bool.false_eq_true, if_false]
  exact ⟨trivial, trivial, h.1, h.2.1, h.2.2.1⟩

theorem stream_spec {α : Type} [Add α] [Mul α] [Zero α] (k : Nat) (hk : k ≤ 31)
    (p : Params α) (inp outs0 : Nat → α) (hb : p.bypass = false) (delay : Nat)
    (hd : delay < 2 ^ k) :
    ∀ (calls : List (Nat × Nat)) (s : State α) (n : Nat), s.buf_size = 2 ^ k →
      s.write_ptr < 2 ^ k → s.delay = delay → Holds (2 ^ k) inp s.buffer s.write_ptr n →
      (∀ c ∈ calls, c.1 + c.2 < U32) →
      stream p inp outs0 s n calls
        = (List.range (calls.map Prod.snd).sum).map
            (fun j => p.dry * inp (n + j) + p.wet * tap inp (n + j) delay) := by
  intro calls
  induction calls with
  | nil => intro s n _ _ _ _ _; simp [stream]
  | cons c rest ih =>
    intro s n hS hw hdel hh hc
    obtain ⟨offset, numsamples⟩ := c
    have hp := process_spec k hk s p inp (fun i => inp (n + (i - offset))) outs0 offset
      numsamples n hb hS hw (hdel ▸ hd) hh (hc _ (List.mem_cons_self _ _))
      (fun j _ => by simp)
    obtain ⟨pS, pd, pw, ph, po⟩ := hp
    have := ih _ (n + numsamples) pS pw (pd.trans hdel) ph
      (fun c hc' => hc c (List.mem_cons_of_mem _ hc'))
    simp only [stream, this, List.map_cons, List.sum_cons, List.range_add, List.map_append,
      List.map_map]
    congr 1
    · apply List.map_congr_left
      intro j hj
      rw [po j (List.mem_range.mp hj), hdel]
    · apply List.map_congr_left
      intro j _
      simp [Nat.add_assoc]

end comp_delay_audio_module

/-- C1. Compensation delay, bypass off.  From a zero-filled buffer of
power-of-two capacity and any `write_ptr < buf_size`, for every
`delay ≤ buf_size / 2` and every stream split in any way into consecutive
`process` calls, output sample `n` is `dry * in[n] + wet * in[n - delay]`
(with `in[k] = 0` for `k < 0`).  In particular, when `a * one = a` and
`a * 0 = 0` in the sample arithmetic, a unit impulse at sample 0 gives `dry`
at sample 0 plus `wet` exactly `delay` samples later. -/
theorem comp_delay_accuracy {α : Type} [Add α] [Mul α] [Zero α] (k : Nat) (hk : k ≤ 31)
    (s : comp_delay_audio_module.State α) (p : comp_delay_audio_module.Params α)
    (inp outs0 : Nat → α) (calls : List (Nat × Nat))
    (hb : p.bypass = false) (hS : s.buf_size = 2 ^ k)
    (hz : ∀ i, i < s.buf_size → s.buffer i = 0) (hw : s.write_ptr < s.buf_size)
    (hd : s.delay ≤ s.buf_size / 2) (hc : ∀ c ∈ calls, c.1 + c.2 < U32) :
    comp_delay_audio_module.stream p inp outs0 s 0 calls
        = (List.range (calls.map Prod.snd).sum).map
            (fun n => p.dry * inp n + p.wet * tap inp n s.delay) ∧
    ∀ one : α, (∀ a : α, a * one = a) → (∀ a : α, a * 0 = 0) → inp = impulse one →
      comp_delay_audio_module.stream p inp outs0 s 0 calls
        = (List.range (calls.map Prod.snd).sum).map
            (fun n => (if n = 0 then p.dry else 0) + (if n = s.delay then p.wet else 0)) := by
  have hpos : 0 < 2 ^ k := Nat.two_pow_pos k
  have hd' : s.delay < 2 ^ k := by
    rw [hS] at hd
    exact Nat.lt_of_le_of_lt hd (Nat.div_lt_self hpos (by decide))
  have main := comp_delay_audio_module.stream_spec k hk p inp outs0 hb s.delay hd' calls s 0 hS
    (hS ▸ hw) rfl (Holds.zero inp s.buffer s.write_ptr (hS ▸ hw) (fun i hi => hz i (hS ▸ hi)))
    hc
  simp only [Nat.zero_add] at main
  refine ⟨main, ?_⟩
  intro one h1 h0 himp
  rw [main]
  apply List.map_congr_left
  intro n _
  subst himp
  unfold tap impulse
  by_cases hn : n = 0
  · subst hn
    by_cases hdz : s.delay = 0
    · simp [hdz, h1]
    · have : ¬ s.delay ≤ 0 := by omega
      simp [this, h1, h0, Ne.symm hdz]
  · by_cases hnd : n = s.delay
    · subst hnd; simp [hn, h1, h0]
    · by_cases hle : s.delay ≤ n
      · have : n - s.delay ≠ 0 := by omega
        simp [hn, hnd, hle, this, h0]
      · simp [hn, hnd, hle, h0]

/-- C1 at a concrete input: capacity 4, `write_ptr = 3`, `delay = 2`, seven
samples in two calls (past the wraparound). -/
theorem comp_delay_accuracy_witness :
    comp_delay_audio_module.stream
        ({ bypass := false, dry := 2, wet := 3 } : comp_delay_audio_module.Params Int)
        (fun n => (n : Int) + 1) (fun _ => 0)
        { buffer := fun _ => 0, buf_size := 4, delay := 2, write_ptr := 3 } 0 [(0, 3), (5, 4)]
      = [2, 4, 9, 14, 19, 24, 29] :=
  (@comp_delay_accuracy Int _ _ _ 2 (by decide)
    { buffer := fun _ => 0, buf_size := 4, delay := 2, write_ptr := 3 }
    { bypass := false, dry := 2, wet := 3 } (fun n => (n : Int) + 1) (fun _ => 0)
    [(0, 3), (5, 4)] rfl rfl (fun _ _ => rfl) (by decide) (by decide) (by decide)).1.trans
    (by decide)

/-! ## Haas enhancer -/

namespace haas_enhancer_audio_module

theorem haas_body_spec {α : Type} [Add α] [Sub α] [Mul α] [Zero α] [LT α]
    [DecidableRel (LT.lt : α → α → Prop)] (k d0 d1 : Nat) (hk : k ≤ 31)
    (hd0 : d0 < 2 ^ k) (hd1 : d1 < 2 ^ k) (half : α) (s : State α) (p : Params α)
    (mid ins0 ins1 : Nat → α) (i n : Nat) (l : Loop α)
    (hw : l.w_ptr < 2 ^ k) (h0 : l.s0_ptr = behind (2 ^ k) l.w_ptr d0)
    (h1 : l.s1_ptr = behind (2 ^ k) l.w_ptr d1)
    (hh : Holds (2 ^ k) mid l.buffer l.w_ptr n)
    (hi : mid_source half s.m_source (ins0 i) (ins1 i) = mid n) :
    (body half s p (2 ^ k - 1) ins0 ins1 i l).w_ptr < 2 ^ k ∧
    (body half s p (2 ^ k - 1) ins0 ins1 i l).s0_ptr
      = behind (2 ^ k) (body half s p (2 ^ k - 1) ins0 ins1 i l).w_ptr d0 ∧
    (body half s p (2 ^ k - 1) ins0 ins1 i l).s1_ptr
      = behind (2 ^ k) (body half s p (2 ^ k - 1) ins0 ins1 i l).w_ptr d1 ∧
    Holds (2 ^ k) mid (body half s p (2 ^ k - 1) ins0 ins1 i l).buffer
      (body half s p (2 ^ k - 1) ins0 ins1 i l).w_ptr (n + 1) ∧
    (body half s p (2 ^ k - 1) ins0 ins1 i l).outs0
      = upd l.outs0 i (mid n * p.m_gain
          + (tap mid n d0 * p.s_gain * s.s_bal_l0 - tap mid n d1 * p.s_gain * s.s_bal_l1)) ∧
    (body half s p (2 ^ k - 1) ins0 ins1 i l).outs1
      = upd l.outs1 i (mid n * p.m_gain
          + (tap mid n d1 * p.s_gain * s.s_bal_r1 - tap mid n d0 * p.s_gain * s.s_bal_r0)) := by
  have hr0 : l.s0_ptr < 2 ^ k := by
    rw [h0]; unfold behind; split_ifs <;> omega
  have hr1 : l.s1_ptr < 2 ^ k := by
    rw [h1]; unfold behind; split_ifs <;> omega
  simp only [body, hi, advance_ptr k _ hk hw, advance_ptr k _ hk hr0, advance_ptr k _ hk hr1]
  refine ⟨by split_ifs <;> omega, ?_, ?_, hh.write, ?_, ?_⟩
  · rw [h0, behind_advance _ _ _ hw hd0]
  · rw [h1, behind_advance _ _ _ hw hd1]
  · rw [h0, h1, hh.read d0 hd0, hh.read d1 hd1]
  · rw [h0, h1, hh.read d0 hd0, hh.read d1 hd1]

theorem haas_loop_spec {α : Type} [Add α] [Sub α] [Mul α] [Zero α] [LT α]
    [DecidableRel (LT.lt : α → α → Prop)] (k d0 d1 : Nat) (hk : k ≤ 31)
    (hd0 : d0 < 2 ^ k) (hd1 : d1 < 2 ^ k) (half : α) (s : State α) (p : Params α)
    (mid ins0 ins1 : Nat → α) :
    ∀ (count i n : Nat) (l : Loop α), l.w_ptr < 2 ^ k →
      l.s0_ptr = behind (2 ^ k) l.w_ptr d0 → l.s1_ptr = behind (2 ^ k) l.w_ptr d1 →
      Holds (2 ^ k) mid l.buffer l.w_ptr n →
      (∀ j, j < count → mid_source half s.m_source (ins0 (i + j)) (ins1 (i + j)) = mid (n + j)) →
      (for_range (body half s p (2 ^ k - 1) ins0 ins1) i count l).w_ptr < 2 ^ k ∧
      Holds (2 ^ k) mid (for_range (body half s p (2 ^ k - 1) ins0 ins1) i count l).buffer
        (for_range (body half s p (2 ^ k - 1) ins0 ins1) i count l).w_ptr (n + count) ∧
      (∀ j, j < count →
        (for_range (body half s p (2 ^ k - 1) ins0 ins1) i count l).outs0 (i + j)
          = mid (n + j) * p.m_gain + (tap mid (n + j) d0 * p.s_gain * s.s_bal_l0
              - tap mid (n + j) d1 * p.s_gain * s.s_bal_l1) ∧
        (for_range (body half s p (2 ^ k - 1) ins0 ins1) i count l).outs1 (i + j)
          = mid (n + j) * p.m_gain + (tap mid (n + j) d1 * p.s_gain * s.s_bal_r1
              - tap mid (n + j) d0 * p.s_gain * s.s_bal_r0)) ∧
      (∀ m, m < i →
        (for_range (body half s p (2 ^ k - 1) ins0 ins1) i count l).outs0 m = l.outs0 m ∧
        (for_range (body half s p (2 ^ k - 1) ins0 ins1) i count l).outs1 m = l.outs1 m) := by
  intro count
  induction count with
  | zero =>
    intro i n l hw _ _ hh _
    exact ⟨hw, hh, fun j hj => absurd hj (Nat.not_lt_zero j), fun _ _ => ⟨rfl, rfl⟩⟩
  | succ c ih =>
    intro i n l hw h0 h1 hh hins
    obtain ⟨bw, b0, b1, bh, bo0, bo1⟩ := haas_body_spec k d0 d1 hk hd0 hd1 half s p mid ins0 ins1
      i n l hw h0 h1 hh (by simpa using hins 0 (Nat.succ_pos c))
    obtain ⟨rw', rh, ro, rf⟩ := ih (i + 1) (n + 1) _ bw b0 b1 bh
      (fun j hj => by have := hins (j + 1) (by omega); rwa [show i + 1 + j = i + (j + 1) by omega,
        show n + 1 + j = n + (j + 1) by omega])
    simp only [for_range]
    refine ⟨rw', by rwa [show n + (c + 1) = n + 1 + c by omega], ?_, ?_⟩
    · intro j hj
      cases j with
      | zero =>
        show (for_range (body half s p (2 ^ k - 1) ins0 ins1) (i + 1) c
            (body half s p (2 ^ k - 1) ins0 ins1 i l)).outs0 i = _ ∧
          (for_range (body half s p (2 ^ k - 1) ins0 ins1) (i + 1) c
            (body half s p (2 ^ k - 1) ins0 ins1 i l)).outs1 i = _
        rw [(rf i (Nat.lt_succ_self i)).1, (rf i (Nat.lt_succ_self i)).2, bo0, bo1]
        simp [upd]
      | succ j =>
        have := ro j (by omega)
        rwa [show i + 1 + j = i + (j + 1) by omega,
          show n + 1 + j = n + (j + 1) by omega] at this
    · intro m hm
      rw [(rf m (by omega)).1, (rf m (by omega)).2, bo0, bo1]
      simp only [upd, if_neg (show m ≠ i by omega)]
      exact ⟨trivial, trivial⟩

theorem haas_process_spec {α : Type} [Add α] [Sub α] [Mul α] [Zero α] [LT α]
    [DecidableRel (LT.lt : α → α → Prop)] (k : Nat) (hk : k ≤ 31) (half : α)
    (s : State α) (p : Params α) (mid ins0 ins1 outs0 outs1 : Nat → α)
    (offset numsamples n : Nat)
    (hS : s.buf_size = 2 ^ k) (hw : s.write_ptr < 2 ^ k)
    (hd0 : s.s_delay0 < 2 ^ k) (hd1 : s.s_delay1 < 2 ^ k)
    (hh : Holds (2 ^ k) mid s.buffer s.write_ptr n) (hlen : offset + numsamples < U32)
    (hins : ∀ j, j < numsamples →
      mid_source half s.m_source (ins0 (offset + j)) (ins1 (offset + j)) = mid (n + j)) :
    (run_loop half s p offset numsamples ins0 ins1 outs0 outs1).w_ptr < 2 ^ k ∧
    Holds (2 ^ k) mid (run_loop half s p offset numsamples ins0 ins1 outs0 outs1).buffer
      (run_loop half s p offset numsamples ins0 ins1 outs0 outs1).w_ptr (n + numsamples) ∧
    (∀ j, j < numsamples →
      (run_loop half s p offset numsamples ins0 ins1 outs0 outs1).outs0 (offset + j)
        = mid (n + j) * p.m_gain + (tap mid (n + j) s.s_delay0 * p.s_gain * s.s_bal_l0
            - tap mid (n + j) s.s_delay1 * p.s_gain * s.s_bal_l1) ∧
      (run_loop half s p offset numsamples ins0 ins1 outs0 outs1).outs1 (offset + j)
        = mid (n + j) * p.m_gain + (tap mid (n + j) s.s_delay1 * p.s_gain * s.s_bal_r1
            - tap mid (n + j) s.s_delay0 * p.s_gain * s.s_bal_r0)) := by
  have hcount : (offset + numsamples) % U32 - offset = numsamples := by
    rw [Nat.mod_eq_of_lt hlen]; omega
  have h := haas_loop_spec k s.s_delay0 s.s_delay1 hk hd0 hd1 half s p mid ins0 ins1
    numsamples offset n
    { buffer := s.buffer, w_ptr := s.write_ptr,
      s0_ptr := behind (2 ^ k) s.write_ptr s.s_delay0,
      s1_ptr := behind (2 ^ k) s.write_ptr s.s_delay1,
      outs0 := outs0, outs1 := outs1, mtr_mid := 0, mtr_side_l := 0, mtr_side_r := 0 }
    hw rfl rfl hh hins
  simp only [run_loop, hS, mask_pow k hk, hcount,
    initial_ptr k _ _ hk hw (Nat.le_of_lt hd0), initial_ptr k _ _ hk hw (Nat.le_of_lt hd1)]
  exact ⟨h.1, h.2.1, h.2.2.1⟩

theorem haas_stream_spec {α : Type} [Add α] [Sub α] [Mul α] [Zero α] [LT α]
    [DecidableRel (LT.lt : α → α → Prop)] (k : Nat) (hk : k ≤ 31) (half mg sg : α)
    (s : State α) (inL inR outs0 outs1 : Nat → α) (hS : s.buf_size = 2 ^ k)
    (hd0 : s.s_delay0 < 2 ^ k) (hd1 : s.s_delay1 < 2 ^ k) :
    ∀ (calls : List (Nat × Nat)) (B : Nat → α) (w : Nat) (a b c : α) (n : Nat), w < 2 ^ k →
      Holds (2 ^ k) (fun m => mid_source half s.m_source (inL m) (inR m)) B w n →
      (∀ c ∈ calls, c.1 + c.2 < U32) →
      stream half inL inR outs0 outs1 { s with buffer := B, write_ptr := w }
          { bypass := false, m_gain := mg, s_gain := sg, mtr_m := a, mtr_s_l := b, mtr_s_r := c }
          n calls
        = (List.range (calls.map Prod.snd).sum).map (fun j =>
            (mid_source half s.m_source (inL (n + j)) (inR (n + j)) * mg
              + (tap (fun m => mid_source half s.m_source (inL m) (inR m)) (n + j) s.s_delay0
                    * sg * s.s_bal_l0
                - tap (fun m => mid_source half s.m_source (inL m) (inR m)) (n + j) s.s_delay1
                    * sg * s.s_bal_l1),
             mid_source half s.m_source (inL (n + j)) (inR (n + j)) * mg
              + (tap (fun m => mid_source half s.m_source (inL m) (inR m)) (n + j) s.s_delay1
                    * sg * s.s_bal_r1
                - tap (fun m => mid_source half s.m_source (inL m) (inR m)) (n + j) s.s_delay0
                    * sg * s.s_bal_r0))) := by
  intro calls
  induction calls with
  | nil => intro B w a b c n _ _ _; simp [stream]
  | cons cl rest ih =>
    intro B w a b c n hw hh hc
    obtain ⟨offset, numsamples⟩ := cl
    obtain ⟨pw, ph, po⟩ := haas_process_spec k hk half { s with buffer := B, write_ptr := w }
      { bypass := false, m_gain := mg, s_gain := sg, mtr_m := a, mtr_s_l := b, mtr_s_r := c }
      (fun m => mid_source half s.m_source (inL m) (inR m))
      (fun i => inL (n + (i - offset))) (fun i => inR (n + (i - offset))) outs0 outs1
      offset numsamples n hS hw hd0 hd1 hh (hc _ (List.mem_cons_self _ _)) (fun j _ => by simp)
    simp only [stream, process, Bool.false_eq_true, if_false, List.map_cons, List.sum_cons,
      List.range_add, List.map_append, List.map_map]
    rw [ih _ _ _ _ _ (n + numsamples) pw ph (fun c hc' => hc c (List.mem_cons_of_mem _ hc'))]
    congr 1
    · apply List.map_congr_left
      intro j hj
      rw [(po j (List.mem_range.mp hj)).1, (po j (List.mem_range.mp hj)).2]
    · apply List.map_congr_left
      intro j _
      simp [Nat.add_assoc]

end haas_enhancer_audio_module

theorem mid_source_eq_spec_mid {α : Type} [Add α] [Sub α] [Mul α] [Zero α] (half : α)
    (m_source : Nat) (inL inR : Nat → α) :
    (fun n => haas_enhancer_audio_module.mid_source half m_source (inL n) (inR n))
      = spec_mid half m_source inL inR := by
  funext n
  unfold haas_enhancer_audio_module.mid_source spec_mid
  match m_source with
  | 0 => rfl
  | 1 => rfl
  | 2 => rfl
  | 3 => rfl
  | m + 4 => simp

/-- C8. Haas enhancer, bypass off.  From a zero-filled buffer (power-of-two
capacity, `write_ptr < buf_size`) with `s_delay[0] < buf_size` and
`s_delay[1] < buf_size`, for every stereo stream split in any way into
consecutive `process` calls, with `mid` the selected mid signal (silent before
sample 0), the outputs at sample `n` are
`mid[n]*m_gain + (mid[n-d0]*s_gain*s_bal_l[0] - mid[n-d1]*s_gain*s_bal_l[1])` and
`mid[n]*m_gain + (mid[n-d1]*s_gain*s_bal_r[1] - mid[n-d0]*s_gain*s_bal_r[0])`. -/
theorem haas_output {α : Type} [Add α] [Sub α] [Mul α] [Zero α] [LT α]
    [DecidableRel (LT.lt : α → α → Prop)] (k : Nat) (hk : k ≤ 31) (half : α)
    (s : haas_enhancer_audio_module.State α) (p : haas_enhancer_audio_module.Params α)
    (inL inR outs0 outs1 : Nat → α) (calls : List (Nat × Nat))
    (hb : p.bypass = false) (hS : s.buf_size = 2 ^ k)
    (hz : ∀ i, i < s.buf_size → s.buffer i = 0) (hw : s.write_ptr < s.buf_size)
    (hd0 : s.s_delay0 < s.buf_size) (hd1 : s.s_delay1 < s.buf_size)
    (hc : ∀ c ∈ calls, c.1 + c.2 < U32) :
    haas_enhancer_audio_module.stream half inL inR outs0 outs1 s p 0 calls
      = (List.range (calls.map Prod.snd).sum).map (fun n =>
          (spec_mid half s.m_source inL inR n * p.m_gain
            + (tap (spec_mid half s.m_source inL inR) n s.s_delay0 * p.s_gain * s.s_bal_l0
              - tap (spec_mid half s.m_source inL inR) n s.s_delay1 * p.s_gain * s.s_bal_l1),
           spec_mid half s.m_source inL inR n * p.m_gain
            + (tap (spec_mid half s.m_source inL inR) n s.s_delay1 * p.s_gain * s.s_bal_r1
              - tap (spec_mid half s.m_source inL inR) n s.s_delay0 * p.s_gain * s.s_bal_r0))) := by
  obtain ⟨bypass, mg, sg, a, b, c⟩ := p
  simp only at hb
  subst hb
  rw [hS] at hw hd0 hd1 hz
  have h := haas_enhancer_audio_module.haas_stream_spec k hk half mg sg s inL inR outs0 outs1 hS
    hd0 hd1 calls s.buffer s.write_ptr a b c 0 hw
    (Holds.zero _ s.buffer s.write_ptr hw hz) hc
  simp only [Nat.zero_add, mid_source_eq_spec_mid,
    congrFun (mid_source_eq_spec_mid half s.m_source inL inR)] at h
  exact h

/-- C8 at a concrete input: capacity 4, `write_ptr = 1`, delays 1 and 3, mid
source 2 (half the sum), six samples in two calls. -/
theorem haas_output_witness :
    haas_enhancer_audio_module.stream (1 / 2 : ℚ) (fun n => (n : ℚ) + 1) (fun n => (n : ℚ) + 3)
        (fun _ => 0) (fun _ => 0)
        { buffer := fun _ => 0, buf_size := 4, write_ptr := 1, m_source := 2, s_delay0 := 1,
          s_delay1 := 3, s_bal_l0 := 1, s_bal_l1 := 2, s_bal_r0 := 3, s_bal_r1 := 4 }
        { bypass := false, m_gain := 1, s_gain := 1, mtr_m := 0, mtr_s_l := 0, mtr_s_r := 0 }
        0 [(2, 4), (0, 2)]
      = [(2, 2), (5, -3), (7, -5), (5, 1), (5, 3), (5, 5)] :=
  (@haas_output ℚ _ _ _ _ _ _ 2 (by decide) (1 / 2) _ _ _ _ _ _ _ rfl rfl
    (fun _ _ => rfl) (by decide) (by decide) (by decide) (by decide)).trans
    (by simp [spec_mid, tap, List.range_succ]; norm_num)

/-! ## Bypass paths, meters and the buffer size -/

/-- The bypass loop `while (offset < numsamples) { outs[offset] = ins[offset]; ++offset; }`
stores exactly the indices of `[offset, numsamples)`. -/
theorem copy_range_spec {α : Type} (ins : Nat → α) :
    ∀ (count lo : Nat) (outs : Nat → α) (j : Nat),
      for_range (fun i o => upd o i (ins i)) lo count outs j
        = if lo ≤ j ∧ j < lo + count then ins j else outs j := by
  intro count
  induction count with
  | zero => intro lo outs j; rw [if_neg (by omega)]; rfl
  | succ c ih =>
    intro lo outs j
    simp only [for_range, ih]
    by_cases h1 : lo + 1 ≤ j ∧ j < lo + 1 + c
    · rw [if_pos h1, if_pos (by omega)]
    · rw [if_neg h1]
      by_cases h2 : j = lo
      · subst h2; simp [upd]
      · rw [if_neg (by omega)]; simp [upd, h2]

/-- C2, the code at a failing input.  Bypass on, `offset = 2`, `numsamples = 3`,
`ins[0] = 1, 2, 3, 4, 5, 6` and `outs[0]` zero before the call: the window is
`[2, 5)`, but only index 2 is copied; `outs[0][3]` and `outs[0][4]` keep their
old contents instead of `ins[0][3] = 4` and `ins[0][4] = 5`. -/
theorem comp_delay_bypass_misses_window :
    (List.range 6).map
        (comp_delay_audio_module.process
          ({ buffer := fun _ => 0, buf_size := 4, delay := 1, write_ptr := 0 } :
            comp_delay_audio_module.State Int)
          { bypass := true, dry := 1, wet := 1 } 2 3 (fun i => (i : Int) + 1) (fun _ => 0)).2
      = [0, 0, 3, 0, 0, 0] := by
  decide

/-- C3, the code at a failing input.  Bypass on, `offset = 2`, `numsamples = 3`:
the window is `[2, 5)`, but only index 2 of either channel is copied. -/
theorem haas_bypass_misses_window :
    (List.range 6).map (fun i =>
        ((haas_enhancer_audio_module.process (1 : Int)
          { buffer := fun _ => 0, buf_size := 4, write_ptr := 0, m_source := 2, s_delay0 := 0,
            s_delay1 := 0, s_bal_l0 := 0, s_bal_l1 := 0, s_bal_r0 := 0, s_bal_r1 := 0 }
          { bypass := true, m_gain := 1, s_gain := 1, mtr_m := 0, mtr_s_l := 0, mtr_s_r := 0 }
          2 3 (fun i => (i : Int) + 1) (fun i => (i : Int) + 11)
          (fun _ => 0) (fun _ => 0)).outs0 i,
         (haas_enhancer_audio_module.process (1 : Int)
          { buffer := fun _ => 0, buf_size := 4, write_ptr := 0, m_source := 2, s_delay0 := 0,
            s_delay1 := 0, s_bal_l0 := 0, s_bal_l1 := 0, s_bal_r0 := 0, s_bal_r1 := 0 }
          { bypass := true, m_gain := 1, s_gain := 1, mtr_m := 0, mtr_s_l := 0, mtr_s_r := 0 }
          2 3 (fun i => (i : Int) + 1) (fun i => (i : Int) + 11)
          (fun _ => 0) (fun _ => 0)).outs1 i))
      = [(0, 0), (0, 0), (3, 13), (0, 0), (0, 0), (0, 0)] := by
  decide

/-- C9, the code at a failing input.  Bypass off, one sample `ins[0][0] = -3`,
mid source 0, all gains 1, both delays 0, `s_bal_l = (1, 0)`: the gained mid
and the left side signal are both `-3` (so `outs[0][0] = -6`), and the mid
meter and the left side meter read 0, below the magnitude 3 of the samples
they meter. -/
theorem haas_meter_misses_negative_peak :
    (fun r : haas_enhancer_audio_module.Result Int =>
        (r.outs0 0, r.params.mtr_m, r.params.mtr_s_l, r.params.mtr_s_r))
      (haas_enhancer_audio_module.process (1 : Int)
        { buffer := fun _ => 0, buf_size := 4, write_ptr := 0, m_source := 0, s_delay0 := 0,
          s_delay1 := 0, s_bal_l0 := 1, s_bal_l1 := 0, s_bal_r0 := 0, s_bal_r1 := 1 }
        { bypass := false, m_gain := 1, s_gain := 1, mtr_m := 9, mtr_s_l := 9, mtr_s_r := 9 }
        0 1 (fun _ => -3) (fun _ => 0) (fun _ => 0) (fun _ => 0))
      = (-6, 0, 0, 0) := by
  decide

/-- C10, the code at a failing input.  With `(uint32_t)(srate * COMP_DELAY_MAX_DELAY)`
taken as `srate * 28 / 100`: after `set_sample_rate(100)` (capacity 32),
`activate()` and a `process` call of 20 samples, `write_ptr = 20 < 32`;
`set_sample_rate(50)` then installs a buffer of capacity 16 and leaves
`write_ptr = 20`, and the next `process` call stores its first sample (7) at
index 20, outside `[0, 16)`.  The tuple lists the first capacity, `write_ptr`
after the 20 samples, the second capacity, `write_ptr` after the second
`set_sample_rate`, and `buffer[20]` after the next `process` call. -/
theorem comp_delay_set_sample_rate_keeps_write_ptr :
    ((comp_delay_audio_module.set_sample_rate (fun sr => sr * 28 / 100) 100
        ({ buffer := fun _ => 0, buf_size := 0, delay := 0, write_ptr := 0 } :
          comp_delay_audio_module.State Int)).bind fun (s1 : comp_delay_audio_module.State Int) =>
      (comp_delay_audio_module.set_sample_rate (fun sr => sr * 28 / 100) 50
        (comp_delay_audio_module.process (comp_delay_audio_module.activate s1)
          { bypass := false, dry := 1, wet := 1 } 0 20 (fun _ => 1) (fun _ => 0)).1).map fun (s3 : comp_delay_audio_module.State Int) =>
        (s1.buf_size,
         (comp_delay_audio_module.process (comp_delay_audio_module.activate s1)
          { bypass := false, dry := 1, wet := 1 } 0 20 (fun _ => 1) (fun _ => 0)).1.write_ptr,
         s3.buf_size, s3.write_ptr,
         (comp_delay_audio_module.process s3 { bypass := false, dry := 1, wet := 1 } 0 1
          (fun _ => 7) (fun _ => 0)).1.buffer 20))
      = some (32, 20, 16, 20, 7) := by
  decide

/-! ## Vintage delay: cold start -/

namespace vintage_delay_audio_module

theorem smoother_after_shift {α G F : Type} (E : Env α G F) (g : G) :
    ∀ n, smoother_after E g (n + 1) = smoother_after E (E.get g).2 n := by
  intro n
  induction n with
  | zero => rfl
  | succ n ih => show (E.get (smoother_after E g (n + 1))).2 = _; rw [ih]; rfl

theorem smoother_after_add {α G F : Type} (E : Env α G F) (g : G) (a : Nat) :
    ∀ b, smoother_after E (smoother_after E g a) b = smoother_after E g (a + b) := by
  intro b
  induction b with
  | zero => rfl
  | succ b ih => show (E.get (smoother_after E (smoother_after E g a) b)).2 = _; rw [ih]; rfl

/-- What one loop iteration does whichever delay-line routine it uses: the
fields the cold-start argument follows, and the outputs when both lines are
cold. -/
theorem finish_cold {α G F : Type} [Add α] [Mul α] [Zero α] (E : Env α G F)
    (ins0 ins1 : Nat → α) (i : Nat) (r : Run α G F) (left right : Line α G) :
    (finish E ins0 ins1 i r left right).st.age = r.st.age + 1 ∧
    (finish E ins0 ins1 i r left right).st.dry = (E.get r.st.dry).2 ∧
    (finish E ins0 ins1 i r left right).st.chmix = (E.get r.st.chmix).2 ∧
    (finish E ins0 ins1 i r left right).st.deltime_l = r.st.deltime_l ∧
    (finish E ins0 ins1 i r left right).st.deltime_r = r.st.deltime_r ∧
    (finish E ins0 ins1 i r left right).st.mixmode = r.st.mixmode ∧
    (∀ m, m ≠ i → (finish E ins0 ins1 i r left right).outs0 m = r.outs0 m ∧
      (finish E ins0 ins1 i r left right).outs1 m = r.outs1 m) ∧
    (finish E ins0 ins1 i r left right).outs0 i
      = ins0 i * (E.get r.st.dry).1 + E.lerp left.out right.out (E.get r.st.chmix).1 ∧
    (finish E ins0 ins1 i r left right).outs1 i
      = ins1 i * (E.get r.st.dry).1 + E.lerp right.out left.out (E.get r.st.chmix).1 := by
  refine ⟨rfl, rfl, rfl, rfl, rfl, rfl, ?_, ?_, ?_⟩
  · intro m hm
    simp [finish, upd, hm]
  · simp [finish, upd, delay_mix]
  · simp [finish, upd, delay_mix]

theorem delayline_impl_cold {α G F : Type} [Add α] [Mul α] [Zero α] (E : Env α G F)
    (age deltime : Int) (dry_value delayed_value : α) (amt fb : G) (h : age ≤ deltime) :
    (delayline_impl E age deltime dry_value delayed_value amt fb).out = 0 := by
  simp [delayline_impl, h]

theorem delayline2_impl_cold {α G F : Type} [Add α] [Mul α] [Zero α] (E : Env α G F)
    (age deltime : Int) (dry_value delayed_value delayed_value_for_fb : α) (amt fb : G)
    (h : age ≤ deltime) :
    (delayline2_impl E age deltime dry_value delayed_value delayed_value_for_fb amt fb).out
      = 0 := by
  simp [delayline2_impl, h]

/-- A loop whose iterations end in `finish` and whose delay lines are cold
while `age` is at most both delay times. -/
theorem cold_loop {α G F : Type} [Add α] [Mul α] [Zero α] (E : Env α G F)
    (ins0 ins1 : Nat → α) (body : Nat → Run α G F → Run α G F)
    (hstep : ∀ i r,
      (body i r).st.age = r.st.age + 1 ∧
      (body i r).st.dry = (E.get r.st.dry).2 ∧
      (body i r).st.chmix = (E.get r.st.chmix).2 ∧
      (body i r).st.deltime_l = r.st.deltime_l ∧
      (body i r).st.deltime_r = r.st.deltime_r ∧
      (body i r).st.mixmode = r.st.mixmode ∧
      (∀ m, m ≠ i → (body i r).outs0 m = r.outs0 m ∧ (body i r).outs1 m = r.outs1 m) ∧
      (r.st.age ≤ r.st.deltime_l → r.st.age ≤ r.st.deltime_r →
        (body i r).outs0 i = ins0 i * (E.get r.st.dry).1 + E.lerp 0 0 (E.get r.st.chmix).1 ∧
        (body i r).outs1 i = ins1 i * (E.get r.st.dry).1 + E.lerp 0 0 (E.get r.st.chmix).1)) :
    ∀ (count i : Nat) (r : Run α G F),
      (for_range body i count r).st.age = r.st.age + count ∧
      (for_range body i count r).st.dry = smoother_after E r.st.dry count ∧
      (for_range body i count r).st.chmix = smoother_after E r.st.chmix count ∧
      (for_range body i count r).st.deltime_l = r.st.deltime_l ∧
      (for_range body i count r).st.deltime_r = r.st.deltime_r ∧
      (for_range body i count r).st.mixmode = r.st.mixmode ∧
      (∀ m, m < i → (for_range body i count r).outs0 m = r.outs0 m ∧
        (for_range body i count r).outs1 m = r.outs1 m) ∧
      (∀ j, j < count → r.st.age + j ≤ r.st.deltime_l → r.st.age + j ≤ r.st.deltime_r →
        (for_range body i count r).outs0 (i + j)
          = ins0 (i + j) * smoothed E r.st.dry j + E.lerp 0 0 (smoothed E r.st.chmix j) ∧
        (for_range body i count r).outs1 (i + j)
          = ins1 (i + j) * smoothed E r.st.dry j + E.lerp 0 0 (smoothed E r.st.chmix j)) := by
  intro count
  induction count with
  | zero =>
    intro i r
    exact ⟨by simp [for_range], rfl, rfl, rfl, rfl, rfl, fun _ _ => ⟨rfl, rfl⟩,
      fun j hj => absurd hj (Nat.not_lt_zero j)⟩
  | succ c ih =>
    intro i r
    obtain ⟨sa, sd, sc, sl, sr, sm, sf, so⟩ := hstep i r
    obtain ⟨ra, rd, rc, rl, rr, rm, rf, ro⟩ := ih (i + 1) (body i r)
    simp only [for_range]
    refine ⟨?_, ?_, ?_, ?_, ?_, ?_, ?_, ?_⟩
    · rw [ra, sa]; push_cast; ring
    · rw [rd, sd, smoother_after_shift]
    · rw [rc, sc, smoother_after_shift]
    · rw [rl, sl]
    · rw [rr, sr]
    · rw [rm, sm]
    · intro m hm
      rw [(rf m (by omega)).1, (rf m (by omega)).2]
      exact sf m (by omega)
    · intro j hj hl hr
      cases j with
      | zero =>
        show (for_range body (i + 1) c (body i r)).outs0 i = _ ∧
          (for_range body (i + 1) c (body i r)).outs1 i = _
        rw [(rf i (Nat.lt_succ_self i)).1, (rf i (Nat.lt_succ_self i)).2]
        exact so (by simpa using hl) (by simpa using hr)
      | succ j =>
        have := ro j (by omega) (by rw [sa, sl]; push_cast at hl ⊢; omega)
          (by rw [sa, sr]; push_cast at hr ⊢; omega)
        rw [sd, sc] at this
        rw [show i + (j + 1) = i + 1 + j by omega]
        simpa [smoothed, smoother_after_shift] using this

theorem body_stereo_cold {α G F : Type} [Add α] [Mul α] [Zero α] (E : Env α G F) (v : Int)
    (ins0 ins1 : Nat → α) (i : Nat) (r : Run α G F) :
    (body_stereo E v ins0 ins1 i r).st.age = r.st.age + 1 ∧
    (body_stereo E v ins0 ins1 i r).st.dry = (E.get r.st.dry).2 ∧
    (body_stereo E v ins0 ins1 i r).st.chmix = (E.get r.st.chmix).2 ∧
    (body_stereo E v ins0 ins1 i r).st.deltime_l = r.st.deltime_l ∧
    (body_stereo E v ins0 ins1 i r).st.deltime_r = r.st.deltime_r ∧
    (body_stereo E v ins0 ins1 i r).st.mixmode = r.st.mixmode ∧
    (∀ m, m ≠ i → (body_stereo E v ins0 ins1 i r).outs0 m = r.outs0 m ∧
      (body_stereo E v ins0 ins1 i r).outs1 m = r.outs1 m) ∧
    (r.st.age ≤ r.st.deltime_l → r.st.age ≤ r.st.deltime_r →
      (body_stereo E v ins0 ins1 i r).outs0 i
        = ins0 i * (E.get r.st.dry).1 + E.lerp 0 0 (E.get r.st.chmix).1 ∧
      (body_stereo E v ins0 ins1 i r).outs1 i
        = ins1 i * (E.get r.st.dry).1 + E.lerp 0 0 (E.get r.st.chmix).1) := by
  obtain ⟨a, d, c, l, rr, mm, f, o0, o1⟩ := finish_cold E ins0 ins1 i r
    (delayline_impl E r.st.age r.st.deltime_l (ins0 i)
      (bufsel r.st v (iand (r.st.bufptr - r.st.deltime_l) (ADDR_MASK E)).toNat)
      r.st.amt_left r.st.fb_left)
    (delayline_impl E r.st.age r.st.deltime_r (ins1 i)
      (bufsel r.st (1 - v) (iand (r.st.bufptr - r.st.deltime_r) (ADDR_MASK E)).toNat)
      r.st.amt_right r.st.fb_right)
  refine ⟨a, d, c, l, rr, mm, f, ?_⟩
  intro hl hr
  rw [delayline_impl_cold E _ _ _ _ _ _ hl] at o0 o1
  rw [delayline_impl_cold E _ _ _ _ _ _ hr] at o0 o1
  exact ⟨o0, o1⟩

theorem body_lr_cold {α G F : Type} [Add α] [Mul α] [Zero α] (E : Env α G F)
    (v fbt lc rc : Int) (ins0 ins1 : Nat → α) (i : Nat) (r : Run α G F) :
    (body_lr E v fbt lc rc ins0 ins1 i r).st.age = r.st.age + 1 ∧
    (body_lr E v fbt lc rc ins0 ins1 i r).st.dry = (E.get r.st.dry).2 ∧
    (body_lr E v fbt lc rc ins0 ins1 i r).st.chmix = (E.get r.st.chmix).2 ∧
    (body_lr E v fbt lc rc ins0 ins1 i r).st.deltime_l = r.st.deltime_l ∧
    (body_lr E v fbt lc rc ins0 ins1 i r).st.deltime_r = r.st.deltime_r ∧
    (body_lr E v fbt lc rc ins0 ins1 i r).st.mixmode = r.st.mixmode ∧
    (∀ m, m ≠ i → (body_lr E v fbt lc rc ins0 ins1 i r).outs0 m = r.outs0 m ∧
      (body_lr E v fbt lc rc ins0 ins1 i r).outs1 m = r.outs1 m) ∧
    (r.st.age ≤ r.st.deltime_l → r.st.age ≤ r.st.deltime_r →
      (body_lr E v fbt lc rc ins0 ins1 i r).outs0 i
        = ins0 i * (E.get r.st.dry).1 + E.lerp 0 0 (E.get r.st.chmix).1 ∧
      (body_lr E v fbt lc rc ins0 ins1 i r).outs1 i
        = ins1 i * (E.get r.st.dry).1 + E.lerp 0 0 (E.get r.st.chmix).1) := by
  obtain ⟨a, d, c, l, rr, mm, f, o0, o1⟩ := finish_cold E ins0 ins1 i r
    (delayline2_impl E r.st.age r.st.deltime_l (ins0 i)
      (bufsel r.st v (iand (r.st.bufptr - lc) (ADDR_MASK E)).toNat)
      (bufsel r.st v (iand (r.st.bufptr - fbt) (ADDR_MASK E)).toNat)
      r.st.amt_left r.st.fb_left)
    (delayline2_impl E r.st.age r.st.deltime_r (ins1 i)
      (bufsel r.st (1 - v) (iand (r.st.bufptr - rc) (ADDR_MASK E)).toNat)
      (bufsel r.st (1 - v) (iand (r.st.bufptr - fbt) (ADDR_MASK E)).toNat)
      r.st.amt_right r.st.fb_right)
  refine ⟨a, d, c, l, rr, mm, f, ?_⟩
  intro hl hr
  rw [delayline2_impl_cold E _ _ _ _ _ _ _ hl] at o0 o1
  rw [delayline2_impl_cold E _ _ _ _ _ _ _ hr] at o0 o1
  exact ⟨o0, o1⟩

/-- The tail of `process` touches neither the smoothers nor the settings, and
does not increase `age`. -/
theorem post_frame {α G F : Type} (E : Env α G F) (orig_bufptr : Int) (offset count : Nat)
    (s : State α G F) :
    (post E orig_bufptr offset count s).age ≤ s.age ∧
    (post E orig_bufptr offset count s).dry = s.dry ∧
    (post E orig_bufptr offset count s).chmix = s.chmix ∧
    (post E orig_bufptr offset count s).deltime_l = s.deltime_l ∧
    (post E orig_bufptr offset count s).deltime_r = s.deltime_r ∧
    (post E orig_bufptr offset count s).mixmode = s.mixmode := by
  have key : ∀ (t : State α G F) (a : Int), t.age = a → t.dry = s.dry → t.chmix = s.chmix →
      t.deltime_l = s.deltime_l → t.deltime_r = s.deltime_r → t.mixmode = s.mixmode →
      ∀ (body : Nat → State α G F → State α G F),
        (∀ i u, (body i u).age = u.age ∧ (body i u).dry = u.dry ∧ (body i u).chmix = u.chmix ∧
          (body i u).deltime_l = u.deltime_l ∧ (body i u).deltime_r = u.deltime_r ∧
          (body i u).mixmode = u.mixmode) →
        (for_range body offset count t).age = a ∧ (for_range body offset count t).dry = s.dry ∧
        (for_range body offset count t).chmix = s.chmix ∧
        (for_range body offset count t).deltime_l = s.deltime_l ∧
        (for_range body offset count t).deltime_r = s.deltime_r ∧
        (for_range body offset count t).mixmode = s.mixmode := by
    intro t a h1 h2 h3 h4 h5 h6 body hb
    exact for_range_keeps body
      (fun u => u.age = a ∧ u.dry = s.dry ∧ u.chmix = s.chmix ∧ u.deltime_l = s.deltime_l ∧
        u.deltime_r = s.deltime_r ∧ u.mixmode = s.mixmode)
      (fun i u ⟨p1, p2, p3, p4, p5, p6⟩ => by
        obtain ⟨q1, q2, q3, q4, q5, q6⟩ := hb i u
        exact ⟨q1.trans p1, q2.trans p2, q3.trans p3, q4.trans p4, q5.trans p5, q6.trans p6⟩)
      count offset t ⟨h1, h2, h3, h4, h5, h6⟩
  have h2 := fun (t : State α G F) a h1 h2 h3 h4 h5 h6 =>
    key t a h1 h2 h3 h4 h5 h6 (body_medium2 E) (fun _ _ => ⟨rfl, rfl, rfl, rfl, rfl, rfl⟩)
  have h1 := fun (t : State α G F) a h1 h2 h3 h4 h5 h6 =>
    key t a h1 h2 h3 h4 h5 h6 (body_medium1 E) (fun _ _ => ⟨rfl, rfl, rfl, rfl, rfl, rfl⟩)
  unfold post saturate
  by_cases hage : s.age ≥ (E.MAX_DELAY : Int)
  · simp only [hage, if_true]
    split_ifs with hm hm2
    · obtain ⟨q1, q2, q3, q4, q5, q6⟩ := h2 { s with age := E.MAX_DELAY, bufptr := orig_bufptr }
        E.MAX_DELAY rfl rfl rfl rfl rfl rfl
      exact ⟨by show (for_range (body_medium2 E) offset count _).age ≤ s.age; rw [q1]; exact hage,
        q2, q3, q4, q5, q6⟩
    · obtain ⟨q1, q2, q3, q4, q5, q6⟩ := h1 { s with age := E.MAX_DELAY, bufptr := orig_bufptr }
        E.MAX_DELAY rfl rfl rfl rfl rfl rfl
      exact ⟨by show (for_range (body_medium1 E) offset count _).age ≤ s.age; rw [q1]; exact hage,
        q2, q3, q4, q5, q6⟩
    · exact ⟨hage, rfl, rfl, rfl, rfl, rfl⟩
  · simp only [hage, if_false]
    split_ifs with hm hm2
    · obtain ⟨q1, q2, q3, q4, q5, q6⟩ := h2 { s with bufptr := orig_bufptr }
        s.age rfl rfl rfl rfl rfl rfl
      exact ⟨by show (for_range (body_medium2 E) offset count _).age ≤ s.age; rw [q1],
        q2, q3, q4, q5, q6⟩
    · obtain ⟨q1, q2, q3, q4, q5, q6⟩ := h1 { s with bufptr := orig_bufptr }
        s.age rfl rfl rfl rfl rfl rfl
      exact ⟨by show (for_range (body_medium1 E) offset count _).age ≤ s.age; rw [q1],
        q2, q3, q4, q5, q6⟩
    · exact ⟨le_refl _, rfl, rfl, rfl, rfl, rfl⟩

theorem mix_loop_cold {α G F : Type} [Add α] [Mul α] [Zero α] (E : Env α G F)
    (ins0 ins1 : Nat → α) (offset count : Nat) (r : Run α G F)
    (hmode : r.st.mixmode = MIXMODE_STEREO ∨ r.st.mixmode = MIXMODE_PINGPONG ∨
      r.st.mixmode = MIXMODE_LR ∨ r.st.mixmode = MIXMODE_RL) :
    (mix_loop E ins0 ins1 offset count r).st.age = r.st.age + count ∧
    (mix_loop E ins0 ins1 offset count r).st.dry = smoother_after E r.st.dry count ∧
    (mix_loop E ins0 ins1 offset count r).st.chmix = smoother_after E r.st.chmix count ∧
    (mix_loop E ins0 ins1 offset count r).st.deltime_l = r.st.deltime_l ∧
    (mix_loop E ins0 ins1 offset count r).st.deltime_r = r.st.deltime_r ∧
    (mix_loop E ins0 ins1 offset count r).st.mixmode = r.st.mixmode ∧
    (∀ m, m < offset → (mix_loop E ins0 ins1 offset count r).outs0 m = r.outs0 m ∧
      (mix_loop E ins0 ins1 offset count r).outs1 m = r.outs1 m) ∧
    (∀ j, j < count → r.st.age + j ≤ r.st.deltime_l → r.st.age + j ≤ r.st.deltime_r →
      (mix_loop E ins0 ins1 offset count r).outs0 (offset + j)
        = ins0 (offset + j) * smoothed E r.st.dry j + E.lerp 0 0 (smoothed E r.st.chmix j) ∧
      (mix_loop E ins0 ins1 offset count r).outs1 (offset + j)
        = ins1 (offset + j) * smoothed E r.st.dry j + E.lerp 0 0 (smoothed E r.st.chmix j)) := by
  unfold mix_loop
  by_cases h1 : r.st.mixmode = MIXMODE_STEREO ∨ r.st.mixmode = MIXMODE_PINGPONG
  · simp only [h1, if_true]
    exact cold_loop E ins0 ins1 _ (body_stereo_cold E _ ins0 ins1) count offset r
  · have h2 : r.st.mixmode = MIXMODE_LR ∨ r.st.mixmode = MIXMODE_RL := by tauto
    simp only [h1, h2, if_true, if_false]
    exact cold_loop E ins0 ins1 _ (body_lr_cold E _ _ _ _ ins0 ins1) count offset r

theorem process_cold {α G F : Type} [Add α] [Mul α] [Zero α] (E : Env α G F)
    (s : State α G F) (offset numsamples : Nat) (ins0 ins1 outs0 outs1 : Nat → α)
    (hmode : s.mixmode = MIXMODE_STEREO ∨ s.mixmode = MIXMODE_PINGPONG ∨
      s.mixmode = MIXMODE_LR ∨ s.mixmode = MIXMODE_RL)
    (hlen : offset + numsamples < U32) :
    (process E s offset numsamples ins0 ins1 outs0 outs1).st.age ≤ s.age + numsamples ∧
    (process E s offset numsamples ins0 ins1 outs0 outs1).st.dry
      = smoother_after E s.dry numsamples ∧
    (process E s offset numsamples ins0 ins1 outs0 outs1).st.chmix
      = smoother_after E s.chmix numsamples ∧
    (process E s offset numsamples ins0 ins1 outs0 outs1).st.deltime_l = s.deltime_l ∧
    (process E s offset numsamples ins0 ins1 outs0 outs1).st.deltime_r = s.deltime_r ∧
    (process E s offset numsamples ins0 ins1 outs0 outs1).st.mixmode = s.mixmode ∧
    (∀ j, j < numsamples → s.age + j ≤ s.deltime_l → s.age + j ≤ s.deltime_r →
      (process E s offset numsamples ins0 ins1 outs0 outs1).outs0 (offset + j)
        = ins0 (offset + j) * smoothed E s.dry j + E.lerp 0 0 (smoothed E s.chmix j) ∧
      (process E s offset numsamples ins0 ins1 outs0 outs1).outs1 (offset + j)
        = ins1 (offset + j) * smoothed E s.dry j + E.lerp 0 0 (smoothed E s.chmix j)) := by
  have hcount : (offset + numsamples) % U32 - offset = numsamples := by
    rw [Nat.mod_eq_of_lt hlen]; omega
  obtain ⟨ma, md, mc, ml, mr, mm, _, mo⟩ := mix_loop_cold E ins0 ins1 offset numsamples
    { st := s, outs0 := outs0, outs1 := outs1 } hmode
  obtain ⟨pa, pd, pc, pl, pr, pm⟩ := post_frame E s.bufptr offset numsamples
    (mix_loop E ins0 ins1 offset numsamples { st := s, outs0 := outs0, outs1 := outs1 }).st
  simp only [process, hcount]
  exact ⟨le_trans pa (le_of_eq ma), pd.trans md, pc.trans mc, pl.trans ml, pr.trans mr,
    pm.trans mm, mo⟩

/-- The cold-start outputs of the stream, whatever the split into calls. -/
theorem stream_cold {α G F : Type} [Add α] [Mul α] [Zero α] (E : Env α G F)
    (inL inR outs0 outs1 : Nat → α) (gd gc : G) (l r mode : Int)
    (hmode : mode = MIXMODE_STEREO ∨ mode = MIXMODE_PINGPONG ∨
      mode = MIXMODE_LR ∨ mode = MIXMODE_RL) :
    ∀ (calls : List (Nat × Nat)) (s : State α G F) (done : Nat),
      s.age ≤ done → s.dry = smoother_after E gd done → s.chmix = smoother_after E gc done →
      s.deltime_l = l → s.deltime_r = r → s.mixmode = mode →
      (∀ c ∈ calls, c.1 + c.2 < U32) →
      ∀ n, n < (calls.map Prod.snd).sum → ((done + n : Nat) : Int) < min l r →
        (stream E inL inR outs0 outs1 s done calls)[n]?
          = some (inL (done + n) * smoothed E gd (done + n)
                    + E.lerp 0 0 (smoothed E gc (done + n)),
                  inR (done + n) * smoothed E gd (done + n)
                    + E.lerp 0 0 (smoothed E gc (done + n))) := by
  intro calls
  induction calls with
  | nil => intro s done _ _ _ _ _ _ _ n hn; simp at hn
  | cons c rest ih =>
    intro s done ha hd hc hl hr hm hcalls n hn hmin
    obtain ⟨offset, numsamples⟩ := c
    obtain ⟨pa, pd, pc, pl, pr, pm, po⟩ := process_cold E s offset numsamples
      (fun i => inL (done + (i - offset))) (fun i => inR (done + (i - offset))) outs0 outs1
      (hm ▸ hmode) (hcalls _ (List.mem_cons_self _ _))
    simp only [stream]
    by_cases hlt : n < numsamples
    · rw [List.getElem?_append_left (by simpa using hlt)]
      rw [List.getElem?_map, List.getElem?_range hlt]
      have hmin' := lt_min_iff.mp hmin
      obtain ⟨o0, o1⟩ := po n hlt (by rw [hl]; push_cast at hmin'; omega)
        (by rw [hr]; push_cast at hmin'; omega)
      simp only [Option.map_some', o0, o1, hd, hc, smoothed, smoother_after_add]
      simp
    · rw [List.getElem?_append_right (by simpa using hlt)]
      simp only [List.length_map, List.length_range]
      have := ih _ (done + numsamples) (by push_cast; omega)
        (by rw [pd, hd, smoother_after_add]) (by rw [pc, hc, smoother_after_add])
        (pl.trans hl) (pr.trans hr) (pm.trans hm)
        (fun c hc' => hcalls c (List.mem_cons_of_mem _ hc')) (n - numsamples)
        (by simp only [List.map_cons, List.sum_cons] at hn; omega)
        (by rw [show done + numsamples + (n - numsamples) = done + n by omega]; exact hmin)
      rw [this, show done + numsamples + (n - numsamples) = done + n by omega]

end vintage_delay_audio_module

/-- C5, amended.  In every routing mode, after `activate()`, for every input
and every split into `process` calls, at each of the first
`min(deltime_l, deltime_r)` samples the delayed part of both channels is
zero: each output is its input times the smoothed dry gain plus
`lerp(0, 0, chmix)`.  With a dry gain of 0 (and `v * 0 = 0`,
`lerp(0, 0, c) = 0`, `0 + 0 = 0`) both outputs are exactly zero. -/
theorem vintage_cold_start_dry_only {α G F : Type} [Add α] [Mul α] [Zero α]
    (E : vintage_delay_audio_module.Env α G F) (s : vintage_delay_audio_module.State α G F)
    (inL inR outs0 outs1 : Nat → α) (calls : List (Nat × Nat)) (n : Nat)
    (hmode : s.mixmode = vintage_delay_audio_module.MIXMODE_STEREO ∨
      s.mixmode = vintage_delay_audio_module.MIXMODE_PINGPONG ∨
      s.mixmode = vintage_delay_audio_module.MIXMODE_LR ∨
      s.mixmode = vintage_delay_audio_module.MIXMODE_RL)
    (hc : ∀ c ∈ calls, c.1 + c.2 < U32) (hn : n < (calls.map Prod.snd).sum)
    (hmin : (n : Int) < min s.deltime_l s.deltime_r) :
    (vintage_delay_audio_module.stream E inL inR outs0 outs1
        (vintage_delay_audio_module.activate s) 0 calls)[n]?
      = some (inL n * vintage_delay_audio_module.smoothed E s.dry n
                + E.lerp 0 0 (vintage_delay_audio_module.smoothed E s.chmix n),
              inR n * vintage_delay_audio_module.smoothed E s.dry n
                + E.lerp 0 0 (vintage_delay_audio_module.smoothed E s.chmix n)) ∧
    ((∀ v : α, v * 0 = 0) → (∀ c : α, E.lerp 0 0 c = 0) → (0 : α) + 0 = 0 →
      (∀ m, vintage_delay_audio_module.smoothed E s.dry m = 0) →
      (vintage_delay_audio_module.stream E inL inR outs0 outs1
        (vintage_delay_audio_module.activate s) 0 calls)[n]? = some (0, 0)) := by
  have main := vintage_delay_audio_module.stream_cold E inL inR outs0 outs1 s.dry s.chmix
    s.deltime_l s.deltime_r s.mixmode hmode calls (vintage_delay_audio_module.activate s) 0
    (le_refl _) rfl rfl rfl rfl rfl hc n hn (by simpa using hmin)
  simp only [Nat.zero_add] at main
  refine ⟨main, ?_⟩
  intro h0 hl ha hd
  rw [main, hd, h0, h0, hl, ha]

/-- C5, amended, at a concrete input: STEREO, delay times 2 and 3, dry gain 2,
constant input 1, two calls; sample 1 is the dry signal only. -/
theorem vintage_cold_start_dry_only_witness :
    (vintage_delay_audio_module.stream (vintage_delay_audio_module.settled 8 1)
        (fun _ => 1) (fun _ => 1) (fun _ => 0) (fun _ => 0)
        (vintage_delay_audio_module.activate
          (vintage_delay_audio_module.constructed 0 2 3 0 1 1 1 1 2 0 ())) 0 [(0, 1), (3, 2)])[1]?
      = some (2, 2) :=
  (vintage_cold_start_dry_only (vintage_delay_audio_module.settled 8 1)
    (vintage_delay_audio_module.constructed 0 2 3 0 1 1 1 1 2 0 ())
    (fun _ => 1) (fun _ => 1) (fun _ => 0) (fun _ => 0) [(0, 1), (3, 2)] 1
    (Or.inl rfl) (by decide) (by decide) (by decide)).1.trans (by decide)

/-- C5 as stated fails.  STEREO, delay times 2 and 2, dry gain 1, constant
input 1: the first `min(2, 2) = 2` output samples are `(1, 1)`, not zero. -/
theorem vintage_cold_start_not_silent :
    vintage_delay_audio_module.heads
        (vintage_delay_audio_module.process (vintage_delay_audio_module.settled 8 1)
          (vintage_delay_audio_module.activate
            (vintage_delay_audio_module.constructed 0 2 2 0 1 1 1 1 1 0 ()))
          0 2 (fun _ => 1) (fun _ => 1) (fun _ => 0) (fun _ => 0)) 2
      = [(1, 1), (1, 1)] := by
  decide

/-- C6, the code at a failing input.  LR mode, `deltime_l = 1`, `deltime_r = 2`,
`MAX_DELAY = 8`, amount and feedback 1, dry gain 0, medium 0.  A fresh module
fed eight silent samples after `activate()` outputs silence.  The same module
with the same settings, which before `activate()` processed eight samples of
the constant 5 on the left channel, outputs 15 on the left channel at samples
3 and 6 of the same silent input: at `age = 2` the feedback tap
`buffers[0][(bufptr - 3) & ADDR_MASK]` reads cell 7, not written since
`activate()`, and the guard `age <= deltime_l` does not cover it. -/
theorem vintage_lr_reads_stale_feedback :
    vintage_delay_audio_module.heads
        (vintage_delay_audio_module.process (vintage_delay_audio_module.settled 8 1)
          (vintage_delay_audio_module.activate
            (vintage_delay_audio_module.process (vintage_delay_audio_module.settled 8 1)
              (vintage_delay_audio_module.activate
                (vintage_delay_audio_module.constructed 2 1 2 0 1 1 1 1 0 0 ()))
              0 8 (fun _ => 5) (fun _ => 0) (fun _ => 0) (fun _ => 0)).st)
          0 8 (fun _ => 0) (fun _ => 0) (fun _ => 0) (fun _ => 0)) 8
      = [(0, 0), (0, 0), (0, 0), (15, 0), (0, 0), (0, 0), (15, 0), (0, 0)] ∧
    vintage_delay_audio_module.heads
        (vintage_delay_audio_module.process (vintage_delay_audio_module.settled 8 1)
          (vintage_delay_audio_module.activate
            (vintage_delay_audio_module.constructed 2 1 2 0 1 1 1 1 0 0 ()))
          0 8 (fun _ => 0) (fun _ => 0) (fun _ => 0) (fun _ => 0)) 8
      = [(0, 0), (0, 0), (0, 0), (0, 0), (0, 0), (0, 0), (0, 0), (0, 0)] := by
  decide

/-! ## Vintage delay: block boundaries -/

theorem for_range_add {σ : Type} (body : Nat → σ → σ) :
    ∀ (n m i : Nat) (s : σ),
      for_range body i (n + m) s = for_range body (i + n) m (for_range body i n s) := by
  intro n
  induction n with
  | zero => intro m i s; simp [for_range]
  | succ n ih =>
    intro m i s
    rw [show n + 1 + m = (n + m) + 1 by omega]
    simp only [for_range]
    rw [ih, show i + 1 + n = i + (n + 1) by omega]

namespace vintage_delay_audio_module

theorem delayline_impl_warm {α G F : Type} [Add α] [Mul α] [Zero α] (E : Env α G F)
    (a a' deltime : Int) (dry_value delayed_value : α) (amt fb : G)
    (h : deltime < a) (h' : deltime < a') :
    delayline_impl E a' deltime dry_value delayed_value amt fb
      = delayline_impl E a deltime dry_value delayed_value amt fb := by
  simp [delayline_impl, not_le.mpr h, not_le.mpr h']

theorem delayline2_impl_warm {α G F : Type} [Add α] [Mul α] [Zero α] (E : Env α G F)
    (a a' deltime : Int) (dry_value delayed_value delayed_value_for_fb : α) (amt fb : G)
    (h : deltime < a) (h' : deltime < a') :
    delayline2_impl E a' deltime dry_value delayed_value delayed_value_for_fb amt fb
      = delayline2_impl E a deltime dry_value delayed_value delayed_value_for_fb amt fb := by
  simp [delayline2_impl, not_le.mpr h, not_le.mpr h']

/-- Once `age` has passed both delay times its value no longer matters to an
iteration of the STEREO / PINGPONG loop. -/
theorem body_stereo_age {α G F : Type} [Add α] [Mul α] [Zero α] (E : Env α G F) (v : Int)
    (ins0 ins1 : Nat → α) (i : Nat) (r : Run α G F) (a a' : Int)
    (hl : r.st.deltime_l < a) (hr : r.st.deltime_r < a)
    (hl' : r.st.deltime_l < a') (hr' : r.st.deltime_r < a') :
    body_stereo E v ins0 ins1 i (with_age r a')
      = with_age (body_stereo E v ins0 ins1 i (with_age r a)) (a' + 1) := by
  simp only [body_stereo, with_age, bufsel]
  rw [delayline_impl_warm E a a' _ _ _ _ _ hl hl', delayline_impl_warm E a a' _ _ _ _ _ hr hr']
  rfl

theorem body_lr_age {α G F : Type} [Add α] [Mul α] [Zero α] (E : Env α G F)
    (v fbt lc rc : Int) (ins0 ins1 : Nat → α) (i : Nat) (r : Run α G F) (a a' : Int)
    (hl : r.st.deltime_l < a) (hr : r.st.deltime_r < a)
    (hl' : r.st.deltime_l < a') (hr' : r.st.deltime_r < a') :
    body_lr E v fbt lc rc ins0 ins1 i (with_age r a')
      = with_age (body_lr E v fbt lc rc ins0 ins1 i (with_age r a)) (a' + 1) := by
  simp only [body_lr, with_age, bufsel]
  rw [delayline2_impl_warm E a a' _ _ _ _ _ _ hl hl',
    delayline2_impl_warm E a a' _ _ _ _ _ _ hr hr']
  rfl

theorem with_age_self {α G F : Type} (r : Run α G F) (a : Int) (h : r.st.age = a) :
    with_age r a = r := by
  subst h; rfl

/-- Once `age` has passed both delay times its value no longer matters to a
loop whose iterations ignore it. -/
theorem loop_age {α G F : Type} (body : Nat → Run α G F → Run α G F)
    (hage : ∀ i r, (body i r).st.age = r.st.age + 1)
    (hdl : ∀ i r, (body i r).st.deltime_l = r.st.deltime_l)
    (hdr : ∀ i r, (body i r).st.deltime_r = r.st.deltime_r)
    (hbody : ∀ i r a a', r.st.deltime_l < a → r.st.deltime_r < a → r.st.deltime_l < a' →
      r.st.deltime_r < a' → body i (with_age r a') = with_age (body i (with_age r a)) (a' + 1)) :
    ∀ (count i : Nat) (r : Run α G F) (a a' : Int), r.st.deltime_l < a → r.st.deltime_r < a →
      r.st.deltime_l < a' → r.st.deltime_r < a' →
      for_range body i count (with_age r a')
        = with_age (for_range body i count (with_age r a)) (a' + count) := by
  intro count
  induction count with
  | zero =>
    intro i r a a' _ _ _ _
    simp [for_range, with_age]
  | succ c ih =>
    intro i r a a' hl hr hl' hr'
    simp only [for_range]
    rw [hbody i r a a' hl hr hl' hr']
    have h2 : (body i (with_age r a)).st.age = a + 1 := by rw [hage]; rfl
    have hl2 : (body i (with_age r a)).st.deltime_l = r.st.deltime_l := by rw [hdl]; rfl
    have hr2 : (body i (with_age r a)).st.deltime_r = r.st.deltime_r := by rw [hdr]; rfl
    rw [ih (i + 1) (body i (with_age r a)) (a + 1) (a' + 1) (by rw [hl2]; omega)
      (by rw [hr2]; omega) (by rw [hl2]; omega) (by rw [hr2]; omega),
      with_age_self _ _ h2]
    congr 1
    push_cast
    ring

theorem mix_loop_age {α G F : Type} [Add α] [Mul α] [Zero α] (E : Env α G F)
    (ins0 ins1 : Nat → α) (offset count : Nat) (r : Run α G F) (a a' : Int)
    (hmode : r.st.mixmode = MIXMODE_STEREO ∨ r.st.mixmode = MIXMODE_PINGPONG ∨
      r.st.mixmode = MIXMODE_LR ∨ r.st.mixmode = MIXMODE_RL)
    (hl : r.st.deltime_l < a) (hr : r.st.deltime_r < a)
    (hl' : r.st.deltime_l < a') (hr' : r.st.deltime_r < a') :
    mix_loop E ins0 ins1 offset count (with_age r a')
      = with_age (mix_loop E ins0 ins1 offset count (with_age r a)) (a' + count) := by
  unfold mix_loop
  have hm : ∀ b, (with_age r b).st.mixmode = r.st.mixmode := fun _ => rfl
  have hdl : ∀ b, (with_age r b).st.deltime_l = r.st.deltime_l := fun _ => rfl
  have hdr : ∀ b, (with_age r b).st.deltime_r = r.st.deltime_r := fun _ => rfl
  simp only [hm, hdl, hdr]
  by_cases h1 : r.st.mixmode = MIXMODE_STEREO ∨ r.st.mixmode = MIXMODE_PINGPONG
  · simp only [h1, if_true]
    exact loop_age _ (fun i r => (body_stereo_cold E _ ins0 ins1 i r).1)
      (fun i r => (body_stereo_cold E _ ins0 ins1 i r).2.2.2.1)
      (fun i r => (body_stereo_cold E _ ins0 ins1 i r).2.2.2.2.1)
      (fun i r a a' => body_stereo_age E _ ins0 ins1 i r a a') count offset r a a' hl hr hl' hr'
  · have h2 : r.st.mixmode = MIXMODE_LR ∨ r.st.mixmode = MIXMODE_RL := by tauto
    simp only [h1, h2, if_true, if_false]
    exact loop_age _ (fun i r => (body_lr_cold E _ _ _ _ ins0 ins1 i r).1)
      (fun i r => (body_lr_cold E _ _ _ _ ins0 ins1 i r).2.2.2.1)
      (fun i r => (body_lr_cold E _ _ _ _ ins0 ins1 i r).2.2.2.2.1)
      (fun i r a a' => body_lr_age E _ _ _ _ ins0 ins1 i r a a') count offset r a a' hl hr hl' hr'

/-- The sample loop over `n + m` samples is the loop over `n` samples followed
by the loop over the next `m`. -/
theorem mix_loop_add {α G F : Type} [Add α] [Mul α] [Zero α] (E : Env α G F)
    (ins0 ins1 : Nat → α) (offset n m : Nat) (r : Run α G F) :
    mix_loop E ins0 ins1 offset (n + m) r
      = mix_loop E ins0 ins1 (offset + n) m (mix_loop E ins0 ins1 offset n r) := by
  by_cases hmode : r.st.mixmode = MIXMODE_STEREO ∨ r.st.mixmode = MIXMODE_PINGPONG ∨
      r.st.mixmode = MIXMODE_LR ∨ r.st.mixmode = MIXMODE_RL
  · obtain ⟨_, _, _, ml, mr, mm, _, _⟩ := mix_loop_cold E ins0 ins1 offset n r hmode
    by_cases h1 : r.st.mixmode = MIXMODE_STEREO ∨ r.st.mixmode = MIXMODE_PINGPONG
    · have e1 : ∀ c, mix_loop E ins0 ins1 offset c r = for_range (body_stereo E
          (if r.st.mixmode = MIXMODE_PINGPONG then 1 else 0) ins0 ins1) offset c r := by
        intro c; simp only [mix_loop, h1, if_true]
      have e2 : mix_loop E ins0 ins1 (offset + n) m (mix_loop E ins0 ins1 offset n r)
          = for_range (body_stereo E (if r.st.mixmode = MIXMODE_PINGPONG then 1 else 0)
              ins0 ins1) (offset + n) m (mix_loop E ins0 ins1 offset n r) := by
        generalize mix_loop E ins0 ins1 offset n r = R1 at ml mr mm
        simp only [mix_loop, mm, h1, if_true]
      rw [e2, e1, e1]
      exact for_range_add _ n m offset r
    · have h2 : r.st.mixmode = MIXMODE_LR ∨ r.st.mixmode = MIXMODE_RL := by tauto
      have e1 : ∀ c, mix_loop E ins0 ins1 offset c r = for_range (body_lr E
          (if r.st.mixmode = MIXMODE_RL then 1 else 0) (r.st.deltime_l + r.st.deltime_r)
          (if r.st.mixmode = MIXMODE_RL then r.st.deltime_l + r.st.deltime_r
            else r.st.deltime_l)
          (if r.st.mixmode = MIXMODE_LR then r.st.deltime_l + r.st.deltime_r
            else r.st.deltime_r) ins0 ins1) offset c r := by
        intro c; simp only [mix_loop, h1, h2, if_true, if_false]
      have e2 : mix_loop E ins0 ins1 (offset + n) m (mix_loop E ins0 ins1 offset n r)
          = for_range (body_lr E
              (if r.st.mixmode = MIXMODE_RL then 1 else 0) (r.st.deltime_l + r.st.deltime_r)
              (if r.st.mixmode = MIXMODE_RL then r.st.deltime_l + r.st.deltime_r
                else r.st.deltime_l)
              (if r.st.mixmode = MIXMODE_LR then r.st.deltime_l + r.st.deltime_r
                else r.st.deltime_r) ins0 ins1) (offset + n) m
              (mix_loop E ins0 ins1 offset n r) := by
        generalize mix_loop E ins0 ins1 offset n r = R1 at ml mr mm
        simp only [mix_loop, mm, ml, mr, h1, h2, if_true, if_false]
      rw [e2, e1, e1]
      exact for_range_add _ n m offset r
  · have h1 : ¬ (r.st.mixmode = MIXMODE_STEREO ∨ r.st.mixmode = MIXMODE_PINGPONG) := by tauto
    have h2 : ¬ (r.st.mixmode = MIXMODE_LR ∨ r.st.mixmode = MIXMODE_RL) := by tauto
    simp only [mix_loop, h1, h2, if_false]

theorem mix_loop_medium {α G F : Type} [Add α] [Mul α] [Zero α] (E : Env α G F)
    (ins0 ins1 : Nat → α) (offset count : Nat) (r : Run α G F) :
    (mix_loop E ins0 ins1 offset count r).st.medium = r.st.medium := by
  have key : ∀ body : Nat → Run α G F → Run α G F,
      (∀ i u, (body i u).st.medium = u.st.medium) →
      (for_range body offset count r).st.medium = r.st.medium := fun body hb =>
    for_range_keeps body (fun u => u.st.medium = r.st.medium)
      (fun i u hu => (hb i u).trans hu) count offset r rfl
  unfold mix_loop
  by_cases h1 : r.st.mixmode = MIXMODE_STEREO ∨ r.st.mixmode = MIXMODE_PINGPONG
  · simp only [h1, if_true]
    exact key _ (fun _ _ => rfl)
  · by_cases h2 : r.st.mixmode = MIXMODE_LR ∨ r.st.mixmode = MIXMODE_RL
    · simp only [h1, h2, if_true, if_false]
      exact key _ (fun _ _ => rfl)
    · simp only [h1, h2, if_false]

/-- With medium 0 the tail of `process` only saturates `age`. -/
theorem post_medium0 {α G F : Type} (E : Env α G F) (orig_bufptr : Int) (offset count : Nat)
    (s : State α G F) (hmed : s.medium = 0) :
    post E orig_bufptr offset count s = saturate E s := by
  unfold post saturate
  by_cases hage : s.age ≥ (E.MAX_DELAY : Int)
  · simp [hage, hmed]
  · simp [hage, hmed]

theorem saturate_with_age {α G F : Type} (E : Env α G F) (r : Run α G F) (a : Int)
    (ha : (E.MAX_DELAY : Int) ≤ a) :
    saturate E (with_age r a).st = { r.st with age := E.MAX_DELAY } := by
  simp [saturate, with_age, ha]

/-- C7, amended.  For every routing mode, with medium 0 and both delay times
below `MAX_DELAY`, processing `n + m` samples in one `process` call gives the
same output blocks and the same final state as processing the first `n`
samples in one call and the remaining `m` in a second call. -/
theorem vintage_split_call {α G F : Type} [Add α] [Mul α] [Zero α] (E : Env α G F)
    (s : State α G F) (offset n m : Nat) (ins0 ins1 outs0 outs1 : Nat → α)
    (hmode : s.mixmode = MIXMODE_STEREO ∨ s.mixmode = MIXMODE_PINGPONG ∨
      s.mixmode = MIXMODE_LR ∨ s.mixmode = MIXMODE_RL)
    (hmed : s.medium = 0) (hl : s.deltime_l < E.MAX_DELAY) (hr : s.deltime_r < E.MAX_DELAY)
    (hlen : offset + n + m < U32) :
    process E s offset (n + m) ins0 ins1 outs0 outs1
      = process_twice E s offset n m ins0 ins1 outs0 outs1 := by
  have c1 : (offset + (n + m)) % U32 - offset = n + m := by
    rw [Nat.mod_eq_of_lt (by omega)]; omega
  have c2 : (offset + n) % U32 - offset = n := by
    rw [Nat.mod_eq_of_lt (by omega)]; omega
  have c3 : (offset + n + m) % U32 - (offset + n) = m := by
    rw [Nat.mod_eq_of_lt hlen]; omega
  obtain ⟨ma, _, _, ml, mr, mm, _, _⟩ := mix_loop_cold E ins0 ins1
    offset n { st := s, outs0 := outs0, outs1 := outs1 } hmode
  have md := mix_loop_medium E ins0 ins1 offset n { st := s, outs0 := outs0, outs1 := outs1 }
  simp only [process_twice, process, c1, c2, c3]
  rw [mix_loop_add]
  generalize mix_loop E ins0 ins1 offset n { st := s, outs0 := outs0, outs1 := outs1 } = R1
    at ma ml mr mm md
  simp only at ma ml mr mm md
  have md2 : (mix_loop E ins0 ins1 (offset + n) m R1).st.medium = 0 :=
    (mix_loop_medium E ins0 ins1 (offset + n) m R1).trans (md.trans hmed)
  rw [post_medium0 E _ _ _ R1.st (md.trans hmed), post_medium0 E _ _ _ _ md2]
  by_cases hage : R1.st.age ≥ (E.MAX_DELAY : Int)
  · have e1 : Run.mk (saturate E R1.st) R1.outs0 R1.outs1 = with_age R1 E.MAX_DELAY := by
      simp [saturate, with_age, hage]
    have e2 := mix_loop_age E ins0 ins1 (offset + n) m R1 R1.st.age E.MAX_DELAY (mm ▸ hmode)
      (by rw [ml]; omega) (by rw [mr]; omega) (by rw [ml]; exact hl) (by rw [mr]; exact hr)
    rw [with_age_self R1 _ rfl] at e2
    have a2 := (mix_loop_cold E ins0 ins1 (offset + n) m R1 (mm ▸ hmode)).1
    rw [e1, e2]
    rw [post_medium0 E _ _ _ _ (by
      show (mix_loop E ins0 ins1 (offset + n) m R1).st.medium = 0
      exact md2)]
    rw [saturate_with_age E _ _ (by omega)]
    have e3 : saturate E (mix_loop E ins0 ins1 (offset + n) m R1).st
        = { (mix_loop E ins0 ins1 (offset + n) m R1).st with age := E.MAX_DELAY } := by
      have : (mix_loop E ins0 ins1 (offset + n) m R1).st.age ≥ (E.MAX_DELAY : Int) := by
        rw [a2]; omega
      simp [saturate, this]
    rw [e3]
    rfl
  · have e1 : Run.mk (saturate E R1.st) R1.outs0 R1.outs1 = R1 := by
      simp [saturate, hage]
    rw [e1, post_medium0 E _ _ _ _ md2]

end vintage_delay_audio_module

/-- C7, amended, at a concrete input: STEREO, delay times 1 and 1, medium 0,
input 1, 2, 3, 4 processed as 2 + 2 samples. -/
theorem vintage_split_call_witness :
    vintage_delay_audio_module.heads
        (vintage_delay_audio_module.process_twice (vintage_delay_audio_module.settled 8 2)
          (vintage_delay_audio_module.activate
            (vintage_delay_audio_module.constructed 0 1 1 0 1 1 0 0 0 0 ()))
          0 2 2 vintage_delay_audio_module.ramp vintage_delay_audio_module.ramp
          vintage_delay_audio_module.silence vintage_delay_audio_module.silence) 4
      = [(0, 0), (0, 0), (2, 2), (3, 3)] :=
  (congrArg (fun r => vintage_delay_audio_module.heads r 4)
    (vintage_delay_audio_module.vintage_split_call (vintage_delay_audio_module.settled 8 2)
      (vintage_delay_audio_module.activate
        (vintage_delay_audio_module.constructed 0 1 1 0 1 1 0 0 0 0 ()))
      0 2 2 vintage_delay_audio_module.ramp vintage_delay_audio_module.ramp
      vintage_delay_audio_module.silence vintage_delay_audio_module.silence
      (Or.inl rfl) rfl (by decide) (by decide) (by decide))).symm.trans (by decide)

/-- C7 as stated fails.  First pair: STEREO, delay times 1 and 1, medium 1 with a
medium filter that doubles its input, input 1, 2, 3, 4: one call of 4 samples
outputs `(2, 2)` at sample 2, two calls of 2 samples output `(4, 4)` there
(the first call's replay has filtered the cell the tap reads).  Second pair:
medium 0, `MAX_DELAY = 4`, delay times 5: one call of 8 samples outputs
`(6, 6), (7, 7)` at samples 6 and 7, calls of 6 and 2 samples output silence
(the first call leaves `age` saturated at 4, so the guard `age <= 5` holds
again). -/
theorem vintage_split_call_differs :
    (vintage_delay_audio_module.heads
        (vintage_delay_audio_module.process (vintage_delay_audio_module.settled 8 2)
          (vintage_delay_audio_module.activate
            (vintage_delay_audio_module.constructed 0 1 1 1 1 1 0 0 0 0 ()))
          0 4 vintage_delay_audio_module.ramp vintage_delay_audio_module.ramp
          vintage_delay_audio_module.silence vintage_delay_audio_module.silence) 4
      = [(0, 0), (0, 0), (2, 2), (3, 3)] ∧
     vintage_delay_audio_module.heads
        (vintage_delay_audio_module.process_twice (vintage_delay_audio_module.settled 8 2)
          (vintage_delay_audio_module.activate
            (vintage_delay_audio_module.constructed 0 1 1 1 1 1 0 0 0 0 ()))
          0 2 2 vintage_delay_audio_module.ramp vintage_delay_audio_module.ramp
          vintage_delay_audio_module.silence vintage_delay_audio_module.silence) 4
      = [(0, 0), (0, 0), (4, 4), (3, 3)]) ∧
    (vintage_delay_audio_module.heads
        (vintage_delay_audio_module.process (vintage_delay_audio_module.settled 4 2)
          (vintage_delay_audio_module.activate
            (vintage_delay_audio_module.constructed 0 5 5 0 1 1 0 0 0 0 ()))
          0 8 vintage_delay_audio_module.ramp vintage_delay_audio_module.ramp
          vintage_delay_audio_module.silence vintage_delay_audio_module.silence) 8
      = [(0, 0), (0, 0), (0, 0), (0, 0), (0, 0), (0, 0), (6, 6), (7, 7)] ∧
     vintage_delay_audio_module.heads
        (vintage_delay_audio_module.process_twice (vintage_delay_audio_module.settled 4 2)
          (vintage_delay_audio_module.activate
            (vintage_delay_audio_module.constructed 0 5 5 0 1 1 0 0 0 0 ()))
          0 6 2 vintage_delay_audio_module.ramp vintage_delay_audio_module.ramp
          vintage_delay_audio_module.silence vintage_delay_audio_module.silence) 8
      = [(0, 0), (0, 0), (0, 0), (0, 0), (0, 0), (0, 0), (0, 0), (0, 0)]) := by
  decide

/-! ## Vintage delay: LR and RL -/

namespace vintage_delay_audio_module

/-- The `int` expression `x & (MAX_DELAY - 1)` for a power-of-two `MAX_DELAY`. -/
theorem iand_mask (x : Int) (k : Nat) (hk : k ≤ 32) :
    iand x (2 ^ k - 1) = x % ((2 ^ k : Nat) : Int) := by
  unfold iand
  rw [and_mask_eq_mod, Int.natCast_mod, Int.toNat_of_nonneg (Int.emod_nonneg _ (by norm_num))]
  have hdvd : ((2 ^ k : Nat) : Int) ∣ 4294967296 := by
    have : (2 : Int) ^ k ∣ 2 ^ 32 := pow_dvd_pow 2 hk
    simpa using this
  exact Int.emod_emod_of_dvd x hdvd

theorem iand_mask_lt (x : Int) (k : Nat) (hk : k ≤ 32) :
    (iand x (2 ^ k - 1)).toNat < 2 ^ k := by
  rw [iand_mask x k hk]
  have h1 : 0 ≤ x % ((2 ^ k : Nat) : Int) := Int.emod_nonneg _ (by positivity)
  have h2 : x % ((2 ^ k : Nat) : Int) < ((2 ^ k : Nat) : Int) := Int.emod_lt_of_pos _ (by positivity)
  omega

/-- A tap further back than the samples written since `activate()` lands in
the part of the ring not written yet. -/
theorem iand_mask_fresh (A d : Int) (k : Nat) (hk : k ≤ 32) (hA : 0 ≤ A) (hAd : A < d)
    (hd : d ≤ ((2 ^ k : Nat) : Int)) :
    A ≤ ((iand (A - d) (2 ^ k - 1)).toNat : Int) ∧ (iand (A - d) (2 ^ k - 1)).toNat < 2 ^ k := by
  refine ⟨?_, iand_mask_lt _ k hk⟩
  rw [iand_mask _ k hk, ← Int.add_emod_self, Int.emod_eq_of_lt (by omega) (by omega)]
  omega

theorem iand_succ (p : Int) (k : Nat) (hk : k ≤ 32) (h0 : 0 ≤ p) (h1 : p < ((2 ^ k : Nat) : Int)) :
    iand (p + 1) (2 ^ k - 1) = if p + 1 = ((2 ^ k : Nat) : Int) then 0 else p + 1 := by
  rw [iand_mask _ k hk]
  split_ifs with h
  · rw [h, Int.emod_self]
  · exact Int.emod_eq_of_lt (by omega) (by omega)

end vintage_delay_audio_module

namespace vintage_delay_audio_module

theorem delayline2_impl_amt {α G F : Type} [Add α] [Mul α] [Zero α] (E : Env α G F)
    (hstep : ∀ g, E.step g = (E.get g).2) (A d : Int) (x u t : α) (ga gf : G) :
    (delayline2_impl E A d x u t ga gf).amt = (E.get ga).2 ∧
    (delayline2_impl E A d x u t ga gf).fb = (E.get gf).2 := by
  unfold delayline2_impl
  split_ifs
  · exact ⟨hstep ga, hstep gf⟩
  · exact ⟨rfl, rfl⟩

theorem delayline2_impl_del {α G F : Type} [Add α] [Mul α] [Zero α] (E : Env α G F)
    (A d : Int) (x u t : α) (ga gf : G)
    (hcold : A ≤ d → E.sanitize (x + t * (E.get gf).1) = x) :
    (delayline2_impl E A d x u t ga gf).del = E.sanitize (x + t * (E.get gf).1) := by
  unfold delayline2_impl
  split_ifs with h
  · exact (hcold h).symm
  · rfl

theorem bufsel_zero {α G F : Type} (s : State α G F) : bufsel s 0 = s.buffers0 := rfl

theorem bufsel_one {α G F : Type} (s : State α G F) : bufsel s 1 = s.buffers1 := rfl

theorem bufsel_one_sub_zero {α G F : Type} (s : State α G F) :
    bufsel s (1 - 0) = s.buffers1 := rfl

theorem bufsel_one_sub_one {α G F : Type} (s : State α G F) :
    bufsel s (1 - 1) = s.buffers0 := rfl

/-- The LR iteration of the first module, with the right line's taps and
feedback smoother replaced by their equals. -/
theorem lr_body_eq {α G F : Type} [Add α] [Mul α] [Zero α] (E : Env α G F) (k : Nat)
    (hk : k ≤ 32) (hM : E.MAX_DELAY = 2 ^ k) (a b : Int) (ins : Nat → α) (i : Nat)
    (lr rl : Run α G F) (h : Mirror (2 ^ k) a b lr.st rl.st) :
    body_lr E 0 (a + b) a (a + b) ins ins i lr
      = finish E ins ins i lr (lr_left E a b ins i lr) (lr_right E a b ins i lr) := by
  have hmask : ADDR_MASK E = 2 ^ k - 1 := by unfold ADDR_MASK; rw [hM]
  simp only [body_lr, lr_left, lr_right, bufsel_zero, bufsel_one_sub_zero, hmask, h.lr_l, h.lr_r,
    h.fb1, h.buf1 _ (iand_mask_lt _ k hk)]

/-- The RL iteration of the second module is the LR iteration's two lines,
exchanged. -/
theorem rl_body_eq {α G F : Type} [Add α] [Mul α] [Zero α] (E : Env α G F) (k : Nat)
    (hk : k ≤ 32) (hM : E.MAX_DELAY = 2 ^ k) (a b : Int) (ins : Nat → α) (i : Nat)
    (lr rl : Run α G F) (h : Mirror (2 ^ k) a b lr.st rl.st) :
    body_lr E 1 (b + a) (b + a) a ins ins i rl
      = finish E ins ins i rl (lr_right E a b ins i lr) (lr_left E a b ins i lr) := by
  have hmask : ADDR_MASK E = 2 ^ k - 1 := by unfold ADDR_MASK; rw [hM]
  simp only [body_lr, lr_left, lr_right, bufsel_one, bufsel_one_sub_one, hmask, h.rl_l, h.rl_r,
    h.age_eq, h.ptr_eq, h.fb2, h.fb3, h.amt1, h.amt2, add_comm b a,
    h.buf2 _ (iand_mask_lt _ k hk), h.buf3 _ (iand_mask_lt _ k hk)]

/-- Under the mirror relation the two lines of the LR iteration write the same
value and leave the same feedback smoother. -/
theorem lr_lines_agree {α G F : Type} [Add α] [Mul α] [Zero α] (E : Env α G F) (k : Nat)
    (hk : k ≤ 32) (hM : E.MAX_DELAY = 2 ^ k) (hstep : ∀ g, E.step g = (E.get g).2)
    (hzero : ∀ v : α, 0 * v = 0) (hadd : ∀ v : α, v + 0 = v)
    (a b : Int) (ha : 0 < a) (hb : 0 < b) (hab : a + b < ((2 ^ k : Nat) : Int))
    (ins : Nat → α) (i : Nat) (hsan : E.sanitize (ins i) = ins i)
    (lr rl : Run α G F) (h : Mirror (2 ^ k) a b lr.st rl.st) :
    (lr_left E a b ins i lr).del = (lr_right E a b ins i lr).del ∧
    (lr_left E a b ins i lr).fb = (lr_right E a b ins i lr).fb := by
  have hmask : ADDR_MASK E = 2 ^ k - 1 := by unfold ADDR_MASK; rw [hM]
  have hcold : ∀ d : Int, d < a + b → lr.st.age ≤ d →
      E.sanitize (ins i + lr.st.buffers0 (iand (lr.st.bufptr - (a + b)) (2 ^ k - 1)).toNat
        * (E.get lr.st.fb_left).1) = ins i := by
    intro d hd hAd
    obtain ⟨hp, hreg⟩ := h.fresh (lt_of_le_of_lt hAd (lt_trans hd hab))
    obtain ⟨f1, f2⟩ := iand_mask_fresh lr.st.age (a + b) k hk h.age_nonneg
      (lt_of_le_of_lt hAd hd) (le_of_lt hab)
    rw [hp, hreg _ f1 f2, hzero, hadd, hsan]
  refine ⟨?_, ?_⟩
  · unfold lr_left lr_right
    rw [hmask, delayline2_impl_del E _ _ _ _ _ _ _ (hcold a (by omega)),
      delayline2_impl_del E _ _ _ _ _ _ _ (hcold b (by omega))]
  · unfold lr_left lr_right
    rw [(delayline2_impl_amt E hstep _ _ _ _ _ _ _).2, (delayline2_impl_amt E hstep _ _ _ _ _ _ _).2]

/-- Two iterations that end in exchanged lines keep the mirror relation and
produce exchanged outputs. -/
theorem mirror_finish {α G F : Type} [Add α] [Mul α] [Zero α] (E : Env α G F) (k : Nat)
    (hk : k ≤ 32) (hM : E.MAX_DELAY = 2 ^ k) (a b : Int) (ins : Nat → α) (i : Nat)
    (lr rl : Run α G F) (h : Mirror (2 ^ k) a b lr.st rl.st) (L R : Line α G)
    (hdel : L.del = R.del) (hfb : L.fb = R.fb) :
    Mirror (2 ^ k) a b (finish E ins ins i lr L R).st (finish E ins ins i rl R L).st ∧
    (finish E ins ins i rl R L).outs0 i = (finish E ins ins i lr L R).outs1 i ∧
    (finish E ins ins i rl R L).outs1 i = (finish E ins ins i lr L R).outs0 i := by
  have hptr : iand (lr.st.bufptr + 1) (E.MAX_DELAY - 1)
      = if lr.st.bufptr + 1 = ((2 ^ k : Nat) : Int) then 0 else lr.st.bufptr + 1 := by
    rw [hM]; exact iand_succ _ k hk h.ptr_nonneg h.ptr_lt
  refine ⟨?_, ?_, ?_⟩
  · refine
      { lr_mode := h.lr_mode, rl_mode := h.rl_mode, lr_l := h.lr_l, lr_r := h.lr_r,
        rl_l := h.rl_l, rl_r := h.rl_r, lr_medium := h.lr_medium, rl_medium := h.rl_medium,
        age_eq := ?_, age_nonneg := ?_, ptr_eq := ?_, ptr_nonneg := ?_, ptr_lt := ?_,
        buf1 := ?_, buf2 := ?_, buf3 := ?_, fresh := ?_, fb1 := hfb.symm, fb2 := hfb.symm,
        fb3 := rfl, amt1 := rfl, amt2 := rfl, dry_eq := ?_, chmix_eq := ?_ }
    · show rl.st.age + 1 = lr.st.age + 1
      rw [h.age_eq]
    · show 0 ≤ lr.st.age + 1
      have := h.age_nonneg; omega
    · show iand (rl.st.bufptr + 1) (E.MAX_DELAY - 1) = iand (lr.st.bufptr + 1) (E.MAX_DELAY - 1)
      rw [h.ptr_eq]
    · show 0 ≤ iand (lr.st.bufptr + 1) (E.MAX_DELAY - 1)
      rw [hptr]; have := h.ptr_nonneg; split_ifs <;> omega
    · show iand (lr.st.bufptr + 1) (E.MAX_DELAY - 1) < ((2 ^ k : Nat) : Int)
      rw [hptr]; have := h.ptr_lt; have := h.ptr_nonneg; split_ifs <;> omega
    · intro j hj
      show upd lr.st.buffers1 lr.st.bufptr.toNat R.del j = upd lr.st.buffers0 lr.st.bufptr.toNat L.del j
      unfold upd; split_ifs
      · exact hdel.symm
      · exact h.buf1 j hj
    · intro j hj
      show upd rl.st.buffers0 rl.st.bufptr.toNat R.del j = upd lr.st.buffers0 lr.st.bufptr.toNat L.del j
      rw [h.ptr_eq]; unfold upd; split_ifs
      · exact hdel.symm
      · exact h.buf2 j hj
    · intro j hj
      show upd rl.st.buffers1 rl.st.bufptr.toNat L.del j = upd lr.st.buffers0 lr.st.bufptr.toNat L.del j
      rw [h.ptr_eq]; unfold upd; split_ifs
      · rfl
      · exact h.buf3 j hj
    · intro hlt
      have hlt' : lr.st.age + 1 < ((2 ^ k : Nat) : Int) := hlt
      obtain ⟨hp, hreg⟩ := h.fresh (by omega)
      refine ⟨?_, ?_⟩
      · show iand (lr.st.bufptr + 1) (E.MAX_DELAY - 1) = lr.st.age + 1
        rw [hptr, hp, if_neg (by omega)]
      · intro j hj1 hj2
        have hj1' : lr.st.age + 1 ≤ (j : Int) := hj1
        show upd lr.st.buffers0 lr.st.bufptr.toNat L.del j = 0
        have hne : j ≠ lr.st.bufptr.toNat := by
          rw [hp]; have := h.age_nonneg; omega
        unfold upd; rw [if_neg hne]
        exact hreg j (by omega) hj2
    · show (E.get rl.st.dry).2 = (E.get lr.st.dry).2
      rw [h.dry_eq]
    · show (E.get rl.st.chmix).2 = (E.get lr.st.chmix).2
      rw [h.chmix_eq]
  · rw [(finish_cold E ins ins i rl R L).2.2.2.2.2.2.2.1,
      (finish_cold E ins ins i lr L R).2.2.2.2.2.2.2.2, h.dry_eq, h.chmix_eq]
  · rw [(finish_cold E ins ins i rl R L).2.2.2.2.2.2.2.2,
      (finish_cold E ins ins i lr L R).2.2.2.2.2.2.2.1, h.dry_eq, h.chmix_eq]

theorem mirror_loop {α G F : Type} [Add α] [Mul α] [Zero α] (E : Env α G F) (k : Nat)
    (hk : k ≤ 32) (hM : E.MAX_DELAY = 2 ^ k) (hstep : ∀ g, E.step g = (E.get g).2)
    (hzero : ∀ v : α, 0 * v = 0) (hadd : ∀ v : α, v + 0 = v)
    (a b : Int) (ha : 0 < a) (hb : 0 < b) (hab : a + b < ((2 ^ k : Nat) : Int))
    (ins : Nat → α) (hsan : ∀ i, E.sanitize (ins i) = ins i) :
    ∀ (count i : Nat) (lr rl : Run α G F), Mirror (2 ^ k) a b lr.st rl.st →
      Mirror (2 ^ k) a b (for_range (body_lr E 0 (a + b) a (a + b) ins ins) i count lr).st
        (for_range (body_lr E 1 (b + a) (b + a) a ins ins) i count rl).st ∧
      ∀ j, j < count →
        (for_range (body_lr E 1 (b + a) (b + a) a ins ins) i count rl).outs0 (i + j)
          = (for_range (body_lr E 0 (a + b) a (a + b) ins ins) i count lr).outs1 (i + j) ∧
        (for_range (body_lr E 1 (b + a) (b + a) a ins ins) i count rl).outs1 (i + j)
          = (for_range (body_lr E 0 (a + b) a (a + b) ins ins) i count lr).outs0 (i + j) := by
  intro count
  induction count with
  | zero =>
    intro i lr rl h
    exact ⟨h, fun j hj => absurd hj (Nat.not_lt_zero j)⟩
  | succ c ih =>
    intro i lr rl h
    obtain ⟨hdel, hfb⟩ := lr_lines_agree E k hk hM hstep hzero hadd a b ha hb hab ins i
      (hsan i) lr rl h
    obtain ⟨hm, ho0, ho1⟩ := mirror_finish E k hk hM a b ins i lr rl h _ _ hdel hfb
    rw [← lr_body_eq E k hk hM a b ins i lr rl h, ← rl_body_eq E k hk hM a b ins i lr rl h]
      at hm ho0 ho1
    obtain ⟨rm, ro⟩ := ih (i + 1) _ _ hm
    have fl := (cold_loop E ins ins _ (body_lr_cold E 0 (a + b) a (a + b) ins ins) c (i + 1)
      (body_lr E 0 (a + b) a (a + b) ins ins i lr)).2.2.2.2.2.2.1 i (Nat.lt_succ_self i)
    have fr := (cold_loop E ins ins _ (body_lr_cold E 1 (b + a) (b + a) a ins ins) c (i + 1)
      (body_lr E 1 (b + a) (b + a) a ins ins i rl)).2.2.2.2.2.2.1 i (Nat.lt_succ_self i)
    simp only [for_range]
    refine ⟨rm, ?_⟩
    intro j hj
    cases j with
    | zero =>
      show (for_range (body_lr E 1 (b + a) (b + a) a ins ins) (i + 1) c _).outs0 i
          = (for_range (body_lr E 0 (a + b) a (a + b) ins ins) (i + 1) c _).outs1 i ∧
        (for_range (body_lr E 1 (b + a) (b + a) a ins ins) (i + 1) c _).outs1 i
          = (for_range (body_lr E 0 (a + b) a (a + b) ins ins) (i + 1) c _).outs0 i
      rw [fl.1, fl.2, fr.1, fr.2]
      exact ⟨ho0, ho1⟩
    | succ j =>
      have := ro j (by omega)
      rwa [show i + 1 + j = i + (j + 1) by omega] at this

theorem mix_loop_lr {α G F : Type} [Add α] [Mul α] [Zero α] (E : Env α G F)
    (ins0 ins1 : Nat → α) (offset count : Nat) (r : Run α G F) (a b : Int)
    (hm : r.st.mixmode = MIXMODE_LR) (hl : r.st.deltime_l = a) (hr : r.st.deltime_r = b) :
    mix_loop E ins0 ins1 offset count r
      = for_range (body_lr E 0 (a + b) a (a + b) ins0 ins1) offset count r := by
  simp [mix_loop, hm, hl, hr, MIXMODE_LR, MIXMODE_RL, MIXMODE_STEREO, MIXMODE_PINGPONG]

theorem mix_loop_rl {α G F : Type} [Add α] [Mul α] [Zero α] (E : Env α G F)
    (ins0 ins1 : Nat → α) (offset count : Nat) (r : Run α G F) (a b : Int)
    (hm : r.st.mixmode = MIXMODE_RL) (hl : r.st.deltime_l = b) (hr : r.st.deltime_r = a) :
    mix_loop E ins0 ins1 offset count r
      = for_range (body_lr E 1 (b + a) (b + a) a ins0 ins1) offset count r := by
  simp [mix_loop, hm, hl, hr, MIXMODE_LR, MIXMODE_RL, MIXMODE_STEREO, MIXMODE_PINGPONG]

theorem mirror_saturate {α G F : Type} [Zero α] (E : Env α G F) (k : Nat)
    (hM : E.MAX_DELAY = 2 ^ k) (a b : Int) (lr rl : State α G F)
    (h : Mirror (2 ^ k) a b lr rl) : Mirror (2 ^ k) a b (saturate E lr) (saturate E rl) := by
  unfold saturate
  rw [h.age_eq, hM]
  split_ifs with hge
  · exact
      { lr_mode := h.lr_mode, rl_mode := h.rl_mode, lr_l := h.lr_l, lr_r := h.lr_r,
        rl_l := h.rl_l, rl_r := h.rl_r, lr_medium := h.lr_medium, rl_medium := h.rl_medium,
        age_eq := rfl, age_nonneg := Int.natCast_nonneg _, ptr_eq := h.ptr_eq,
        ptr_nonneg := h.ptr_nonneg, ptr_lt := h.ptr_lt, buf1 := h.buf1, buf2 := h.buf2,
        buf3 := h.buf3, fresh := fun hlt => absurd hlt (lt_irrefl _), fb1 := h.fb1,
        fb2 := h.fb2, fb3 := h.fb3, amt1 := h.amt1, amt2 := h.amt2, dry_eq := h.dry_eq,
        chmix_eq := h.chmix_eq }
  · exact h

/-- A `process` call on two mirrored modules fed the same signal on both
channels: they stay mirrored and their output windows are exchanged. -/
theorem mirror_process {α G F : Type} [Add α] [Mul α] [Zero α] (E : Env α G F) (k : Nat)
    (hk : k ≤ 32) (hM : E.MAX_DELAY = 2 ^ k) (hstep : ∀ g, E.step g = (E.get g).2)
    (hzero : ∀ v : α, 0 * v = 0) (hadd : ∀ v : α, v + 0 = v)
    (a b : Int) (ha : 0 < a) (hb : 0 < b) (hab : a + b < ((2 ^ k : Nat) : Int))
    (ins : Nat → α) (hsan : ∀ i, E.sanitize (ins i) = ins i)
    (offset numsamples : Nat) (hlen : offset + numsamples < U32)
    (lr rl : State α G F) (o0 o1 p0 p1 : Nat → α) (h : Mirror (2 ^ k) a b lr rl) :
    Mirror (2 ^ k) a b (process E lr offset numsamples ins ins o0 o1).st
      (process E rl offset numsamples ins ins p0 p1).st ∧
    ∀ j, j < numsamples →
      (process E rl offset numsamples ins ins p0 p1).outs0 (offset + j)
        = (process E lr offset numsamples ins ins o0 o1).outs1 (offset + j) ∧
      (process E rl offset numsamples ins ins p0 p1).outs1 (offset + j)
        = (process E lr offset numsamples ins ins o0 o1).outs0 (offset + j) := by
  have hcount : (offset + numsamples) % U32 - offset = numsamples := by
    rw [Nat.mod_eq_of_lt hlen]; omega
  obtain ⟨lm, lo⟩ := mirror_loop E k hk hM hstep hzero hadd a b ha hb hab ins hsan numsamples
    offset { st := lr, outs0 := o0, outs1 := o1 } { st := rl, outs0 := p0, outs1 := p1 } h
  simp only [process, hcount]
  rw [mix_loop_lr E ins ins offset numsamples _ a b h.lr_mode h.lr_l h.lr_r,
    mix_loop_rl E ins ins offset numsamples _ a b h.rl_mode h.rl_l h.rl_r,
    post_medium0 E _ _ _ _ lm.lr_medium, post_medium0 E _ _ _ _ lm.rl_medium]
  exact ⟨mirror_saturate E k hM a b _ _ lm, lo⟩

end vintage_delay_audio_module

namespace vintage_delay_audio_module

theorem mirror_stream {α G F : Type} [Add α] [Mul α] [Zero α] (E : Env α G F) (k : Nat)
    (hk : k ≤ 32) (hM : E.MAX_DELAY = 2 ^ k) (hstep : ∀ g, E.step g = (E.get g).2)
    (hzero : ∀ v : α, 0 * v = 0) (hadd : ∀ v : α, v + 0 = v)
    (a b : Int) (ha : 0 < a) (hb : 0 < b) (hab : a + b < ((2 ^ k : Nat) : Int))
    (x o0 o1 p0 p1 : Nat → α) (hsan : ∀ n, E.sanitize (x n) = x n) :
    ∀ (calls : List (Nat × Nat)) (lr rl : State α G F) (done : Nat),
      Mirror (2 ^ k) a b lr rl → (∀ c ∈ calls, c.1 + c.2 < U32) →
      stream E x x p0 p1 rl done calls = (stream E x x o0 o1 lr done calls).map Prod.swap := by
  intro calls
  induction calls with
  | nil => intro lr rl done _ _; simp [stream]
  | cons c rest ih =>
    intro lr rl done h hc
    obtain ⟨offset, numsamples⟩ := c
    obtain ⟨pm, po⟩ := mirror_process E k hk hM hstep hzero hadd a b ha hb hab
      (fun i => x (done + (i - offset))) (fun i => hsan _) offset numsamples
      (hc _ (List.mem_cons_self _ _)) lr rl o0 o1 p0 p1 h
    simp only [stream, List.map_append, List.map_map]
    rw [ih _ _ (done + numsamples) pm (fun c hc' => hc c (List.mem_cons_of_mem _ hc'))]
    congr 1
    apply List.map_congr_left
    intro j hj
    obtain ⟨e0, e1⟩ := po j (List.mem_range.mp hj)
    simp only [Function.comp, Prod.swap, e0, e1]

theorem mirror_activate {α G F : Type} [Zero α] (k : Nat) (a b : Int) (ga gb gf gd gc : G)
    (f : F) :
    @Mirror α G F _ (2 ^ k) a b (activate (constructed MIXMODE_LR a b 0 ga gb gf gf gd gc f))
      (activate (constructed MIXMODE_RL b a 0 gb ga gf gf gd gc f)) :=
  { lr_mode := rfl, rl_mode := rfl, lr_l := rfl, lr_r := rfl, rl_l := rfl, rl_r := rfl,
    lr_medium := rfl, rl_medium := rfl, age_eq := rfl, age_nonneg := le_refl _, ptr_eq := rfl,
    ptr_nonneg := le_refl _, ptr_lt := by show (0 : Int) < ((2 ^ k : Nat) : Int); positivity,
    buf1 := fun _ _ => rfl, buf2 := fun _ _ => rfl, buf3 := fun _ _ => rfl,
    fresh := fun _ => ⟨rfl, fun _ _ _ => rfl⟩, fb1 := rfl, fb2 := rfl, fb3 := rfl, amt1 := rfl,
    amt2 := rfl, dry_eq := rfl, chmix_eq := rfl }

end vintage_delay_audio_module

/-- Mix-mode symmetry for identical input channels.  Two freshly
constructed (zero-filled) and activated modules with medium 0 and the same
feedback, dry and channel-mix smoothers, one in LR mode with delay times
`(a, b)` and amount smoothers `(ga, gb)`, the other in RL mode with delay
times `(b, a)` and amount smoothers `(gb, ga)`, with `0 < a`, `0 < b`,
`a + b < MAX_DELAY` (a power of two), fed the same signal `x` on both input
channels through the same `process` calls, give exchanged outputs at every
sample, in exact arithmetic: `0 * v = 0`, `v + 0 = v`, `sanitize` leaves the
input samples unchanged and `step` advances a smoother as `get` does. -/
theorem vintage_lr_rl_mirror_mono {α G F : Type} [Add α] [Mul α] [Zero α]
    (E : vintage_delay_audio_module.Env α G F) (k : Nat) (hk : k ≤ 32)
    (hM : E.MAX_DELAY = 2 ^ k) (hstep : ∀ g, E.step g = (E.get g).2)
    (hzero : ∀ v : α, 0 * v = 0) (hadd : ∀ v : α, v + 0 = v)
    (a b : Int) (ha : 0 < a) (hb : 0 < b) (hab : a + b < E.MAX_DELAY)
    (ga gb gf gd gc : G) (f : F) (x o0 o1 p0 p1 : Nat → α)
    (hsan : ∀ n, E.sanitize (x n) = x n)
    (calls : List (Nat × Nat)) (hc : ∀ c ∈ calls, c.1 + c.2 < U32) :
    vintage_delay_audio_module.stream E x x p0 p1
        (vintage_delay_audio_module.activate
          (vintage_delay_audio_module.constructed vintage_delay_audio_module.MIXMODE_RL b a 0
            gb ga gf gf gd gc f)) 0 calls
      = (vintage_delay_audio_module.stream E x x o0 o1
          (vintage_delay_audio_module.activate
            (vintage_delay_audio_module.constructed vintage_delay_audio_module.MIXMODE_LR a b 0
              ga gb gf gf gd gc f)) 0 calls).map Prod.swap := by
  rw [hM] at hab
  exact vintage_delay_audio_module.mirror_stream E k hk hM hstep hzero hadd a b ha hb hab
    x o0 o1 p0 p1 hsan calls _ _ 0
    (vintage_delay_audio_module.mirror_activate k a b ga gb gf gd gc f) hc

/-- The symmetry for identical input channels at a concrete input: `MAX_DELAY = 8`, delay times 1 and 2,
amounts 3 and 5, feedback 2, the signal 1, 2, 3, ... on both channels, twelve
samples in two calls. -/
theorem vintage_lr_rl_mirror_mono_witness :
    vintage_delay_audio_module.stream (vintage_delay_audio_module.settled 8 1)
        vintage_delay_audio_module.ramp vintage_delay_audio_module.ramp
        vintage_delay_audio_module.silence vintage_delay_audio_module.silence
        (vintage_delay_audio_module.activate
          (vintage_delay_audio_module.constructed vintage_delay_audio_module.MIXMODE_RL 2 1 0
            5 3 2 2 0 0 ())) 0 [(0, 5), (2, 7)]
      = [(0, 0), (0, 0), (0, 6), (5, 9), (10, 18), (15, 27), (30, 36), (45, 57), (60, 78),
          (95, 99), (130, 144), (165, 189)] :=
  (vintage_lr_rl_mirror_mono (vintage_delay_audio_module.settled 8 1) 3 (by decide) rfl
    (fun _ => rfl) Int.zero_mul Int.add_zero 1 2 (by decide) (by decide) (by decide)
    3 5 2 0 0 () vintage_delay_audio_module.ramp vintage_delay_audio_module.silence
    vintage_delay_audio_module.silence vintage_delay_audio_module.silence
    vintage_delay_audio_module.silence (fun _ => rfl) [(0, 5), (2, 7)] (by decide)).trans
    (by decide)

/-- C4: the mix-mode symmetry fails, because RL reads each line's taps from the
other line's buffer (`buffers[v]` with `v = 1`) while the writes stay
`buffers[0] = del_left`, `buffers[1] = del_right`.  `MAX_DELAY = 8`, amounts
and feedback 1, dry gain 0, channel mix 0.  LR mode with delay times `(1, 2)` on a left input that is 1 at
sample 1 (right input silent) outputs 1 on the left at samples 2 and 5 and
nothing on the right.  RL mode with delay times `(2, 1)` on the exchanged
inputs outputs 1 on the left at sample 4 and on the right at sample 5: not
the LR outputs exchanged.  With the signal 1, 2, 3, ... on both channels the
outputs are not exchanged either when a delay time is 0 (times `(0, 2)`) or
when the two delay times exceed the buffer (times `(2, 7)`). -/
theorem vintage_lr_rl_not_mirrored :
    (vintage_delay_audio_module.heads
        (vintage_delay_audio_module.process (vintage_delay_audio_module.settled 8 1)
          (vintage_delay_audio_module.activate
            (vintage_delay_audio_module.constructed vintage_delay_audio_module.MIXMODE_LR 1 2 0
              1 1 1 1 0 0 ()))
          0 6 (fun i => if i = 1 then 1 else 0) vintage_delay_audio_module.silence
          vintage_delay_audio_module.silence vintage_delay_audio_module.silence) 6
      = [(0, 0), (0, 0), (1, 0), (0, 0), (0, 0), (1, 0)] ∧
     vintage_delay_audio_module.heads
        (vintage_delay_audio_module.process (vintage_delay_audio_module.settled 8 1)
          (vintage_delay_audio_module.activate
            (vintage_delay_audio_module.constructed vintage_delay_audio_module.MIXMODE_RL 2 1 0
              1 1 1 1 0 0 ()))
          0 6 vintage_delay_audio_module.silence (fun i => if i = 1 then 1 else 0)
          vintage_delay_audio_module.silence vintage_delay_audio_module.silence) 6
      = [(0, 0), (0, 0), (0, 0), (0, 0), (1, 0), (0, 1)]) ∧
    (vintage_delay_audio_module.heads
        (vintage_delay_audio_module.process (vintage_delay_audio_module.settled 8 1)
          (vintage_delay_audio_module.activate
            (vintage_delay_audio_module.constructed vintage_delay_audio_module.MIXMODE_LR 0 2 0
              1 1 1 1 0 0 ()))
          0 5 vintage_delay_audio_module.ramp vintage_delay_audio_module.ramp
          vintage_delay_audio_module.silence vintage_delay_audio_module.silence) 5
      = [(0, 0), (0, 0), (0, 0), (0, 2), (0, 3)] ∧
     vintage_delay_audio_module.heads
        (vintage_delay_audio_module.process (vintage_delay_audio_module.settled 8 1)
          (vintage_delay_audio_module.activate
            (vintage_delay_audio_module.constructed vintage_delay_audio_module.MIXMODE_RL 2 0 0
              1 1 1 1 0 0 ()))
          0 5 vintage_delay_audio_module.ramp vintage_delay_audio_module.ramp
          vintage_delay_audio_module.silence vintage_delay_audio_module.silence) 5
      = [(0, 0), (0, 0), (0, 0), (2, 0), (4, 0)]) ∧
    (vintage_delay_audio_module.heads
        (vintage_delay_audio_module.process (vintage_delay_audio_module.settled 8 1)
          (vintage_delay_audio_module.activate
            (vintage_delay_audio_module.constructed vintage_delay_audio_module.MIXMODE_LR 2 7 0
              1 1 1 1 0 0 ()))
          0 6 vintage_delay_audio_module.ramp vintage_delay_audio_module.ramp
          vintage_delay_audio_module.silence vintage_delay_audio_module.silence) 6
      = [(0, 0), (0, 0), (0, 0), (2, 0), (3, 0), (7, 0)] ∧
     vintage_delay_audio_module.heads
        (vintage_delay_audio_module.process (vintage_delay_audio_module.settled 8 1)
          (vintage_delay_audio_module.activate
            (vintage_delay_audio_module.constructed vintage_delay_audio_module.MIXMODE_RL 7 2 0
              1 1 1 1 0 0 ()))
          0 6 vintage_delay_audio_module.ramp vintage_delay_audio_module.ramp
          vintage_delay_audio_module.silence vintage_delay_audio_module.silence) 6
      = [(0, 0), (0, 0), (0, 0), (0, 2), (0, 3), (0, 4)]) := by
  decide

/-! ## Compensation delay: the write pointer -/

/-- The operations other than `set_sample_rate` keep `write_ptr < buf_size`
for a power-of-two `buf_size`: `activate`, `params_changed` and `process`
(bypassed or not). -/
theorem comp_delay_write_ptr_kept {α : Type} [Add α] [Mul α] [Zero α] (k : Nat) (hk : k ≤ 31)
    (s : comp_delay_audio_module.State α) (p : comp_delay_audio_module.Params α)
    (offset numsamples new_delay : Nat) (ins outs : Nat → α)
    (hS : s.buf_size = 2 ^ k) (hw : s.write_ptr < s.buf_size) :
    (comp_delay_audio_module.activate s).write_ptr
      < (comp_delay_audio_module.activate s).buf_size ∧
    (comp_delay_audio_module.params_changed new_delay s).write_ptr
      < (comp_delay_audio_module.params_changed new_delay s).buf_size ∧
    (comp_delay_audio_module.process s p offset numsamples ins outs).1.write_ptr
      < (comp_delay_audio_module.process s p offset numsamples ins outs).1.buf_size := by
  refine ⟨?_, hw, ?_⟩
  · show 0 < s.buf_size
    omega
  · unfold comp_delay_audio_module.process
    split_ifs
    · exact hw
    · show comp_delay_audio_module.Loop.w_ptr (for_range _ _ _ _) < s.buf_size
      rw [hS, mask_pow k hk]
      exact for_range_keeps _ (fun l : comp_delay_audio_module.Loop α => l.w_ptr < 2 ^ k)
        (fun i (l : comp_delay_audio_module.Loop α) hl => by
          show ((l.w_ptr + 1) % U32) &&& (2 ^ k - 1) < 2 ^ k
          rw [advance_ptr k _ hk hl]; split_ifs <;> omega)
        _ _ _ (hS ▸ hw)

/-! ## Compensation delay: sizing the buffer -/

theorem grow_pow (m : Nat) (hm : m ≤ 2 ^ 31) :
    ∀ fuel j, j ≤ 31 → 32 ≤ fuel + j → (∀ i, i < j → 2 ^ i < m) →
      ∃ r, comp_delay_audio_module.grow m fuel (2 ^ j) = some (2 ^ r) ∧ m ≤ 2 ^ r ∧
        ∀ i, i < r → 2 ^ i < m := by
  intro fuel
  induction fuel with
  | zero => intro j hj hf _; omega
  | succ fuel ih =>
    intro j hj hf hlow
    by_cases hlt : 2 ^ j < m
    · have hj30 : j < 31 := by
        by_contra hc
        have : j = 31 := by omega
        subst this
        omega
      have hstep : (2 ^ j * 2) % U32 = 2 ^ (j + 1) := by
        have h1 : 2 ^ (j + 1) ≤ 2 ^ 31 := Nat.pow_le_pow_right (by decide) (by omega)
        rw [pow_succ]
        apply Nat.mod_eq_of_lt
        rw [← pow_succ]
        have : (2 : Nat) ^ 31 < U32 := by decide
        omega
      obtain ⟨r, h1, h2, h3⟩ := ih (j + 1) (by omega) (by omega) (by
        intro i hi
        rcases Nat.lt_succ_iff_lt_or_eq.mp hi with h | h
        · exact hlow i h
        · subst h; exact hlt)
      refine ⟨r, ?_, h2, h3⟩
      rw [comp_delay_audio_module.grow, if_pos hlt, hstep]
      exact h1
    · refine ⟨j, ?_, by omega, hlow⟩
      rw [comp_delay_audio_module.grow, if_neg hlt]

theorem grow_diverges (m : Nat) (hm : 2 ^ 31 < m) :
    ∀ fuel c, (c = 0 ∨ ∃ j, j ≤ 31 ∧ c = 2 ^ j) → comp_delay_audio_module.grow m fuel c = none := by
  intro fuel
  induction fuel with
  | zero => intro c _; rfl
  | succ fuel ih =>
    intro c hc
    have hcm : c < m := by
      rcases hc with h | ⟨j, hj, h⟩
      · omega
      · have : (2 : Nat) ^ j ≤ 2 ^ 31 := Nat.pow_le_pow_right (by decide) hj
        omega
    rw [comp_delay_audio_module.grow, if_pos hcm]
    apply ih
    rcases hc with h | ⟨j, hj, h⟩
    · left; subst h; rfl
    · subst h
      rcases Nat.lt_or_ge j 31 with h31 | h31
      · right
        refine ⟨j + 1, by omega, ?_⟩
        have h1 : 2 ^ (j + 1) ≤ 2 ^ 31 := Nat.pow_le_pow_right (by decide) (by omega)
        rw [pow_succ]
        apply Nat.mod_eq_of_lt
        rw [← pow_succ]
        have : (2 : Nat) ^ 31 < U32 := by decide
        omega
      · left
        have : j = 31 := by omega
        subst this
        decide

/-- The sizing of `set_sample_rate`: when `min_buf_size` (the truncated product
`max_delay sr`) is at most `2 ^ 31`, the sizing loop ends (every fuel of 33 or
more iterations gives the same result) and the call leaves `buf_size` equal
to the smallest power of two that is at least `min_buf_size` (so 1 for
`min_buf_size` 0 or 1), an all-zero buffer, and the other fields as they
were. -/
theorem comp_delay_set_sample_rate_sizes {α : Type} [Zero α] (max_delay : Nat → Nat) (sr : Nat)
    (s : comp_delay_audio_module.State α) (hmin : max_delay sr ≤ 2 ^ 31) :
    ∃ r, (∀ fuel, 33 ≤ fuel →
        comp_delay_audio_module.grow (max_delay sr) fuel 1 = some (2 ^ r)) ∧
      comp_delay_audio_module.set_sample_rate max_delay sr s
        = some { s with buffer := fun _ => 0, buf_size := 2 ^ r } ∧
      max_delay sr ≤ 2 ^ r ∧ (∀ i, i < r → 2 ^ i < max_delay sr) ∧
      (max_delay sr ≤ 1 → 2 ^ r = 1) := by
  obtain ⟨r, h1, h2, h3⟩ := grow_pow (max_delay sr) hmin 34 0 (by omega) (by omega)
    (fun i hi => absurd hi (Nat.not_lt_zero i))
  refine ⟨r, ?_, ?_, h2, h3, ?_⟩
  · intro fuel hf
    obtain ⟨r2, g1, g2, g3⟩ := grow_pow (max_delay sr) hmin fuel 0 (by omega) (by omega)
      (fun i hi => absurd hi (Nat.not_lt_zero i))
    have hr : r2 = r := by
      rcases Nat.lt_trichotomy r2 r with h | h | h
      · have := h3 r2 h; omega
      · exact h
      · have := g3 r h; omega
    rw [← hr]
    exact g1
  · unfold comp_delay_audio_module.set_sample_rate
    simp only []
    rw [show (1 : Nat) = 2 ^ 0 from rfl, h1]
  · intro hle
    rcases Nat.eq_zero_or_pos r with h | h
    · rw [h]; rfl
    · have := h3 0 h
      simp at this
      omega

/-- C11: for every sample rate (`srate` is a `uint32_t`), with `min_buf_size` the
truncated product `max_delay sr` of the rate and the maximum delay in seconds
(at most half the rate, as for every maximum delay of at most half a second),
`set_sample_rate` terminates (every fuel of 33 or more iterations of the
sizing loop gives the same result) and leaves `buf_size` equal to the
smallest power of two that is at least `min_buf_size` (so 1 for
`min_buf_size` 0 or 1), an all-zero buffer, and the other fields as they
were. -/
theorem comp_delay_set_sample_rate_every_rate {α : Type} [Zero α] (max_delay : Nat → Nat)
    (sr : Nat) (s : comp_delay_audio_module.State α) (hsr : sr < U32)
    (hmax : max_delay sr ≤ sr / 2) :
    ∃ r, (∀ fuel, 33 ≤ fuel →
        comp_delay_audio_module.grow (max_delay sr) fuel 1 = some (2 ^ r)) ∧
      comp_delay_audio_module.set_sample_rate max_delay sr s
        = some { s with buffer := fun _ => 0, buf_size := 2 ^ r } ∧
      max_delay sr ≤ 2 ^ r ∧ (∀ i, i < r → 2 ^ i < max_delay sr) ∧
      (max_delay sr ≤ 1 → 2 ^ r = 1) := by
  have hmin : max_delay sr ≤ 2 ^ 31 := by
    unfold U32 at hsr
    omega
  exact comp_delay_set_sample_rate_sizes max_delay sr s hmin

/-- C11, a run: the largest sample rate a `uint32_t` holds, 4294967295 Hz, with
a maximum delay of 0.28014 s. -/
theorem comp_delay_set_sample_rate_every_rate_witness :
    (4294967295 : Nat) < U32 ∧
    (fun sr => sr * 28014 / 100000) 4294967295 ≤ 4294967295 / 2 ∧
    ∃ r, (∀ fuel, 33 ≤ fuel →
        comp_delay_audio_module.grow ((fun sr => sr * 28014 / 100000) 4294967295) fuel 1
          = some (2 ^ r)) ∧
      comp_delay_audio_module.set_sample_rate (fun sr => sr * 28014 / 100000) 4294967295
          (comp_delay_audio_module.State.mk (fun _ => (5 : Int)) 4 2 3)
        = some { comp_delay_audio_module.State.mk (fun _ => (5 : Int)) 4 2 3 with
                 buffer := fun _ => 0, buf_size := 2 ^ r } ∧
      (fun sr => sr * 28014 / 100000) 4294967295 ≤ 2 ^ r ∧
      (∀ i, i < r → 2 ^ i < (fun sr => sr * 28014 / 100000) 4294967295) ∧
      ((fun sr => sr * 28014 / 100000) 4294967295 ≤ 1 → 2 ^ r = 1) :=
  ⟨by decide, by decide,
   comp_delay_set_sample_rate_every_rate (fun sr => sr * 28014 / 100000) 4294967295 _
     (by decide) (by decide)⟩

/-- Beyond the reach of a sample rate: were `min_buf_size` above `2 ^ 31` (as
for `2 ^ 31 + 1`), the doubling `1, 2, 4, ..., 2 ^ 31` would wrap to 0 in
`uint32_t` and stay there.  A maximum delay of at most half a second keeps
`min_buf_size` below `2 ^ 31` for every rate. -/
theorem comp_delay_sizing_wraps_above_half_range :
    (¬ ∃ fuel r, comp_delay_audio_module.grow 2147483649 fuel 1 = some r) ∧
    (comp_delay_audio_module.set_sample_rate (fun _ => 2147483649) 48000
      (comp_delay_audio_module.State.mk (fun _ => (0 : Int)) 4 2 3)).isNone = true := by
  constructor
  · rintro ⟨fuel, r, h⟩
    rw [grow_diverges 2147483649 (by decide) fuel 1 (Or.inr ⟨0, by decide, rfl⟩)] at h
    exact Option.noConfusion h
  · decide

/-! ## Bypass -/

/-- C12: a bypassed `process` call of the compensation delay and of the Haas
enhancer returns the module state it was given: the delay buffer and
`write_ptr` (and every other field) are as before the call, for every offset,
block length and input. -/
theorem bypass_keeps_delay_state {α : Type} [Add α] [Sub α] [Mul α] [Zero α] [LT α]
    [DecidableRel (LT.lt : α → α → Prop)]
    (s : comp_delay_audio_module.State α) (p : comp_delay_audio_module.Params α)
    (half : α) (hs : haas_enhancer_audio_module.State α) (hp : haas_enhancer_audio_module.Params α)
    (offset numsamples : Nat) (ins0 ins1 outs0 outs1 : Nat → α)
    (hb : p.bypass = true) (hhb : hp.bypass = true) :
    (comp_delay_audio_module.process s p offset numsamples ins0 outs0).1 = s ∧
    (comp_delay_audio_module.process s p offset numsamples ins0 outs0).1.buffer = s.buffer ∧
    (comp_delay_audio_module.process s p offset numsamples ins0 outs0).1.write_ptr
      = s.write_ptr ∧
    (haas_enhancer_audio_module.process half hs hp offset numsamples ins0 ins1 outs0 outs1).state
      = hs ∧
    (haas_enhancer_audio_module.process half hs hp offset numsamples ins0 ins1 outs0
      outs1).state.buffer = hs.buffer ∧
    (haas_enhancer_audio_module.process half hs hp offset numsamples ins0 ins1 outs0
      outs1).state.write_ptr = hs.write_ptr := by
  simp only [comp_delay_audio_module.process, haas_enhancer_audio_module.process, hb, hhb,
    if_true, and_self]

/-- C12, a run: a bypassed call over four samples at offset 2. -/
theorem bypass_keeps_delay_state_witness :
    (comp_delay_audio_module.process (comp_delay_audio_module.State.mk (fun _ => (7 : Int)) 4 2 3)
        (comp_delay_audio_module.Params.mk true 1 1) 2 4 (fun i => (i : Int)) (fun _ => 0)).1.write_ptr
      = 3 ∧
    (haas_enhancer_audio_module.process (1 : Int)
        (haas_enhancer_audio_module.State.mk (fun _ => 7) 4 3 0 1 2 1 1 1 1)
        (haas_enhancer_audio_module.Params.mk true 1 1 0 0 0) 2 4 (fun i => (i : Int))
        (fun i => (i : Int)) (fun _ => 0) (fun _ => 0)).state.write_ptr = 3 :=
  ⟨(bypass_keeps_delay_state (comp_delay_audio_module.State.mk (fun _ => (7 : Int)) 4 2 3)
      (comp_delay_audio_module.Params.mk true 1 1) (1 : Int)
      (haas_enhancer_audio_module.State.mk (fun _ => 7) 4 3 0 1 2 1 1 1 1)
      (haas_enhancer_audio_module.Params.mk true 1 1 0 0 0) 2 4 (fun i => (i : Int))
      (fun i => (i : Int)) (fun _ => 0) (fun _ => 0) rfl rfl).2.2.1,
   (bypass_keeps_delay_state (comp_delay_audio_module.State.mk (fun _ => (7 : Int)) 4 2 3)
      (comp_delay_audio_module.Params.mk true 1 1) (1 : Int)
      (haas_enhancer_audio_module.State.mk (fun _ => 7) 4 3 0 1 2 1 1 1 1)
      (haas_enhancer_audio_module.Params.mk true 1 1 0 0 0) 2 4 (fun i => (i : Int))
      (fun i => (i : Int)) (fun _ => 0) (fun _ => 0) rfl rfl).2.2.2.2.2⟩

/-! ## Reverb: the clip counter -/

/-- The loop of the reverb's `process`: the sample rate is kept, earlier output
samples are kept, and the clip counter is unchanged after a stretch with no
output sample above `1.f` and is `srate >> 3` after a stretch with one. -/
theorem reverb_loop_clip {α G P B R V : Type} [Add α] [Mul α] [LT α]
    [DecidableRel (LT.lt : α → α → Prop)] (E : reverb_audio_module.Env α G P B R V)
    (ins0 ins1 : Nat → α) :
    ∀ count i (r : reverb_audio_module.Run α G P B R V),
      (for_range (reverb_audio_module.body E ins0 ins1) i count r).st.srate = r.st.srate ∧
      (∀ j, j < i →
        (for_range (reverb_audio_module.body E ins0 ins1) i count r).outs0 j = r.outs0 j ∧
        (for_range (reverb_audio_module.body E ins0 ins1) i count r).outs1 j = r.outs1 j) ∧
      ((∀ j, i ≤ j → j < i + count →
          ¬ E.one < (for_range (reverb_audio_module.body E ins0 ins1) i count r).outs0 j ∧
          ¬ E.one < (for_range (reverb_audio_module.body E ins0 ins1) i count r).outs1 j) →
        (for_range (reverb_audio_module.body E ins0 ins1) i count r).st.clip = r.st.clip) ∧
      ((∃ j, i ≤ j ∧ j < i + count ∧
          (E.one < (for_range (reverb_audio_module.body E ins0 ins1) i count r).outs0 j ∨
           E.one < (for_range (reverb_audio_module.body E ins0 ins1) i count r).outs1 j)) →
        (for_range (reverb_audio_module.body E ins0 ins1) i count r).st.clip
          = r.st.srate >>> 3) := by
  intro count
  induction count with
  | zero =>
    intro i r
    refine ⟨rfl, fun j _ => ⟨rfl, rfl⟩, fun _ => rfl, ?_⟩
    rintro ⟨j, h1, h2, _⟩
    omega
  | succ count ih =>
    intro i r
    obtain ⟨hs, hframe, hquiet, harmed⟩ := ih (i + 1) (reverb_audio_module.body E ins0 ins1 i r)
    have hrate : (reverb_audio_module.body E ins0 ins1 i r).st.srate = r.st.srate := rfl
    have hstep : for_range (reverb_audio_module.body E ins0 ins1) i (count + 1) r
        = for_range (reverb_audio_module.body E ins0 ins1) (i + 1) count
            (reverb_audio_module.body E ins0 ins1 i r) := rfl
    rw [hstep]
    have hclip : (reverb_audio_module.body E ins0 ins1 i r).st.clip
        = if E.one < (reverb_audio_module.body E ins0 ins1 i r).outs0 i ∨
             E.one < (reverb_audio_module.body E ins0 ins1 i r).outs1 i
          then r.st.srate >>> 3 else r.st.clip := by
      simp only [reverb_audio_module.body, upd, if_true]
    refine ⟨hs.trans hrate, ?_, ?_, ?_⟩
    · intro j hj
      obtain ⟨h0, h1⟩ := hframe j (by omega)
      rw [h0, h1]
      simp only [reverb_audio_module.body, upd, if_neg (Nat.ne_of_lt hj)]
      exact ⟨trivial, trivial⟩
    · intro hq
      rw [hquiet (fun j h1 h2 => hq j (by omega) (by omega)), hclip]
      obtain ⟨q0, q1⟩ := hq i (Nat.le_refl i) (by omega)
      rw [(hframe i (by omega)).1] at q0
      rw [(hframe i (by omega)).2] at q1
      rw [if_neg (by tauto)]
    · rintro ⟨j, h1, h2, hex⟩
      by_cases hlater : ∃ j, i + 1 ≤ j ∧ j < i + 1 + count ∧
          (E.one < (for_range (reverb_audio_module.body E ins0 ins1) (i + 1) count
              (reverb_audio_module.body E ins0 ins1 i r)).outs0 j ∨
           E.one < (for_range (reverb_audio_module.body E ins0 ins1) (i + 1) count
              (reverb_audio_module.body E ins0 ins1 i r)).outs1 j)
      · rw [harmed hlater, hrate]
      · have hji : j = i := by
          by_contra hne
          exact hlater ⟨j, by omega, by omega, hex⟩
        subst hji
        rw [hquiet (fun k k1 k2 => by
          constructor
          · intro hk; exact hlater ⟨k, k1, k2, Or.inl hk⟩
          · intro hk; exact hlater ⟨k, k1, k2, Or.inr hk⟩), hclip]
        rw [(hframe j (by omega)).1, (hframe j (by omega)).2] at hex
        rw [if_pos hex]

/-- The clip counter after a `process` call of the reverb: with `last` the
wrapped sum `offset + numsamples`, a block with no output sample above `1.f`
leaves `clip - min(clip, last)`, and a block with such a sample on either
channel leaves `srate >> 3`. -/
theorem reverb_process_clip {α G P B R V : Type} [Add α] [Mul α] [LT α]
    [DecidableRel (LT.lt : α → α → Prop)] (E : reverb_audio_module.Env α G P B R V)
    (s : reverb_audio_module.State α G P B R V) (offset numsamples inputs_mask outputs_mask : Nat)
    (ins0 ins1 outs0 outs1 : Nat → α) :
    ((∀ j, offset ≤ j → j < offset + ((numsamples + offset) % U32 - offset) →
        ¬ E.one < (reverb_audio_module.process E s offset numsamples inputs_mask outputs_mask
            ins0 ins1 outs0 outs1).1.outs0 j ∧
        ¬ E.one < (reverb_audio_module.process E s offset numsamples inputs_mask outputs_mask
            ins0 ins1 outs0 outs1).1.outs1 j) →
      (reverb_audio_module.process E s offset numsamples inputs_mask outputs_mask
          ins0 ins1 outs0 outs1).1.st.clip
        = s.clip - min s.clip ((numsamples + offset) % U32)) ∧
    ((∃ j, offset ≤ j ∧ j < offset + ((numsamples + offset) % U32 - offset) ∧
        (E.one < (reverb_audio_module.process E s offset numsamples inputs_mask outputs_mask
            ins0 ins1 outs0 outs1).1.outs0 j ∨
         E.one < (reverb_audio_module.process E s offset numsamples inputs_mask outputs_mask
            ins0 ins1 outs0 outs1).1.outs1 j)) →
      (reverb_audio_module.process E s offset numsamples inputs_mask outputs_mask
          ins0 ins1 outs0 outs1).1.st.clip = s.srate >>> 3) := by
  obtain ⟨_, _, hquiet, harmed⟩ := reverb_loop_clip E ins0 ins1
    ((numsamples + offset) % U32 - offset) offset
    { st := { s with clip := s.clip - min s.clip ((numsamples + offset) % U32) }
      outs0 := outs0, outs1 := outs1 }
  exact ⟨fun h => hquiet h, fun h => harmed h⟩

/-- C13: the reverb's clip counter decays by the end index `offset +
numsamples`, not by the block length.  A quiet block of 4 samples at offset 4
takes a counter of 10 down to 2 (a decay by the block length would leave 6);
the same block at offset 0 leaves 6.  A sample of 2 arms the counter to
`48000 >> 3 = 6000`; a sample of -2 does not. -/
theorem reverb_clip_decays_by_end_index :
    (reverb_audio_module.process reverb_audio_module.passthrough
        (reverb_audio_module.dry_only 48000 10) 4 4 3 3
        (fun _ => 0) (fun _ => 0) (fun _ => 0) (fun _ => 0)).1.st.clip = 2 ∧
    (reverb_audio_module.process reverb_audio_module.passthrough
        (reverb_audio_module.dry_only 48000 10) 0 4 3 3
        (fun _ => 0) (fun _ => 0) (fun _ => 0) (fun _ => 0)).1.st.clip = 6 ∧
    (reverb_audio_module.process reverb_audio_module.passthrough
        (reverb_audio_module.dry_only 48000 10) 0 4 3 3
        (fun i => if i = 2 then 2 else 0) (fun _ => 0) (fun _ => 0) (fun _ => 0)).1.st.clip
      = 6000 ∧
    (reverb_audio_module.process reverb_audio_module.passthrough
        (reverb_audio_module.dry_only 48000 10) 0 4 3 3
        (fun i => if i = 2 then -2 else 0) (fun _ => 0) (fun _ => 0) (fun _ => 0)).1.st.clip
      = 6 := by
  decide

/-! ## Output activity masks -/

/-- C15 (amended): for every offset, block length, input mask and request
mask, `process` of the vintage delay returns 3, and `process` of the reverb,
of the compensation delay and of the Haas enhancer returns the request mask
`outputs_mask` unchanged. -/
theorem process_return_masks {α G P B R V : Type} [Add α] [Mul α] [LT α]
    [DecidableRel (LT.lt : α → α → Prop)] (E : reverb_audio_module.Env α G P B R V)
    (s : reverb_audio_module.State α G P B R V) (offset numsamples inputs_mask outputs_mask : Nat)
    (ins0 ins1 outs0 outs1 : Nat → α) :
    vintage_delay_audio_module.process_returns offset numsamples inputs_mask outputs_mask = 3 ∧
    (reverb_audio_module.process E s offset numsamples inputs_mask outputs_mask
      ins0 ins1 outs0 outs1).2 = outputs_mask ∧
    comp_delay_audio_module.process_returns offset numsamples inputs_mask outputs_mask
      = outputs_mask ∧
    haas_enhancer_audio_module.process_returns offset numsamples inputs_mask outputs_mask
      = outputs_mask :=
  ⟨rfl, rfl, rfl, rfl⟩

/-- C15, the claim as worded fails: asked for the mask 1, the reverb's
`process` returns 1, not 3. -/
theorem reverb_returns_request_mask :
    (reverb_audio_module.process reverb_audio_module.passthrough
        (reverb_audio_module.dry_only 48000 0) 0 4 3 1
        (fun _ => 0) (fun _ => 0) (fun _ => 0) (fun _ => 0)).2 = 1 ∧
    (reverb_audio_module.process reverb_audio_module.passthrough
        (reverb_audio_module.dry_only 48000 0) 0 4 3 1
        (fun _ => 0) (fun _ => 0) (fun _ => 0) (fun _ => 0)).2 ≠ 3 := by
  decide

/-! ## Vintage delay: the damping exponent of `params_changed` -/

/-- The tempo synchronisation changes only the `bpm` entry. -/
theorem synced_keeps {α G : Type} [LT α] [DecidableRel (LT.lt : α → α → Prop)]
    (A : vintage_delay_audio_module.Maths α G) (c : vintage_delay_audio_module.Controls α) :
    (vintage_delay_audio_module.synced A c).mixmode = c.mixmode ∧
    (vintage_delay_audio_module.synced A c).amount = c.amount ∧
    (vintage_delay_audio_module.synced A c).feedback = c.feedback := by
  unfold vintage_delay_audio_module.synced
  split_ifs <;> exact ⟨rfl, rfl, rfl⟩

/-- C14 (amended): `params_changed` has no guard on the total delay time.  In
LR mode the target of the right amount smoother is `amount * pow(fb, 1.0 *
deltime_r / deltime_fb)` and in RL mode the target of the left amount
smoother is `amount * pow(fb, 1.0 * deltime_l / deltime_fb)`, with
`deltime_fb = deltime_l + deltime_r`, for every parameter snapshot: the
quotient is evaluated also when `deltime_fb` is zero.  (`calc_filters` is
assumed not to touch the amount smoothers.) -/
theorem vintage_damping_exponent_unguarded {α G F : Type} [Mul α] [Sub α] [LT α]
    [DecidableRel (LT.lt : α → α → Prop)] (A : vintage_delay_audio_module.Maths α G)
    (calc_filters : vintage_delay_audio_module.State α G F → vintage_delay_audio_module.State α G F)
    (srate : Nat) (old_medium : Int) (c : vintage_delay_audio_module.Controls α)
    (s : vintage_delay_audio_module.State α G F)
    (hcalc : ∀ t, (calc_filters t).amt_left = t.amt_left ∧
      (calc_filters t).amt_right = t.amt_right) :
    (A.fastf2i_drm c.mixmode = vintage_delay_audio_module.MIXMODE_LR →
      (vintage_delay_audio_module.params_changed A calc_filters srate old_medium c s).2.amt_right
        = A.set_inertia s.amt_right (c.amount * A.pow c.feedback
            (A.div (A.one * A.ofInt (vintage_delay_audio_module.delay_times A srate c).2)
              (A.ofInt ((vintage_delay_audio_module.delay_times A srate c).1
                + (vintage_delay_audio_module.delay_times A srate c).2))))) ∧
    (A.fastf2i_drm c.mixmode = vintage_delay_audio_module.MIXMODE_RL →
      (vintage_delay_audio_module.params_changed A calc_filters srate old_medium c s).2.amt_left
        = A.set_inertia s.amt_left (c.amount * A.pow c.feedback
            (A.div (A.one * A.ofInt (vintage_delay_audio_module.delay_times A srate c).1)
              (A.ofInt ((vintage_delay_audio_module.delay_times A srate c).1
                + (vintage_delay_audio_module.delay_times A srate c).2))))) ∧
    ((vintage_delay_audio_module.delay_times A srate c).1
        + (vintage_delay_audio_module.delay_times A srate c).2 = 0 →
      A.fastf2i_drm c.mixmode = vintage_delay_audio_module.MIXMODE_LR →
      (vintage_delay_audio_module.params_changed A calc_filters srate old_medium c s).2.amt_right
        = A.set_inertia s.amt_right (c.amount * A.pow c.feedback
            (A.div (A.one * A.ofInt (vintage_delay_audio_module.delay_times A srate c).2)
              (A.ofInt 0)))) := by
  obtain ⟨hm, ha, hf⟩ := synced_keeps A c
  have hlr : A.fastf2i_drm c.mixmode = vintage_delay_audio_module.MIXMODE_LR →
      (vintage_delay_audio_module.params_changed A calc_filters srate old_medium c s).2.amt_right
        = A.set_inertia s.amt_right (c.amount * A.pow c.feedback
            (A.div (A.one * A.ofInt (vintage_delay_audio_module.delay_times A srate c).2)
              (A.ofInt ((vintage_delay_audio_module.delay_times A srate c).1
                + (vintage_delay_audio_module.delay_times A srate c).2)))) := by
    intro h
    have h0 : ¬ vintage_delay_audio_module.MIXMODE_LR = vintage_delay_audio_module.MIXMODE_STEREO := by
      decide
    have h1 : ¬ vintage_delay_audio_module.MIXMODE_LR = vintage_delay_audio_module.MIXMODE_PINGPONG := by
      decide
    simp only [vintage_delay_audio_module.params_changed, vintage_delay_audio_module.delay_times,
      hm, ha, hf, h, h0, h1, if_false, if_true]
    split_ifs
    · rw [(hcalc _).2]
    · rfl
  refine ⟨hlr, ?_, ?_⟩
  · intro h
    have h0 : ¬ vintage_delay_audio_module.MIXMODE_RL = vintage_delay_audio_module.MIXMODE_STEREO := by
      decide
    have h1 : ¬ vintage_delay_audio_module.MIXMODE_RL = vintage_delay_audio_module.MIXMODE_PINGPONG := by
      decide
    have h2 : ¬ vintage_delay_audio_module.MIXMODE_RL = vintage_delay_audio_module.MIXMODE_LR := by
      decide
    simp only [vintage_delay_audio_module.params_changed, vintage_delay_audio_module.delay_times,
      hm, ha, hf, h, h0, h1, h2, if_false, if_true]
    split_ifs
    · rw [(hcalc _).1]
    · rfl
  · intro hz h
    rw [hlr h, hz]

/-- C14, a run of the amended claim: the snapshot `zero_times` in LR mode has
delay times `(0, 0)`, and with quotients by zero read as 3 the right amount
target is `1 * 2 ^ 3 = 8`. -/
theorem vintage_damping_exponent_unguarded_witness :
    vintage_delay_audio_module.delay_times (vintage_delay_audio_module.integers 3) 48000
      vintage_delay_audio_module.zero_times = (0, 0) ∧
    (vintage_delay_audio_module.params_changed (vintage_delay_audio_module.integers 3)
      (fun t => t) 48000 0 vintage_delay_audio_module.zero_times
      (vintage_delay_audio_module.constructed 0 0 0 0 0 0 0 0 0 0 () :
        vintage_delay_audio_module.State Int Int Unit)).2.amt_right = 8 :=
  ⟨by decide,
   ((vintage_damping_exponent_unguarded (vintage_delay_audio_module.integers 3)
      (fun t => t) 48000 0 vintage_delay_audio_module.zero_times
      (vintage_delay_audio_module.constructed 0 0 0 0 0 0 0 0 0 0 () :
        vintage_delay_audio_module.State Int Int Unit) (fun _ => ⟨rfl, rfl⟩)).1
      (by decide)).trans (by decide)⟩

/-- C14, the claim as worded fails: for the snapshot `zero_times` (LR mode,
both delay times 0) the right amount target changes with the value that a
quotient by zero takes (2 when it is 1, 4 when it is 2), so the quotient with
divisor `deltime_l + deltime_r = 0` is evaluated. -/
theorem vintage_zero_total_delay_divides :
    vintage_delay_audio_module.delay_times (vintage_delay_audio_module.integers 1) 48000
      vintage_delay_audio_module.zero_times = (0, 0) ∧
    (vintage_delay_audio_module.params_changed (vintage_delay_audio_module.integers 1)
      (fun t => t) 48000 0 vintage_delay_audio_module.zero_times
      (vintage_delay_audio_module.constructed 0 0 0 0 0 0 0 0 0 0 () :
        vintage_delay_audio_module.State Int Int Unit)).2.amt_right = 2 ∧
    (vintage_delay_audio_module.params_changed (vintage_delay_audio_module.integers 2)
      (fun t => t) 48000 0 vintage_delay_audio_module.zero_times
      (vintage_delay_audio_module.constructed 0 0 0 0 0 0 0 0 0 0 () :
        vintage_delay_audio_module.State Int Int Unit)).2.amt_right = 4 := by
  decide

/-! ## Vintage delay: the simple tap -/

/-- C16: `delayline_impl` for every input.  While `age <= deltime` the output is
0, the value to write is `dry_value` and each ramp takes one `step`.  Once
`age > deltime` the output is the sanitized tap times the value the amount
ramp yields, the value to write is `dry_value` plus the sanitized tap times
the value the feedback ramp yields, and each ramp takes one `get`.  When a
`step` advances a ramp as a `get` does (the contract of the smoother), the two
ramps after the sample are the same whichever branch ran. -/
theorem delayline_impl_contract {α G F : Type} [Add α] [Mul α] [Zero α]
    (E : vintage_delay_audio_module.Env α G F) (age deltime : Int)
    (dry_value delayed_value : α) (amt fb : G) :
    (age ≤ deltime →
      (vintage_delay_audio_module.delayline_impl E age deltime dry_value delayed_value amt fb).out
        = 0 ∧
      (vintage_delay_audio_module.delayline_impl E age deltime dry_value delayed_value amt fb).del
        = dry_value ∧
      (vintage_delay_audio_module.delayline_impl E age deltime dry_value delayed_value amt fb).amt
        = E.step amt ∧
      (vintage_delay_audio_module.delayline_impl E age deltime dry_value delayed_value amt fb).fb
        = E.step fb) ∧
    (deltime < age →
      (vintage_delay_audio_module.delayline_impl E age deltime dry_value delayed_value amt fb).out
        = E.sanitize delayed_value * (E.get amt).1 ∧
      (vintage_delay_audio_module.delayline_impl E age deltime dry_value delayed_value amt fb).del
        = dry_value + E.sanitize delayed_value * (E.get fb).1 ∧
      (vintage_delay_audio_module.delayline_impl E age deltime dry_value delayed_value amt fb).amt
        = (E.get amt).2 ∧
      (vintage_delay_audio_module.delayline_impl E age deltime dry_value delayed_value amt fb).fb
        = (E.get fb).2) ∧
    ((∀ g, E.step g = (E.get g).2) →
      (vintage_delay_audio_module.delayline_impl E age deltime dry_value delayed_value amt fb).amt
        = (E.get amt).2 ∧
      (vintage_delay_audio_module.delayline_impl E age deltime dry_value delayed_value amt fb).fb
        = (E.get fb).2) := by
  unfold vintage_delay_audio_module.delayline_impl
  refine ⟨fun h => ?_, fun h => ?_, fun hstep => ?_⟩
  · rw [if_pos h]
    exact ⟨rfl, rfl, rfl, rfl⟩
  · rw [if_neg (not_le.mpr h)]
    exact ⟨rfl, rfl, rfl, rfl⟩
  · split_ifs
    · exact ⟨hstep amt, hstep fb⟩
    · exact ⟨rfl, rfl⟩

/-! ## Vintage delay: cursor and age -/

namespace vintage_delay_audio_module

/-- A loop whose iterations advance a cursor by `(p + 1) & (2 ^ k - 1)` moves
it by the iteration count modulo `2 ^ k`. -/
theorem cursor_advance {σ : Type} (ptr : σ → Int) (body : Nat → σ → σ) (k : Nat) (hk : k ≤ 32)
    (hb : ∀ i s, ptr (body i s) = iand (ptr s + 1) (2 ^ k - 1)) :
    ∀ (count i : Nat) (s : σ), 0 ≤ ptr s → ptr s < ((2 ^ k : Nat) : Int) →
      ptr (for_range body i count s) = (ptr s + count) % ((2 ^ k : Nat) : Int) := by
  intro count
  induction count with
  | zero =>
    intro i s h0 h1
    show ptr s = _
    rw [Nat.cast_zero, add_zero, Int.emod_eq_of_lt h0 h1]
  | succ c ih =>
    intro i s h0 h1
    have hM : (0 : Int) < ((2 ^ k : Nat) : Int) := by
      exact_mod_cast Nat.two_pow_pos k
    have hp : ptr (body i s) = (ptr s + 1) % ((2 ^ k : Nat) : Int) := by
      rw [hb, iand_mask _ k hk]
    show ptr (for_range body (i + 1) c (body i s)) = _
    rw [ih (i + 1) (body i s) (by rw [hp]; exact Int.emod_nonneg _ (ne_of_gt hM))
      (by rw [hp]; exact Int.emod_lt_of_pos _ hM), hp, Int.emod_add_emod]
    congr 1
    push_cast
    ring

/-- The sample loop moves the cursor by the block length modulo `MAX_DELAY`. -/
theorem mix_loop_cursor {α G F : Type} [Add α] [Mul α] [Zero α] (E : Env α G F) (k : Nat)
    (hk : k ≤ 32) (hM : E.MAX_DELAY = 2 ^ k) (ins0 ins1 : Nat → α) (offset count : Nat)
    (r : Run α G F)
    (hmode : r.st.mixmode = MIXMODE_STEREO ∨ r.st.mixmode = MIXMODE_PINGPONG ∨
      r.st.mixmode = MIXMODE_LR ∨ r.st.mixmode = MIXMODE_RL)
    (h0 : 0 ≤ r.st.bufptr) (h1 : r.st.bufptr < ((2 ^ k : Nat) : Int)) :
    (mix_loop E ins0 ins1 offset count r).st.bufptr
      = (r.st.bufptr + count) % ((2 ^ k : Nat) : Int) := by
  unfold mix_loop
  by_cases c1 : r.st.mixmode = MIXMODE_STEREO ∨ r.st.mixmode = MIXMODE_PINGPONG
  · simp only [c1, if_true]
    exact cursor_advance (fun u : Run α G F => u.st.bufptr) _ k hk
      (fun i u => by
        show iand (u.st.bufptr + 1) (E.MAX_DELAY - 1) = _
        rw [hM]) count offset r h0 h1
  · have c2 : r.st.mixmode = MIXMODE_LR ∨ r.st.mixmode = MIXMODE_RL := by tauto
    simp only [c1, c2, if_true, if_false]
    exact cursor_advance (fun u : Run α G F => u.st.bufptr) _ k hk
      (fun i u => by
        show iand (u.st.bufptr + 1) (E.MAX_DELAY - 1) = _
        rw [hM]) count offset r h0 h1

/-- The tail of `process`: `age` is saturated, and the cursor is either left
alone (medium 0 or below) or rewound to `orig_bufptr` and advanced again by
the block length. -/
theorem post_cursor {α G F : Type} (E : Env α G F) (k : Nat) (hk : k ≤ 32)
    (hM : E.MAX_DELAY = 2 ^ k) (orig_bufptr : Int) (offset count : Nat) (s : State α G F)
    (h0 : 0 ≤ orig_bufptr) (h1 : orig_bufptr < ((2 ^ k : Nat) : Int)) :
    (post E orig_bufptr offset count s).age = min s.age E.MAX_DELAY ∧
    (post E orig_bufptr offset count s).bufptr
      = if s.medium > 0 then (orig_bufptr + count) % ((2 ^ k : Nat) : Int) else s.bufptr := by
  have hsat : (saturate E s).age = min s.age E.MAX_DELAY ∧ (saturate E s).medium = s.medium ∧
      (saturate E s).bufptr = s.bufptr := by
    unfold saturate
    split_ifs with h
    · exact ⟨(min_eq_right h).symm, rfl, rfl⟩
    · exact ⟨(min_eq_left (le_of_lt (not_le.mp h))).symm, rfl, rfl⟩
  obtain ⟨ha, hm, hp⟩ := hsat
  have key : ∀ (body : Nat → State α G F → State α G F) (t : State α G F),
      (∀ i u, (body i u).age = u.age) →
      (∀ i u, (body i u).bufptr = iand (u.bufptr + 1) (2 ^ k - 1)) →
      t.age = min s.age E.MAX_DELAY → t.bufptr = orig_bufptr →
      (for_range body offset count t).age = min s.age E.MAX_DELAY ∧
      (for_range body offset count t).bufptr
          = (orig_bufptr + count) % ((2 ^ k : Nat) : Int) := by
    intro body t hage hptr ta tp
    refine ⟨?_, ?_⟩
    · exact for_range_keeps body (fun u => u.age = min s.age E.MAX_DELAY)
        (fun i u hu => (hage i u).trans hu) count offset _ ta
    · rw [← tp]
      exact cursor_advance (fun u : State α G F => u.bufptr) body k hk hptr count offset t
        (by show 0 ≤ t.bufptr; rw [tp]; exact h0) (by show t.bufptr < _; rw [tp]; exact h1)
  have k2 := fun t => key (body_medium2 E) t (fun _ _ => rfl) (fun i u => by
    show iand (u.bufptr + 1) (E.MAX_DELAY - 1) = _
    rw [hM])
  have k1 := fun t => key (body_medium1 E) t (fun _ _ => rfl) (fun i u => by
    show iand (u.bufptr + 1) (E.MAX_DELAY - 1) = _
    rw [hM])
  unfold post
  by_cases hmed : s.medium > 0
  · have hmed2 : (saturate E s).medium > 0 := by rw [hm]; exact hmed
    simp only [hmed, hmed2, if_true]
    split_ifs with h2
    · exact k2 _ ha rfl
    · exact k1 _ ha rfl
  · have hmed2 : ¬ (saturate E s).medium > 0 := by rw [hm]; exact hmed
    simp only [hmed, hmed2, if_false]
    exact ⟨ha, hp⟩

end vintage_delay_audio_module

/-- C17: for every valid routing mode and every medium, with `MAX_DELAY` a
power of two, `0 <= bufptr < MAX_DELAY` and `0 <= age <= MAX_DELAY` before the
call, a `process` call of `n` samples leaves `bufptr = (bufptr + n) mod
MAX_DELAY` and `age = min(age + n, MAX_DELAY)`; so `0 <= bufptr < MAX_DELAY`
and `0 <= age <= MAX_DELAY` hold after the call as well. -/
theorem vintage_cursor_and_age {α G F : Type} [Add α] [Mul α] [Zero α]
    (E : vintage_delay_audio_module.Env α G F) (k : Nat) (hk : k ≤ 32)
    (hM : E.MAX_DELAY = 2 ^ k) (s : vintage_delay_audio_module.State α G F)
    (offset n : Nat) (ins0 ins1 outs0 outs1 : Nat → α)
    (hmode : s.mixmode = vintage_delay_audio_module.MIXMODE_STEREO ∨
      s.mixmode = vintage_delay_audio_module.MIXMODE_PINGPONG ∨
      s.mixmode = vintage_delay_audio_module.MIXMODE_LR ∨
      s.mixmode = vintage_delay_audio_module.MIXMODE_RL)
    (hp0 : 0 ≤ s.bufptr) (hp1 : s.bufptr < E.MAX_DELAY)
    (ha0 : 0 ≤ s.age) (_ha1 : s.age ≤ E.MAX_DELAY) (hn : offset + n < U32) :
    (vintage_delay_audio_module.process E s offset n ins0 ins1 outs0 outs1).st.bufptr
      = (s.bufptr + n) % (E.MAX_DELAY : Int) ∧
    (vintage_delay_audio_module.process E s offset n ins0 ins1 outs0 outs1).st.age
      = min (s.age + n) E.MAX_DELAY ∧
    0 ≤ (vintage_delay_audio_module.process E s offset n ins0 ins1 outs0 outs1).st.bufptr ∧
    (vintage_delay_audio_module.process E s offset n ins0 ins1 outs0 outs1).st.bufptr
      < E.MAX_DELAY ∧
    0 ≤ (vintage_delay_audio_module.process E s offset n ins0 ins1 outs0 outs1).st.age ∧
    (vintage_delay_audio_module.process E s offset n ins0 ins1 outs0 outs1).st.age
      ≤ E.MAX_DELAY := by
  have hcount : (offset + n) % U32 - offset = n := by
    rw [Nat.mod_eq_of_lt hn]; omega
  have hMpos : (0 : Int) < (E.MAX_DELAY : Int) := by
    rw [hM]; exact_mod_cast Nat.two_pow_pos k
  have hp1k : s.bufptr < ((2 ^ k : Nat) : Int) := by rw [← hM]; exact hp1
  obtain ⟨hage, _⟩ := vintage_delay_audio_module.mix_loop_cold E ins0 ins1 offset n
    { st := s, outs0 := outs0, outs1 := outs1 } hmode
  have hcur := vintage_delay_audio_module.mix_loop_cursor E k hk hM ins0 ins1 offset n
    { st := s, outs0 := outs0, outs1 := outs1 } hmode hp0 hp1k
  obtain ⟨qa, qp⟩ := vintage_delay_audio_module.post_cursor E k hk hM s.bufptr offset n
    (vintage_delay_audio_module.mix_loop E ins0 ins1 offset n
      { st := s, outs0 := outs0, outs1 := outs1 }).st hp0 hp1k
  have hptr : (vintage_delay_audio_module.process E s offset n ins0 ins1 outs0 outs1).st.bufptr
      = (s.bufptr + n) % (E.MAX_DELAY : Int) := by
    show (vintage_delay_audio_module.post E s.bufptr offset ((offset + n) % U32 - offset)
      (vintage_delay_audio_module.mix_loop E ins0 ins1 offset ((offset + n) % U32 - offset)
        { st := s, outs0 := outs0, outs1 := outs1 }).st).bufptr = _
    rw [hcount, qp, hcur, hM]
    split_ifs <;> rfl
  have hag : (vintage_delay_audio_module.process E s offset n ins0 ins1 outs0 outs1).st.age
      = min (s.age + n) E.MAX_DELAY := by
    show (vintage_delay_audio_module.post E s.bufptr offset ((offset + n) % U32 - offset)
      (vintage_delay_audio_module.mix_loop E ins0 ins1 offset ((offset + n) % U32 - offset)
        { st := s, outs0 := outs0, outs1 := outs1 }).st).age = _
    rw [hcount, qa, hage]
  refine ⟨hptr, hag, ?_, ?_, ?_, ?_⟩
  · rw [hptr]; exact Int.emod_nonneg _ (ne_of_gt hMpos)
  · rw [hptr]; exact Int.emod_lt_of_pos _ hMpos
  · rw [hag]; exact le_min (by omega) (le_of_lt hMpos)
  · rw [hag]; exact min_le_right _ _

/-- C17, a run: LR mode with medium 2, 8 cells, cursor 6 and age 5; a call of 5
samples leaves cursor `(6 + 5) mod 8 = 3` and age `min(10, 8) = 8`. -/
theorem vintage_cursor_and_age_witness :
    (vintage_delay_audio_module.process (vintage_delay_audio_module.settled 8 1)
      { (vintage_delay_audio_module.constructed vintage_delay_audio_module.MIXMODE_LR
          2 3 2 1 1 1 1 0 0 () : vintage_delay_audio_module.State Int Int Unit) with
        bufptr := 6, age := 5 }
      2 5 vintage_delay_audio_module.ramp vintage_delay_audio_module.ramp
      vintage_delay_audio_module.silence vintage_delay_audio_module.silence).st.bufptr = 3 ∧
    (vintage_delay_audio_module.process (vintage_delay_audio_module.settled 8 1)
      { (vintage_delay_audio_module.constructed vintage_delay_audio_module.MIXMODE_LR
          2 3 2 1 1 1 1 0 0 () : vintage_delay_audio_module.State Int Int Unit) with
        bufptr := 6, age := 5 }
      2 5 vintage_delay_audio_module.ramp vintage_delay_audio_module.ramp
      vintage_delay_audio_module.silence vintage_delay_audio_module.silence).st.age = 8 :=
  have h := vintage_cursor_and_age (vintage_delay_audio_module.settled 8 1) 3 (by decide) rfl
    { (vintage_delay_audio_module.constructed vintage_delay_audio_module.MIXMODE_LR
        2 3 2 1 1 1 1 0 0 () : vintage_delay_audio_module.State Int Int Unit) with
      bufptr := 6, age := 5 }
    2 5 vintage_delay_audio_module.ramp vintage_delay_audio_module.ramp
    vintage_delay_audio_module.silence vintage_delay_audio_module.silence
    (by decide) (by decide) (by decide) (by decide) (by decide) (by decide)
  ⟨h.1.trans (by decide), h.2.1.trans (by decide)⟩

/-! ## Haas enhancer: the meters -/

/-- Folding `max` over a list from `m`: the result is at least `m` and at
least every element, and it is `m` when no element exceeds `m`. -/
theorem foldl_max_spec {α : Type} [LinearOrder α] :
    ∀ (vs : List α) (m : α), m ≤ vs.foldl max m ∧ (∀ v, v ∈ vs → v ≤ vs.foldl max m) ∧
      ((∀ v, v ∈ vs → v ≤ m) → vs.foldl max m = m) := by
  intro vs
  induction vs with
  | nil =>
    intro m
    exact ⟨le_refl _, fun v hv => absurd hv (List.not_mem_nil v), fun _ => rfl⟩
  | cons a vs ih =>
    intro m
    obtain ⟨h1, h2, h3⟩ := ih (max m a)
    refine ⟨le_trans (le_max_left m a) h1, ?_, ?_⟩
    · intro v hv
      rcases List.mem_cons.mp hv with h | h
      · subst h
        exact le_trans (le_max_right m v) h1
      · exact h2 v h
    · intro hall
      have ha : a ≤ m := hall a (List.mem_cons_self a vs)
      show vs.foldl max (max m a) = m
      rw [max_eq_left ha]
      have := (ih m).2.2 (fun v hv => hall v (List.mem_cons_of_mem a hv))
      exact this

/-- The meters of the Haas loop: each one is the fold of `max` over the
values metered so far. -/
theorem haas_loop_meters {α : Type} [Add α] [Sub α] [Mul α] [Zero α] [LinearOrder α] (half : α)
    (s : haas_enhancer_audio_module.State α) (p : haas_enhancer_audio_module.Params α)
    (b_mask : Nat) (ins0 ins1 : Nat → α) :
    ∀ count i (l : haas_enhancer_audio_module.Loop α),
      (for_range (haas_enhancer_audio_module.body half s p b_mask ins0 ins1) i count l).mtr_mid
        = (((for_states (haas_enhancer_audio_module.body half s p b_mask ins0 ins1) i count l).map
            (fun x => haas_enhancer_audio_module.metered half s p ins0 ins1 x.1 x.2)).map
            (fun v => v.1)).foldl max l.mtr_mid ∧
      (for_range (haas_enhancer_audio_module.body half s p b_mask ins0 ins1) i count l).mtr_side_l
        = (((for_states (haas_enhancer_audio_module.body half s p b_mask ins0 ins1) i count l).map
            (fun x => haas_enhancer_audio_module.metered half s p ins0 ins1 x.1 x.2)).map
            (fun v => v.2.1)).foldl max l.mtr_side_l ∧
      (for_range (haas_enhancer_audio_module.body half s p b_mask ins0 ins1) i count l).mtr_side_r
        = (((for_states (haas_enhancer_audio_module.body half s p b_mask ins0 ins1) i count l).map
            (fun x => haas_enhancer_audio_module.metered half s p ins0 ins1 x.1 x.2)).map
            (fun v => v.2.2)).foldl max l.mtr_side_r := by
  have hmax : ∀ a b : α, (if a < b then b else a) = max a b := by
    intro a b
    by_cases h : a < b
    · rw [if_pos h, max_eq_right (le_of_lt h)]
    · rw [if_neg h, max_eq_left (not_lt.mp h)]
  intro count
  induction count with
  | zero => intro i l; exact ⟨rfl, rfl, rfl⟩
  | succ c ih =>
    intro i l
    obtain ⟨h1, h2, h3⟩ := ih (i + 1) (haas_enhancer_audio_module.body half s p b_mask ins0 ins1 i l)
    simp only [for_range, for_states, List.map_cons, List.foldl_cons]
    rw [h1, h2, h3]
    refine ⟨?_, ?_, ?_⟩
    · congr 1
      exact hmax _ _
    · congr 1
      exact hmax _ _
    · congr 1
      exact hmax _ _

/-- C19: after a non-bypassed `process` call of the Haas enhancer each meter
slot holds the maximum of 0 and the signed values of its signal (gained mid,
`side_l`, `side_r`) over the samples of the block: it is the fold of `max`
from 0 over the block's values, so it is never negative, it is at least every
value of the block, it is 0 when no value of the block is positive, and it is
0 for an empty block. -/
theorem haas_meter_value {α : Type} [Add α] [Sub α] [Mul α] [Zero α] [LinearOrder α] (half : α)
    (s : haas_enhancer_audio_module.State α) (p : haas_enhancer_audio_module.Params α)
    (offset numsamples : Nat) (ins0 ins1 outs0 outs1 : Nat → α) (hb : p.bypass = false) :
    (haas_enhancer_audio_module.process half s p offset numsamples ins0 ins1 outs0
        outs1).params.mtr_m
      = ((haas_enhancer_audio_module.block_values half s p offset numsamples ins0 ins1 outs0
          outs1).map (fun v => v.1)).foldl max 0 ∧
    (haas_enhancer_audio_module.process half s p offset numsamples ins0 ins1 outs0
        outs1).params.mtr_s_l
      = ((haas_enhancer_audio_module.block_values half s p offset numsamples ins0 ins1 outs0
          outs1).map (fun v => v.2.1)).foldl max 0 ∧
    (haas_enhancer_audio_module.process half s p offset numsamples ins0 ins1 outs0
        outs1).params.mtr_s_r
      = ((haas_enhancer_audio_module.block_values half s p offset numsamples ins0 ins1 outs0
          outs1).map (fun v => v.2.2)).foldl max 0 ∧
    (0 ≤ (haas_enhancer_audio_module.process half s p offset numsamples ins0 ins1 outs0
        outs1).params.mtr_m ∧
     0 ≤ (haas_enhancer_audio_module.process half s p offset numsamples ins0 ins1 outs0
        outs1).params.mtr_s_l ∧
     0 ≤ (haas_enhancer_audio_module.process half s p offset numsamples ins0 ins1 outs0
        outs1).params.mtr_s_r) ∧
    (∀ v, v ∈ haas_enhancer_audio_module.block_values half s p offset numsamples ins0 ins1 outs0
        outs1 →
      v.1 ≤ (haas_enhancer_audio_module.process half s p offset numsamples ins0 ins1 outs0
        outs1).params.mtr_m ∧
      v.2.1 ≤ (haas_enhancer_audio_module.process half s p offset numsamples ins0 ins1 outs0
        outs1).params.mtr_s_l ∧
      v.2.2 ≤ (haas_enhancer_audio_module.process half s p offset numsamples ins0 ins1 outs0
        outs1).params.mtr_s_r) ∧
    ((∀ v, v ∈ haas_enhancer_audio_module.block_values half s p offset numsamples ins0 ins1 outs0
        outs1 → v.1 ≤ 0) →
      (haas_enhancer_audio_module.process half s p offset numsamples ins0 ins1 outs0
        outs1).params.mtr_m = 0) ∧
    ((∀ v, v ∈ haas_enhancer_audio_module.block_values half s p offset numsamples ins0 ins1 outs0
        outs1 → v.2.1 ≤ 0) →
      (haas_enhancer_audio_module.process half s p offset numsamples ins0 ins1 outs0
        outs1).params.mtr_s_l = 0) ∧
    ((∀ v, v ∈ haas_enhancer_audio_module.block_values half s p offset numsamples ins0 ins1 outs0
        outs1 → v.2.2 ≤ 0) →
      (haas_enhancer_audio_module.process half s p offset numsamples ins0 ins1 outs0
        outs1).params.mtr_s_r = 0) ∧
    (numsamples = 0 →
      (haas_enhancer_audio_module.process half s p offset numsamples ins0 ins1 outs0
        outs1).params.mtr_m = 0 ∧
      (haas_enhancer_audio_module.process half s p offset numsamples ins0 ins1 outs0
        outs1).params.mtr_s_l = 0 ∧
      (haas_enhancer_audio_module.process half s p offset numsamples ins0 ins1 outs0
        outs1).params.mtr_s_r = 0) := by
  obtain ⟨h1, h2, h3⟩ := haas_loop_meters half s p ((s.buf_size + U32 - 1) % U32) ins0 ins1
    ((offset + numsamples) % U32 - offset) offset
    { buffer := s.buffer, w_ptr := s.write_ptr
      s0_ptr := (((s.write_ptr + s.buf_size) % U32 + U32 - s.s_delay0) % U32)
        &&& ((s.buf_size + U32 - 1) % U32)
      s1_ptr := (((s.write_ptr + s.buf_size) % U32 + U32 - s.s_delay1) % U32)
        &&& ((s.buf_size + U32 - 1) % U32)
      outs0 := outs0, outs1 := outs1, mtr_mid := 0, mtr_side_l := 0, mtr_side_r := 0 }
  have e1 : (haas_enhancer_audio_module.process half s p offset numsamples ins0 ins1 outs0
        outs1).params.mtr_m
      = ((haas_enhancer_audio_module.block_values half s p offset numsamples ins0 ins1 outs0
          outs1).map (fun v => v.1)).foldl max 0 := by
    simp only [haas_enhancer_audio_module.process, hb, Bool.false_eq_true, if_false]
    exact h1
  have e2 : (haas_enhancer_audio_module.process half s p offset numsamples ins0 ins1 outs0
        outs1).params.mtr_s_l
      = ((haas_enhancer_audio_module.block_values half s p offset numsamples ins0 ins1 outs0
          outs1).map (fun v => v.2.1)).foldl max 0 := by
    simp only [haas_enhancer_audio_module.process, hb, Bool.false_eq_true, if_false]
    exact h2
  have e3 : (haas_enhancer_audio_module.process half s p offset numsamples ins0 ins1 outs0
        outs1).params.mtr_s_r
      = ((haas_enhancer_audio_module.block_values half s p offset numsamples ins0 ins1 outs0
          outs1).map (fun v => v.2.2)).foldl max 0 := by
    simp only [haas_enhancer_audio_module.process, hb, Bool.false_eq_true, if_false]
    exact h3
  have hempty : numsamples = 0 →
      haas_enhancer_audio_module.block_values half s p offset numsamples ins0 ins1 outs0 outs1
        = [] := by
    intro hn
    subst hn
    have : (offset + 0) % U32 - offset = 0 := by
      have := Nat.mod_le (offset + 0) U32
      omega
    simp only [haas_enhancer_audio_module.block_values, this, for_states, List.map_nil]
  refine ⟨e1, e2, e3, ?_, ?_, ?_, ?_, ?_, ?_⟩
  · rw [e1, e2, e3]
    exact ⟨(foldl_max_spec _ 0).1, (foldl_max_spec _ 0).1, (foldl_max_spec _ 0).1⟩
  · intro v hv
    rw [e1, e2, e3]
    exact ⟨(foldl_max_spec _ 0).2.1 _ (List.mem_map_of_mem (fun v => v.1) hv),
      (foldl_max_spec _ 0).2.1 _ (List.mem_map_of_mem (fun v => v.2.1) hv),
      (foldl_max_spec _ 0).2.1 _ (List.mem_map_of_mem (fun v => v.2.2) hv)⟩
  · intro hall
    rw [e1]
    apply (foldl_max_spec _ 0).2.2
    intro v hv
    obtain ⟨w, hw, rfl⟩ := List.mem_map.mp hv
    exact hall w hw
  · intro hall
    rw [e2]
    apply (foldl_max_spec _ 0).2.2
    intro v hv
    obtain ⟨w, hw, rfl⟩ := List.mem_map.mp hv
    exact hall w hw
  · intro hall
    rw [e3]
    apply (foldl_max_spec _ 0).2.2
    intro v hv
    obtain ⟨w, hw, rfl⟩ := List.mem_map.mp hv
    exact hall w hw
  · intro hn
    rw [e1, e2, e3, hempty hn]
    exact ⟨rfl, rfl, rfl⟩

/-- C19, a run: a block of the three left samples 2, -5, 3 (mid source left,
unit gains, side taps at delay 0): the mid meter ends at 3, the largest
signed value, although the peak magnitude is 5. -/
theorem haas_meter_value_witness :
    (haas_enhancer_audio_module.process (1 : Int)
        { buffer := fun _ => 0, buf_size := 4, write_ptr := 0, m_source := 0, s_delay0 := 0,
          s_delay1 := 0, s_bal_l0 := 1, s_bal_l1 := 0, s_bal_r0 := 0, s_bal_r1 := 1 }
        { bypass := false, m_gain := 1, s_gain := 1, mtr_m := 9, mtr_s_l := 9, mtr_s_r := 9 }
        0 3 (fun i => if i = 0 then 2 else if i = 1 then -5 else 3) (fun _ => 0)
        (fun _ => 0) (fun _ => 0)).params.mtr_m = 3 ∧
    (haas_enhancer_audio_module.block_values (1 : Int)
        { buffer := fun _ => 0, buf_size := 4, write_ptr := 0, m_source := 0, s_delay0 := 0,
          s_delay1 := 0, s_bal_l0 := 1, s_bal_l1 := 0, s_bal_r0 := 0, s_bal_r1 := 1 }
        { bypass := false, m_gain := 1, s_gain := 1, mtr_m := 9, mtr_s_l := 9, mtr_s_r := 9 }
        0 3 (fun i => if i = 0 then 2 else if i = 1 then -5 else 3) (fun _ => 0)
        (fun _ => 0) (fun _ => 0)).map (fun v => v.1) = [2, -5, 3] :=
  ⟨(@haas_meter_value Int _ _ _ _ _ (1 : Int)
      { buffer := fun _ => 0, buf_size := 4, write_ptr := 0, m_source := 0, s_delay0 := 0,
        s_delay1 := 0, s_bal_l0 := 1, s_bal_l1 := 0, s_bal_r0 := 0, s_bal_r1 := 1 }
      { bypass := false, m_gain := 1, s_gain := 1, mtr_m := 9, mtr_s_l := 9, mtr_s_r := 9 }
      0 3 (fun i => if i = 0 then 2 else if i = 1 then -5 else 3) (fun _ => 0)
      (fun _ => 0) (fun _ => 0) rfl).1.trans (by decide), by decide⟩

/-! ## Vintage delay: echoes of the simple tap -/

theorem emod_behind (w d M : Nat) (hw : w < M) (hd : d ≤ M) :
    (((w : Int) - (d : Int)) % (M : Int)).toNat = behind M w d := by
  unfold behind
  split_ifs with h
  · rw [Int.emod_eq_of_lt (by omega) (by omega)]; omega
  · rw [← Int.add_emod_self, Int.emod_eq_of_lt (by omega) (by omega)]; omega

/-- Writing the next sample and advancing keeps the ring in step with the
stream of written samples. -/
theorem Recent.store {α : Type} {S : Nat} {inp buffer : Nat → α} {w n : Nat}
    (h : Recent S inp buffer w n) (v : α) (hv : v = inp n) :
    Recent S inp (upd buffer w v) (if w + 1 = S then 0 else w + 1) (n + 1) := by
  intro d hd1 hdS hdn
  by_cases h1 : d = 1
  · subst h1
    have : behind S (if w + 1 = S then 0 else w + 1) 1 = w := by
      unfold behind; split_ifs <;> omega
    simp [this, upd, hv]
  · have hpos : behind S (if w + 1 = S then 0 else w + 1) d = behind S w (d - 1) := by
      unfold behind; split_ifs <;> omega
    have hne : behind S w (d - 1) ≠ w := by
      unfold behind; split_ifs <;> omega
    rw [hpos]
    simp only [upd, if_neg hne]
    rw [h (d - 1) (by omega) (by omega) (by omega)]
    congr 1
    omega

namespace vintage_delay_audio_module

/-- The tap index `(bufptr - deltime) & ADDR_MASK` is the cell `deltime`
places behind the cursor. -/
theorem iand_behind {α G F : Type} (E : Env α G F) (k : Nat) (hk : k ≤ 32)
    (hM : E.MAX_DELAY = 2 ^ k) (w d : Nat) (hw : w < 2 ^ k) (hd : d ≤ 2 ^ k) :
    (iand ((w : Int) - (d : Int)) (ADDR_MASK E)).toNat = behind (2 ^ k) w d := by
  unfold ADDR_MASK
  rw [hM, iand_mask _ k hk]
  exact emod_behind w d (2 ^ k) hw hd

/-- The cursor after a sample, as a cell number. -/
theorem iand_next {α G F : Type} (E : Env α G F) (k : Nat) (hk : k ≤ 32)
    (hM : E.MAX_DELAY = 2 ^ k) (w : Nat) (hw : w < 2 ^ k) :
    iand ((w : Int) + 1) (E.MAX_DELAY - 1) = ((if w + 1 = 2 ^ k then 0 else w + 1 : Nat) : Int) := by
  rw [hM, iand_succ (w : Int) k hk (Int.natCast_nonneg w) (by exact_mod_cast hw)]
  by_cases h : w + 1 = 2 ^ k
  · rw [if_pos h, if_pos (by exact_mod_cast h)]; rfl
  · rw [if_neg h, if_neg (by exact_mod_cast h)]; push_cast; rfl

/-- The age counter after one more sample. -/
theorem Aged.next {M : Nat} {age : Int} {n : Nat} (h : Aged M age n) : Aged M (age + 1) (n + 1) := by
  rcases h with h | ⟨h1, h2⟩
  · left; rw [h]; push_cast; rfl
  · right; exact ⟨by omega, by omega⟩

/-- The cold-start test `age <= deltime` is the test `n <= deltime` on the
sample count, for a delay time below `MAX_DELAY`. -/
theorem Aged.cold_iff {M : Nat} {age : Int} {n : Nat} (h : Aged M age n) (d : Nat) (hd : d < M) :
    age ≤ (d : Int) ↔ n ≤ d := by
  rcases h with h | ⟨h1, h2⟩
  · rw [h]; exact Int.ofNat_le
  · constructor
    · intro h3; omega
    · intro h3; omega

/-- The statement `if (age >= MAX_DELAY) age = MAX_DELAY;` keeps the relation
between `age` and the sample count. -/
theorem Aged.clamp {M : Nat} {age : Int} {n : Nat} (h : Aged M age n) :
    Aged M (if age ≥ (M : Int) then (M : Int) else age) n := by
  split_ifs with hge
  · rcases h with h | ⟨h1, h2⟩
    · right; exact ⟨le_refl _, by omega⟩
    · right; exact ⟨le_refl _, h2⟩
  · exact h

/-- A simple tap with settled gains on a ring that holds the stream `a`:
silence and `x` to write while `n <= d`, then the sample `a[n - d]` times the
amount, and `x` plus that sample times the feedback to write. -/
theorem settled_line {α G F : Type} [Add α] [Mul α] [Zero α] (E : Env α G F) (k : Nat)
    (hk : k ≤ 32) (hM : E.MAX_DELAY = 2 ^ k) (a B : Nat → α) (w n d : Nat) (age : Int) (x : α)
    (ga gf : G) (amount fbv : α) (hw : w < 2 ^ k) (hd0 : 0 < d) (hd : d < 2 ^ k)
    (hrec : Recent (2 ^ k) a B w n) (hage : Aged (2 ^ k) age n)
    (hga : Settled E ga amount) (hgf : Settled E gf fbv) :
    delayline_impl E age d x (B (iand ((w : Int) - (d : Int)) (ADDR_MASK E)).toNat) ga gf
      = if n ≤ d then { out := 0, del := x, amt := ga, fb := gf }
        else { out := E.sanitize (a (n - d)) * amount
               del := x + E.sanitize (a (n - d)) * fbv, amt := ga, fb := gf } := by
  unfold delayline_impl
  by_cases hc : n ≤ d
  · rw [if_pos ((hage.cold_iff d hd).mpr hc), if_pos hc, hga.2, hgf.2]
  · rw [if_neg (fun h => hc ((hage.cold_iff d hd).mp h)), if_neg hc, hga.1, hgf.1,
      iand_behind E k hk hM w d hw (le_of_lt hd), hrec d hd0 (le_of_lt hd) (by omega)]

/-- The fields of the state after `finish`. -/
theorem finish_fields {α G F : Type} [Add α] [Mul α] (E : Env α G F)
    (ins0 ins1 : Nat → α) (i : Nat) (r : Run α G F) (left right : Line α G) :
    (finish E ins0 ins1 i r left right).st.medium = r.st.medium ∧
    (finish E ins0 ins1 i r left right).st.amt_left = left.amt ∧
    (finish E ins0 ins1 i r left right).st.fb_left = left.fb ∧
    (finish E ins0 ins1 i r left right).st.amt_right = right.amt ∧
    (finish E ins0 ins1 i r left right).st.fb_right = right.fb ∧
    (finish E ins0 ins1 i r left right).st.bufptr = iand (r.st.bufptr + 1) (E.MAX_DELAY - 1) ∧
    (finish E ins0 ins1 i r left right).st.buffers0
      = upd r.st.buffers0 r.st.bufptr.toNat left.del ∧
    (finish E ins0 ins1 i r left right).st.buffers1
      = upd r.st.buffers1 r.st.bufptr.toNat right.del :=
  ⟨rfl, rfl, rfl, rfl, rfl, rfl, rfl, rfl⟩

end vintage_delay_audio_module

namespace vintage_delay_audio_module

/-- One STEREO sample under `StereoLeft`: the invariant moves on to the next
sample, the other output samples are untouched, and the left output is 0
while `n <= dl` and `amount * inL[n - dl]` afterwards. -/
theorem stereo_left_step {α G F : Type} [CommSemiring α] (E : Env α G F) (k : Nat) (hk : k ≤ 32)
    (hM : E.MAX_DELAY = 2 ^ k) (dl : Nat) (ga gf gd gc : G) (amount : α) (inL : Nat → α)
    (h0 : 0 < dl) (h1 : dl < 2 ^ k)
    (hga : Settled E ga amount) (hgf : Settled E gf 0)
    (hgd : E.get gd = (0, gd)) (hgc : E.get gc = (0, gc))
    (hsan : ∀ m, E.sanitize (inL m) = inL m) (hlerp : ∀ a b, E.lerp a b 0 = a)
    (ins0 ins1 : Nat → α) (i n : Nat) (r : Run α G F)
    (hinv : StereoLeft (2 ^ k) dl ga gf gd gc inL r.st n) (hin : ins0 i = inL n) :
    StereoLeft (2 ^ k) dl ga gf gd gc inL (body_stereo E 0 ins0 ins1 i r).st (n + 1) ∧
    (∀ m, m ≠ i → (body_stereo E 0 ins0 ins1 i r).outs0 m = r.outs0 m ∧
      (body_stereo E 0 ins0 ins1 i r).outs1 m = r.outs1 m) ∧
    (body_stereo E 0 ins0 ins1 i r).outs0 i = if n ≤ dl then 0 else amount * inL (n - dl) := by
  have hw : r.st.bufptr = ((r.st.bufptr.toNat : Nat) : Int) :=
    (Int.toNat_of_nonneg hinv.ptr_nonneg).symm
  have hwlt : r.st.bufptr.toNat < 2 ^ k := by
    have := hinv.ptr_lt
    omega
  have hleft : delayline_impl E r.st.age r.st.deltime_l (ins0 i)
      (bufsel r.st 0 (iand (r.st.bufptr - r.st.deltime_l) (ADDR_MASK E)).toNat)
      r.st.amt_left r.st.fb_left
      = if n ≤ dl then { out := 0, del := inL n, amt := ga, fb := gf }
        else { out := E.sanitize (inL (n - dl)) * amount
               del := inL n + E.sanitize (inL (n - dl)) * 0, amt := ga, fb := gf } := by
    rw [hinv.deltime, hinv.amt, hinv.fb, bufsel_zero, hin, hw]
    exact settled_line E k hk hM inL r.st.buffers0 r.st.bufptr.toNat n dl r.st.age (inL n)
      ga gf amount 0 hwlt h0 h1 hinv.recent hinv.age hga hgf
  have hdel : (if n ≤ dl then ({ out := 0, del := inL n, amt := ga, fb := gf } : Line α G)
        else { out := E.sanitize (inL (n - dl)) * amount
               del := inL n + E.sanitize (inL (n - dl)) * 0, amt := ga, fb := gf }).del
      = inL n := by
    split_ifs
    · rfl
    · show inL n + E.sanitize (inL (n - dl)) * 0 = inL n
      rw [mul_zero, add_zero]
  have key : ∀ (L R : Line α G),
      L = (if n ≤ dl then { out := 0, del := inL n, amt := ga, fb := gf }
        else { out := E.sanitize (inL (n - dl)) * amount
               del := inL n + E.sanitize (inL (n - dl)) * 0, amt := ga, fb := gf }) →
      StereoLeft (2 ^ k) dl ga gf gd gc inL (finish E ins0 ins1 i r L R).st (n + 1) ∧
      (∀ m, m ≠ i → (finish E ins0 ins1 i r L R).outs0 m = r.outs0 m ∧
        (finish E ins0 ins1 i r L R).outs1 m = r.outs1 m) ∧
      (finish E ins0 ins1 i r L R).outs0 i = if n ≤ dl then 0 else amount * inL (n - dl) := by
    intro L R hL
    obtain ⟨fa, fd, fc, fl, _, fm, fframe, fo0, _⟩ := finish_cold E ins0 ins1 i r L R
    obtain ⟨gm, gal, gfl, _, _, gp, gb0, _⟩ := finish_fields E ins0 ins1 i r L R
    have hptr : (finish E ins0 ins1 i r L R).st.bufptr
        = ((if r.st.bufptr.toNat + 1 = 2 ^ k then 0 else r.st.bufptr.toNat + 1 : Nat) : Int) := by
      rw [gp, hw, iand_next E k hk hM _ hwlt, Int.toNat_ofNat]
    refine ⟨?_, fframe, ?_⟩
    · refine ⟨fm.trans hinv.mode, gm.trans hinv.medium, fl.trans hinv.deltime, ?_, ?_, ?_, ?_,
        ?_, ?_, ?_, ?_⟩
      · rw [gal, hL]; split_ifs <;> rfl
      · rw [gfl, hL]; split_ifs <;> rfl
      · rw [fd, hinv.dry, hgd]
      · rw [fc, hinv.chmix, hgc]
      · rw [hptr]; exact Int.natCast_nonneg _
      · rw [hptr]
        have : (if r.st.bufptr.toNat + 1 = 2 ^ k then 0 else r.st.bufptr.toNat + 1) < 2 ^ k := by
          split_ifs <;> omega
        exact_mod_cast this
      · rw [fa]; exact hinv.age.next
      · rw [gb0, hptr, Int.toNat_ofNat, hL, hdel]
        exact hinv.recent.store (inL n) rfl
    · rw [fo0, hinv.dry, hinv.chmix, hgd, hgc, hlerp, mul_zero, zero_add, hL]
      split_ifs
      · rfl
      · show E.sanitize (inL (n - dl)) * amount = amount * inL (n - dl)
        rw [hsan, mul_comm]
  exact key _ _ hleft

end vintage_delay_audio_module

namespace vintage_delay_audio_module

/-- A loop that keeps an invariant `I` indexed by the sample count and whose
every sample satisfies `P`: the invariant holds after the loop and every
output sample of the block satisfies `P`. -/
theorem tracked_loop {α G F : Type} (body : Nat → Run α G F → Run α G F)
    (I : State α G F → Nat → Prop) (P : Nat → α → α → Prop) (ins0 ins1 inL inR : Nat → α)
    (hstep : ∀ i n r, I r.st n → ins0 i = inL n → ins1 i = inR n →
      I (body i r).st (n + 1) ∧
      (∀ m, m ≠ i → (body i r).outs0 m = r.outs0 m ∧ (body i r).outs1 m = r.outs1 m) ∧
      P n ((body i r).outs0 i) ((body i r).outs1 i)) :
    ∀ (count i n : Nat) (r : Run α G F), I r.st n →
      (∀ j, j < count → ins0 (i + j) = inL (n + j) ∧ ins1 (i + j) = inR (n + j)) →
      I (for_range body i count r).st (n + count) ∧
      (∀ m, m < i → (for_range body i count r).outs0 m = r.outs0 m ∧
        (for_range body i count r).outs1 m = r.outs1 m) ∧
      (∀ j, j < count → P (n + j) ((for_range body i count r).outs0 (i + j))
        ((for_range body i count r).outs1 (i + j))) := by
  intro count
  induction count with
  | zero =>
    intro i n r hI _
    exact ⟨hI, fun _ _ => ⟨rfl, rfl⟩, fun j hj => absurd hj (Nat.not_lt_zero j)⟩
  | succ c ih =>
    intro i n r hI hin
    obtain ⟨sI, sframe, sP⟩ := hstep i n r hI (hin 0 (Nat.succ_pos c)).1 (hin 0 (Nat.succ_pos c)).2
    obtain ⟨rI, rframe, rP⟩ := ih (i + 1) (n + 1) (body i r) sI (fun j hj => by
      have := hin (j + 1) (by omega)
      rw [show i + 1 + j = i + (j + 1) by omega, show n + 1 + j = n + (j + 1) by omega]
      exact this)
    show I (for_range body (i + 1) c (body i r)).st (n + (c + 1)) ∧
      (∀ m, m < i → (for_range body (i + 1) c (body i r)).outs0 m = r.outs0 m ∧
        (for_range body (i + 1) c (body i r)).outs1 m = r.outs1 m) ∧
      (∀ j, j < c + 1 → P (n + j) ((for_range body (i + 1) c (body i r)).outs0 (i + j))
        ((for_range body (i + 1) c (body i r)).outs1 (i + j)))
    refine ⟨?_, ?_, ?_⟩
    · rw [show n + (c + 1) = n + 1 + c by omega]; exact rI
    · intro m hm
      rw [(rframe m (by omega)).1, (rframe m (by omega)).2]
      exact sframe m (by omega)
    · intro j hj
      cases j with
      | zero =>
        show P n ((for_range body (i + 1) c (body i r)).outs0 i)
          ((for_range body (i + 1) c (body i r)).outs1 i)
        rw [(rframe i (Nat.lt_succ_self i)).1, (rframe i (Nat.lt_succ_self i)).2]
        exact sP
      | succ j =>
        have := rP j (by omega)
        rw [show i + (j + 1) = i + 1 + j by omega, show n + (j + 1) = n + 1 + j by omega]
        exact this

/-- A `process` call of a STEREO or PINGPONG module with medium 0 that keeps
an invariant `I`: the invariant holds after the call and every output sample
of the block satisfies `P`. -/
theorem tracked_process {α G F : Type} [Add α] [Mul α] [Zero α] (E : Env α G F) (v : Int)
    (I : State α G F → Nat → Prop) (P : Nat → α → α → Prop) (inL inR outs0 outs1 : Nat → α)
    (hbase : ∀ s n, I s n → (s.mixmode = MIXMODE_STEREO ∨ s.mixmode = MIXMODE_PINGPONG) ∧
      (if s.mixmode = MIXMODE_PINGPONG then (1 : Int) else 0) = v ∧ s.medium = 0)
    (hsat : ∀ s n, I s n → I (saturate E s) n)
    (hstep : ∀ (ins0 ins1 : Nat → α) i n r, I r.st n → ins0 i = inL n → ins1 i = inR n →
      I (body_stereo E v ins0 ins1 i r).st (n + 1) ∧
      (∀ m, m ≠ i → (body_stereo E v ins0 ins1 i r).outs0 m = r.outs0 m ∧
        (body_stereo E v ins0 ins1 i r).outs1 m = r.outs1 m) ∧
      P n ((body_stereo E v ins0 ins1 i r).outs0 i) ((body_stereo E v ins0 ins1 i r).outs1 i))
    (s : State α G F) (done offset numsamples : Nat) (hI : I s done)
    (hlen : offset + numsamples < U32) :
    I (process E s offset numsamples (fun i => inL (done + (i - offset)))
        (fun i => inR (done + (i - offset))) outs0 outs1).st (done + numsamples) ∧
    (∀ j, j < numsamples →
      P (done + j)
        ((process E s offset numsamples (fun i => inL (done + (i - offset)))
          (fun i => inR (done + (i - offset))) outs0 outs1).outs0 (offset + j))
        ((process E s offset numsamples (fun i => inL (done + (i - offset)))
          (fun i => inR (done + (i - offset))) outs0 outs1).outs1 (offset + j))) := by
  have hcount : (offset + numsamples) % U32 - offset = numsamples := by
    rw [Nat.mod_eq_of_lt hlen]; omega
  obtain ⟨hm, hv, _⟩ := hbase s done hI
  have hloop : mix_loop E (fun i => inL (done + (i - offset))) (fun i => inR (done + (i - offset)))
      offset numsamples { st := s, outs0 := outs0, outs1 := outs1 }
      = for_range (body_stereo E v (fun i => inL (done + (i - offset)))
          (fun i => inR (done + (i - offset)))) offset numsamples
          { st := s, outs0 := outs0, outs1 := outs1 } := by
    unfold mix_loop
    simp only [hm, if_true, hv]
  obtain ⟨lI, _, lP⟩ := tracked_loop (body_stereo E v (fun i => inL (done + (i - offset)))
      (fun i => inR (done + (i - offset)))) I P (fun i => inL (done + (i - offset)))
      (fun i => inR (done + (i - offset))) inL inR
      (fun i n r => hstep (fun i => inL (done + (i - offset)))
        (fun i => inR (done + (i - offset))) i n r) numsamples offset done
      { st := s, outs0 := outs0, outs1 := outs1 } hI
      (fun j _ => by
        simp only [Nat.add_sub_cancel_left, and_self])
  simp only [process, hcount, hloop]
  refine ⟨?_, lP⟩
  rw [post_medium0 E _ _ _ _ (hbase _ _ lI).2.2]
  exact hsat _ _ lI

/-- A stream through consecutive calls of a module that keeps an invariant
`I`: every sample of the stream satisfies `P`, whatever the split into calls. -/
theorem tracked_stream {α G F : Type} [Add α] [Mul α] [Zero α] (E : Env α G F) (v : Int)
    (I : State α G F → Nat → Prop) (P : Nat → α → α → Prop) (inL inR outs0 outs1 : Nat → α)
    (hbase : ∀ s n, I s n → (s.mixmode = MIXMODE_STEREO ∨ s.mixmode = MIXMODE_PINGPONG) ∧
      (if s.mixmode = MIXMODE_PINGPONG then (1 : Int) else 0) = v ∧ s.medium = 0)
    (hsat : ∀ s n, I s n → I (saturate E s) n)
    (hstep : ∀ (ins0 ins1 : Nat → α) i n r, I r.st n → ins0 i = inL n → ins1 i = inR n →
      I (body_stereo E v ins0 ins1 i r).st (n + 1) ∧
      (∀ m, m ≠ i → (body_stereo E v ins0 ins1 i r).outs0 m = r.outs0 m ∧
        (body_stereo E v ins0 ins1 i r).outs1 m = r.outs1 m) ∧
      P n ((body_stereo E v ins0 ins1 i r).outs0 i) ((body_stereo E v ins0 ins1 i r).outs1 i)) :
    ∀ (calls : List (Nat × Nat)) (s : State α G F) (done : Nat), I s done →
      (∀ c ∈ calls, c.1 + c.2 < U32) →
      ∀ n, n < (calls.map Prod.snd).sum →
        ∃ o, (stream E inL inR outs0 outs1 s done calls)[n]? = some o ∧ P (done + n) o.1 o.2 := by
  intro calls
  induction calls with
  | nil => intro s done _ _ n hn; simp at hn
  | cons c rest ih =>
    intro s done hI hcalls n hn
    obtain ⟨offset, numsamples⟩ := c
    obtain ⟨pI, pP⟩ := tracked_process E v I P inL inR outs0 outs1 hbase hsat hstep s done offset
      numsamples hI (hcalls _ (List.mem_cons_self _ _))
    simp only [stream]
    by_cases hlt : n < numsamples
    · rw [List.getElem?_append_left (by simpa using hlt)]
      rw [List.getElem?_map, List.getElem?_range hlt]
      exact ⟨_, rfl, pP n hlt⟩
    · rw [List.getElem?_append_right (by simpa using hlt)]
      simp only [List.length_map, List.length_range]
      obtain ⟨o, ho, hP⟩ := ih _ (done + numsamples) pI
        (fun c hc' => hcalls c (List.mem_cons_of_mem _ hc')) (n - numsamples)
        (by simp only [List.map_cons, List.sum_cons] at hn; omega)
      rw [show done + numsamples + (n - numsamples) = done + n by omega] at hP
      exact ⟨o, ho, hP⟩

end vintage_delay_audio_module

namespace vintage_delay_audio_module

/-- The left output of a STEREO stream with zero feedback, zero dry gain and
zero channel mix, whatever the split into calls. -/
theorem stream_stereo_left {α G F : Type} [CommSemiring α] (E : Env α G F) (k : Nat)
    (hk : k ≤ 32) (hM : E.MAX_DELAY = 2 ^ k) (s : State α G F) (dl : Nat) (amount : α)
    (inL inR outs0 outs1 : Nat → α) (calls : List (Nat × Nat)) (n : Nat)
    (hmode : s.mixmode = MIXMODE_STEREO) (hmed : s.medium = 0) (hdl : s.deltime_l = dl)
    (h0 : 0 < dl) (h1 : dl < E.MAX_DELAY)
    (hamt : Settled E s.amt_left amount) (hfb : Settled E s.fb_left 0)
    (hdry : E.get s.dry = (0, s.dry)) (hchmix : E.get s.chmix = (0, s.chmix))
    (hsan : ∀ m, E.sanitize (inL m) = inL m) (hlerp : ∀ a b, E.lerp a b 0 = a)
    (hc : ∀ c ∈ calls, c.1 + c.2 < U32) (hn : n < (calls.map Prod.snd).sum) :
    ((stream E inL inR outs0 outs1 (activate s) 0 calls)[n]?).map Prod.fst
      = some (if n ≤ dl then 0 else amount * inL (n - dl)) := by
  have h1k : dl < 2 ^ k := by rw [← hM]; exact h1
  have hinit : StereoLeft (2 ^ k) dl s.amt_left s.fb_left s.dry s.chmix inL (activate s) 0 := by
    refine ⟨hmode, hmed, hdl, rfl, rfl, rfl, rfl, le_refl _, ?_, Or.inl rfl, ?_⟩
    · show (0 : Int) < ((2 ^ k : Nat) : Int)
      exact_mod_cast Nat.two_pow_pos k
    · intro d hd1 _ hdn
      omega
  obtain ⟨o, ho, hP⟩ := tracked_stream E 0
    (fun t m => StereoLeft (2 ^ k) dl s.amt_left s.fb_left s.dry s.chmix inL t m)
    (fun m o0 _ => o0 = if m ≤ dl then 0 else amount * inL (m - dl)) inL inR outs0 outs1
    (fun t m ht => ⟨Or.inl ht.mode, by rw [ht.mode]; rfl, ht.medium⟩)
    (fun t m ht => by
      unfold saturate
      split_ifs with hage
      · refine ⟨ht.mode, ht.medium, ht.deltime, ht.amt, ht.fb, ht.dry, ht.chmix, ht.ptr_nonneg,
          ht.ptr_lt, ?_, ht.recent⟩
        have := ht.age.clamp
        rw [← hM, if_pos hage] at this
        rw [← hM]
        exact this
      · exact ht)
    (fun ins0 ins1 i m r hr hin _ =>
      stereo_left_step E k hk hM dl s.amt_left s.fb_left s.dry s.chmix amount inL h0 h1k
        hamt hfb hdry hchmix hsan hlerp ins0 ins1 i m r hr hin)
    calls (activate s) 0 hinit hc n hn
  rw [ho, Option.map_some', hP, Nat.zero_add]

end vintage_delay_audio_module

/-- C20: a STEREO module with medium 0, left feedback settled at 0, dry gain and
channel mix settled at 0, a left amount settled at `amount` and `0 <
deltime_l < MAX_DELAY` (a power of two), in exact arithmetic.  Counting
samples from 0 at `activate()`, whatever the split into `process` calls, the
left output at sample `n` is 0 for `n <= deltime_l` and `amount * in_left[n -
deltime_l]` for `n > deltime_l`; so `in_left[0]` is never echoed, and a unit
impulse at sample 0 gives an all-zero left output. -/
theorem vintage_stereo_echo_timing {α G F : Type} [CommSemiring α]
    (E : vintage_delay_audio_module.Env α G F) (k : Nat) (hk : k ≤ 32)
    (hM : E.MAX_DELAY = 2 ^ k) (s : vintage_delay_audio_module.State α G F) (dl : Nat)
    (amount one : α) (inL inR outs0 outs1 : Nat → α) (calls : List (Nat × Nat)) (n : Nat)
    (hmode : s.mixmode = vintage_delay_audio_module.MIXMODE_STEREO) (hmed : s.medium = 0)
    (hdl : s.deltime_l = dl) (h0 : 0 < dl) (h1 : dl < E.MAX_DELAY)
    (hamt : vintage_delay_audio_module.Settled E s.amt_left amount)
    (hfb : vintage_delay_audio_module.Settled E s.fb_left 0)
    (hdry : E.get s.dry = (0, s.dry)) (hchmix : E.get s.chmix = (0, s.chmix))
    (hsan : ∀ m, E.sanitize (inL m) = inL m) (hsan0 : E.sanitize 0 = 0)
    (hsan1 : E.sanitize one = one) (hlerp : ∀ a b, E.lerp a b 0 = a)
    (hc : ∀ c ∈ calls, c.1 + c.2 < U32) (hn : n < (calls.map Prod.snd).sum) :
    ((vintage_delay_audio_module.stream E inL inR outs0 outs1
        (vintage_delay_audio_module.activate s) 0 calls)[n]?).map Prod.fst
      = some (if n ≤ dl then 0 else amount * inL (n - dl)) ∧
    ((vintage_delay_audio_module.stream E (impulse one) inR outs0 outs1
        (vintage_delay_audio_module.activate s) 0 calls)[n]?).map Prod.fst = some 0 := by
  refine ⟨vintage_delay_audio_module.stream_stereo_left E k hk hM s dl amount inL inR outs0 outs1
    calls n hmode hmed hdl h0 h1 hamt hfb hdry hchmix hsan hlerp hc hn, ?_⟩
  rw [vintage_delay_audio_module.stream_stereo_left E k hk hM s dl amount (impulse one) inR
    outs0 outs1 calls n hmode hmed hdl h0 h1 hamt hfb hdry hchmix
    (fun m => by unfold impulse; split_ifs <;> assumption) hlerp hc hn]
  congr 1
  split_ifs with h
  · rfl
  · unfold impulse
    rw [if_neg (by omega), mul_zero]

/-- C20, a run: 8 cells, left delay 3, amount 2, the input 1, 2, 3, ... split
over three calls; sample 6 of the left output is `2 * in_left[3] = 8`, and
sample 3 is still 0. -/
theorem vintage_stereo_echo_timing_witness :
    ((vintage_delay_audio_module.stream (vintage_delay_audio_module.settled 8 1)
        vintage_delay_audio_module.ramp (fun _ => 5) (fun _ => 0) (fun _ => 0)
        (vintage_delay_audio_module.activate
          (vintage_delay_audio_module.constructed 0 3 9 0 2 7 0 4 0 0 ())) 0
        [(0, 3), (2, 5), (0, 12)])[6]?).map Prod.fst = some 8 ∧
    ((vintage_delay_audio_module.stream (vintage_delay_audio_module.settled 8 1)
        vintage_delay_audio_module.ramp (fun _ => 5) (fun _ => 0) (fun _ => 0)
        (vintage_delay_audio_module.activate
          (vintage_delay_audio_module.constructed 0 3 9 0 2 7 0 4 0 0 ())) 0
        [(0, 3), (2, 5), (0, 12)])[3]?).map Prod.fst = some 0 :=
  ⟨(@vintage_stereo_echo_timing Int Int Unit _ (vintage_delay_audio_module.settled 8 1) 3
      (by decide) rfl (vintage_delay_audio_module.constructed 0 3 9 0 2 7 0 4 0 0 ()) 3 2 1
      vintage_delay_audio_module.ramp (fun _ => 5) (fun _ => 0) (fun _ => 0)
      [(0, 3), (2, 5), (0, 12)] 6 rfl rfl rfl (by decide) (by decide) ⟨rfl, rfl⟩ ⟨rfl, rfl⟩
      rfl rfl (fun _ => rfl) rfl rfl
      (fun a b => by simp [vintage_delay_audio_module.settled])
      (by decide) (by decide)).1.trans (by decide),
   (@vintage_stereo_echo_timing Int Int Unit _ (vintage_delay_audio_module.settled 8 1) 3
      (by decide) rfl (vintage_delay_audio_module.constructed 0 3 9 0 2 7 0 4 0 0 ()) 3 2 1
      vintage_delay_audio_module.ramp (fun _ => 5) (fun _ => 0) (fun _ => 0)
      [(0, 3), (2, 5), (0, 12)] 3 rfl rfl rfl (by decide) (by decide) ⟨rfl, rfl⟩ ⟨rfl, rfl⟩
      rfl rfl (fun _ => rfl) rfl rfl
      (fun a b => by simp [vintage_delay_audio_module.settled])
      (by decide) (by decide)).1.trans (by decide)⟩

/-! ## Vintage delay: PINGPONG -/

namespace vintage_delay_audio_module

/-- A simple tap leaves settled smoothers as they are, in either branch. -/
theorem settled_line_gains {α G F : Type} [Add α] [Mul α] [Zero α] (E : Env α G F)
    (age d : Int) (x y : α) (ga gf : G) (amount fbv : α)
    (hga : Settled E ga amount) (hgf : Settled E gf fbv) :
    (delayline_impl E age d x y ga gf).amt = ga ∧ (delayline_impl E age d x y ga gf).fb = gf := by
  unfold delayline_impl
  split_ifs
  · exact ⟨hga.2, hgf.2⟩
  · exact ⟨by rw [hga.1], by rw [hgf.1]⟩

/-- One PINGPONG sample under `PingPong`, for a unit impulse on the left input
at sample `t` and a silent right input: the invariant moves on, the other
output samples are untouched, and up to sample `T = t + dr + dl` the left
output is `amount * fb` at sample `T` and 0 elsewhere, the right output
`amount` at sample `t + dr` and 0 elsewhere. -/
theorem pingpong_step {α G F : Type} [CommSemiring α] (E : Env α G F) (k : Nat) (hk : k ≤ 32)
    (hM : E.MAX_DELAY = 2 ^ k) (dl dr t : Nat) (gal gar gfl gfr gd gc : G) (amount fb : α)
    (hl0 : 0 < dl) (hl1 : dl < 2 ^ k) (hr0 : 0 < dr) (hr1 : dr < 2 ^ k) (ht : 1 ≤ t)
    (hgal : Settled E gal amount) (hgar : Settled E gar amount)
    (hgfl : Settled E gfl fb) (hgfr : Settled E gfr fb)
    (hgd : E.get gd = (0, gd)) (hgc : E.get gc = (0, gc))
    (hsan0 : E.sanitize 0 = 0) (hsan1 : E.sanitize 1 = 1) (hsanfb : E.sanitize fb = fb)
    (hlerp : ∀ a b, E.lerp a b 0 = a)
    (ins0 ins1 : Nat → α) (i n : Nat) (r : Run α G F)
    (hinv : PingPong (2 ^ k) dl dr (t + dr + dl) gal gar gfl gfr gd gc
      (impulse_at t) (fun m => if m = t + dr then fb else 0) r.st n)
    (hin0 : ins0 i = impulse_at t n) (hin1 : ins1 i = 0) :
    PingPong (2 ^ k) dl dr (t + dr + dl) gal gar gfl gfr gd gc
      (impulse_at t) (fun m => if m = t + dr then fb else 0)
      (body_stereo E 1 ins0 ins1 i r).st (n + 1) ∧
    (∀ m, m ≠ i → (body_stereo E 1 ins0 ins1 i r).outs0 m = r.outs0 m ∧
      (body_stereo E 1 ins0 ins1 i r).outs1 m = r.outs1 m) ∧
    (n ≤ t + dr + dl →
      (body_stereo E 1 ins0 ins1 i r).outs0 i = (if n = t + dr + dl then amount * fb else 0) ∧
      (body_stereo E 1 ins0 ins1 i r).outs1 i = (if n = t + dr then amount else 0)) := by
  have hw : r.st.bufptr = ((r.st.bufptr.toNat : Nat) : Int) :=
    (Int.toNat_of_nonneg hinv.ptr_nonneg).symm
  have hwlt : r.st.bufptr.toNat < 2 ^ k := by
    have := hinv.ptr_lt
    omega
  -- the two delay lines while the buffers are known
  have hleft : n ≤ t + dr + dl →
      delayline_impl E r.st.age r.st.deltime_l (ins0 i)
        (bufsel r.st 1 (iand (r.st.bufptr - r.st.deltime_l) (ADDR_MASK E)).toNat)
        r.st.amt_left r.st.fb_left
      = { out := if n = t + dr + dl then amount * fb else 0
          del := if n = t + dr + dl then impulse_at t n + fb * fb else impulse_at t n
          amt := gal, fb := gfl } := by
    intro hn
    rw [hinv.deltime_l, hinv.amt_l, hinv.fb_l, bufsel_one, hin0, hw,
      settled_line E k hk hM (fun m => if m = t + dr then fb else 0) r.st.buffers1
        r.st.bufptr.toNat n dl r.st.age (impulse_at t n) gal gfl amount fb hwlt hl0 hl1
        (hinv.recent1 hn) hinv.age hgal hgfl]
    by_cases hc : n ≤ dl
    · rw [if_pos hc, if_neg (by omega), if_neg (by omega)]
    · rw [if_neg hc]
      by_cases hT : n = t + dr + dl
      · rw [if_pos (by omega), if_pos hT, if_pos hT, hsanfb, mul_comm]
      · rw [if_neg (by omega), if_neg hT, if_neg hT, hsan0, zero_mul, zero_mul, add_zero]
  have hright : n ≤ t + dr + dl →
      delayline_impl E r.st.age r.st.deltime_r (ins1 i)
        (bufsel r.st (1 - 1) (iand (r.st.bufptr - r.st.deltime_r) (ADDR_MASK E)).toNat)
        r.st.amt_right r.st.fb_right
      = { out := if n = t + dr then amount else 0
          del := if n = t + dr then fb else 0
          amt := gar, fb := gfr } := by
    intro hn
    rw [hinv.deltime_r, hinv.amt_r, hinv.fb_r, bufsel_one_sub_one, hin1, hw,
      settled_line E k hk hM (impulse_at t) r.st.buffers0
        r.st.bufptr.toNat n dr r.st.age 0 gar gfr amount fb hwlt hr0 hr1
        (hinv.recent0 hn) hinv.age hgar hgfr]
    by_cases hc : n ≤ dr
    · rw [if_pos hc, if_neg (by omega), if_neg (by omega)]
    · rw [if_neg hc]
      unfold impulse_at
      by_cases hT : n = t + dr
      · rw [if_pos (by omega), if_pos hT, if_pos hT, hsan1, one_mul, one_mul, zero_add]
      · rw [if_neg (by omega), if_neg hT, if_neg hT, hsan0, zero_mul, zero_mul, add_zero]
  have key : ∀ (L R : Line α G),
      L.amt = gal → L.fb = gfl → R.amt = gar → R.fb = gfr →
      (n ≤ t + dr + dl → L = { out := if n = t + dr + dl then amount * fb else 0
                               del := if n = t + dr + dl then impulse_at t n + fb * fb
                                 else impulse_at t n
                               amt := gal, fb := gfl }) →
      (n ≤ t + dr + dl → R = { out := if n = t + dr then amount else 0
                               del := if n = t + dr then fb else 0
                               amt := gar, fb := gfr }) →
      PingPong (2 ^ k) dl dr (t + dr + dl) gal gar gfl gfr gd gc
        (impulse_at t) (fun m => if m = t + dr then fb else 0)
        (finish E ins0 ins1 i r L R).st (n + 1) ∧
      (∀ m, m ≠ i → (finish E ins0 ins1 i r L R).outs0 m = r.outs0 m ∧
        (finish E ins0 ins1 i r L R).outs1 m = r.outs1 m) ∧
      (n ≤ t + dr + dl →
        (finish E ins0 ins1 i r L R).outs0 i = (if n = t + dr + dl then amount * fb else 0) ∧
        (finish E ins0 ins1 i r L R).outs1 i = (if n = t + dr then amount else 0)) := by
    intro L R la lf ra rf hL hR
    obtain ⟨fa, fd, fc, fl, fr, fm, fframe, fo0, fo1⟩ := finish_cold E ins0 ins1 i r L R
    obtain ⟨gm, gal', gfl', gar', gfr', gp, gb0, gb1⟩ := finish_fields E ins0 ins1 i r L R
    have hptr : (finish E ins0 ins1 i r L R).st.bufptr
        = ((if r.st.bufptr.toNat + 1 = 2 ^ k then 0 else r.st.bufptr.toNat + 1 : Nat) : Int) := by
      rw [gp, hw, iand_next E k hk hM _ hwlt, Int.toNat_ofNat]
    refine ⟨?_, fframe, ?_⟩
    · refine ⟨fm.trans hinv.mode, gm.trans hinv.medium, fl.trans hinv.deltime_l,
        fr.trans hinv.deltime_r, gal'.trans la, gar'.trans ra, gfl'.trans lf, gfr'.trans rf,
        ?_, ?_, ?_, ?_, ?_, ?_, ?_⟩
      · rw [fd, hinv.dry, hgd]
      · rw [fc, hinv.chmix, hgc]
      · rw [hptr]; exact Int.natCast_nonneg _
      · rw [hptr]
        have : (if r.st.bufptr.toNat + 1 = 2 ^ k then 0 else r.st.bufptr.toNat + 1) < 2 ^ k := by
          split_ifs <;> omega
        exact_mod_cast this
      · rw [fa]; exact hinv.age.next
      · intro hn
        rw [gb0, hptr, Int.toNat_ofNat, hL (by omega)]
        exact (hinv.recent0 (by omega)).store _ (by
          show (if n = t + dr + dl then impulse_at t n + fb * fb else impulse_at t n) = _
          rw [if_neg (by omega)])
      · intro hn
        rw [gb1, hptr, Int.toNat_ofNat, hR (by omega)]
        exact (hinv.recent1 (by omega)).store _ rfl
    · intro hn
      rw [fo0, fo1, hinv.dry, hinv.chmix, hgd, hgc, hlerp, hlerp, mul_zero, mul_zero, zero_add,
        zero_add, hL hn, hR hn]
      exact ⟨rfl, rfl⟩
  obtain ⟨la, lf⟩ := settled_line_gains E r.st.age r.st.deltime_l (ins0 i)
    (bufsel r.st 1 (iand (r.st.bufptr - r.st.deltime_l) (ADDR_MASK E)).toNat)
    r.st.amt_left r.st.fb_left amount fb (hinv.amt_l ▸ hgal) (hinv.fb_l ▸ hgfl)
  obtain ⟨ra, rf⟩ := settled_line_gains E r.st.age r.st.deltime_r (ins1 i)
    (bufsel r.st (1 - 1) (iand (r.st.bufptr - r.st.deltime_r) (ADDR_MASK E)).toNat)
    r.st.amt_right r.st.fb_right amount fb (hinv.amt_r ▸ hgar) (hinv.fb_r ▸ hgfr)
  exact key _ _ (la.trans hinv.amt_l) (lf.trans hinv.fb_l) (ra.trans hinv.amt_r)
    (rf.trans hinv.fb_r) hleft hright

end vintage_delay_audio_module

namespace vintage_delay_audio_module

/-- The first `t + dr + dl + 1` samples of a PINGPONG stream whose left input
is a unit impulse at sample `t` and whose right input is silent, whatever the
split into calls. -/
theorem stream_pingpong {α G F : Type} [CommSemiring α] (E : Env α G F) (k : Nat)
    (hk : k ≤ 32) (hM : E.MAX_DELAY = 2 ^ k) (s : State α G F) (dl dr t : Nat) (amount fb : α)
    (outs0 outs1 : Nat → α) (calls : List (Nat × Nat)) (n : Nat)
    (hmode : s.mixmode = MIXMODE_PINGPONG) (hmed : s.medium = 0)
    (hdl : s.deltime_l = dl) (hdr : s.deltime_r = dr)
    (hl0 : 0 < dl) (hl1 : dl < E.MAX_DELAY) (hr0 : 0 < dr) (hr1 : dr < E.MAX_DELAY) (ht : 1 ≤ t)
    (hgal : Settled E s.amt_left amount) (hgar : Settled E s.amt_right amount)
    (hgfl : Settled E s.fb_left fb) (hgfr : Settled E s.fb_right fb)
    (hdry : E.get s.dry = (0, s.dry)) (hchmix : E.get s.chmix = (0, s.chmix))
    (hsan0 : E.sanitize 0 = 0) (hsan1 : E.sanitize 1 = 1) (hsanfb : E.sanitize fb = fb)
    (hlerp : ∀ a b, E.lerp a b 0 = a)
    (hc : ∀ c ∈ calls, c.1 + c.2 < U32) (hn : n < (calls.map Prod.snd).sum)
    (hnT : n ≤ t + dr + dl) :
    (stream E (impulse_at t) (fun _ => 0) outs0 outs1 (activate s) 0 calls)[n]?
      = some (if n = t + dr + dl then amount * fb else 0, if n = t + dr then amount else 0) := by
  have hl1k : dl < 2 ^ k := by rw [← hM]; exact hl1
  have hr1k : dr < 2 ^ k := by rw [← hM]; exact hr1
  have hinit : PingPong (2 ^ k) dl dr (t + dr + dl) s.amt_left s.amt_right s.fb_left s.fb_right
      s.dry s.chmix (impulse_at t) (fun m => if m = t + dr then fb else 0) (activate s) 0 := by
    refine ⟨hmode, hmed, hdl, hdr, rfl, rfl, rfl, rfl, rfl, rfl, le_refl _, ?_, Or.inl rfl,
      ?_, ?_⟩
    · show (0 : Int) < ((2 ^ k : Nat) : Int)
      exact_mod_cast Nat.two_pow_pos k
    · intro _ d hd1 _ hdn
      omega
    · intro _ d hd1 _ hdn
      omega
  obtain ⟨o, ho, hP⟩ := tracked_stream E 1
    (fun u m => PingPong (2 ^ k) dl dr (t + dr + dl) s.amt_left s.amt_right s.fb_left
      s.fb_right s.dry s.chmix (impulse_at t) (fun m => if m = t + dr then fb else 0) u m)
    (fun m o0 o1 => m ≤ t + dr + dl →
      o0 = (if m = t + dr + dl then amount * fb else 0) ∧ o1 = (if m = t + dr then amount else 0))
    (impulse_at t) (fun _ => 0) outs0 outs1
    (fun u m hu => ⟨Or.inr hu.mode, by rw [hu.mode]; rfl, hu.medium⟩)
    (fun u m hu => by
      unfold saturate
      split_ifs with hage
      · refine ⟨hu.mode, hu.medium, hu.deltime_l, hu.deltime_r, hu.amt_l, hu.amt_r, hu.fb_l,
          hu.fb_r, hu.dry, hu.chmix, hu.ptr_nonneg, hu.ptr_lt, ?_, hu.recent0, hu.recent1⟩
        have := hu.age.clamp
        rw [← hM, if_pos hage] at this
        rw [← hM]
        exact this
      · exact hu)
    (fun ins0 ins1 i m r hr hin0 hin1 =>
      pingpong_step E k hk hM dl dr t s.amt_left s.amt_right s.fb_left s.fb_right s.dry s.chmix
        amount fb hl0 hl1k hr0 hr1k ht hgal hgar hgfl hgfr hdry hchmix hsan0 hsan1 hsanfb hlerp
        ins0 ins1 i m r hr hin0 hin1)
    calls (activate s) 0 hinit hc n hn
  rw [Nat.zero_add] at hP
  obtain ⟨p0, p1⟩ := hP hnT
  rw [ho, ← p0, ← p1]

end vintage_delay_audio_module

/-- C18: a PINGPONG module with medium 0, dry gain and channel mix settled at 0,
both amounts settled at `amount`, both feedbacks settled at `fb`, and `0 <
deltime_l, deltime_r < MAX_DELAY` (a power of two), in exact arithmetic, fed
after `activate()` with a unit impulse on the left channel at sample `t >= 1`
and silence on the right, whatever the split into `process` calls.  The first
echo is on the right: at sample `t + deltime_r` the output is `(0, amount)`.
The second echo is on the left: at sample `t + deltime_r + deltime_l` the
output is `(amount * fb, 0)`.  Every other sample up to there is `(0, 0)`. -/
theorem vintage_pingpong_alternation {α G F : Type} [CommSemiring α]
    (E : vintage_delay_audio_module.Env α G F) (k : Nat) (hk : k ≤ 32)
    (hM : E.MAX_DELAY = 2 ^ k) (s : vintage_delay_audio_module.State α G F) (dl dr t : Nat)
    (amount fb : α) (outs0 outs1 : Nat → α) (calls : List (Nat × Nat))
    (hmode : s.mixmode = vintage_delay_audio_module.MIXMODE_PINGPONG) (hmed : s.medium = 0)
    (hdl : s.deltime_l = dl) (hdr : s.deltime_r = dr)
    (hl0 : 0 < dl) (hl1 : dl < E.MAX_DELAY) (hr0 : 0 < dr) (hr1 : dr < E.MAX_DELAY) (ht : 1 ≤ t)
    (hgal : vintage_delay_audio_module.Settled E s.amt_left amount)
    (hgar : vintage_delay_audio_module.Settled E s.amt_right amount)
    (hgfl : vintage_delay_audio_module.Settled E s.fb_left fb)
    (hgfr : vintage_delay_audio_module.Settled E s.fb_right fb)
    (hdry : E.get s.dry = (0, s.dry)) (hchmix : E.get s.chmix = (0, s.chmix))
    (hsan0 : E.sanitize 0 = 0) (hsan1 : E.sanitize 1 = 1) (hsanfb : E.sanitize fb = fb)
    (hlerp : ∀ a b, E.lerp a b 0 = a)
    (hc : ∀ c ∈ calls, c.1 + c.2 < U32) (hn : t + dr + dl < (calls.map Prod.snd).sum) :
    (vintage_delay_audio_module.stream E (vintage_delay_audio_module.impulse_at t) (fun _ => 0)
        outs0 outs1 (vintage_delay_audio_module.activate s) 0 calls)[t + dr]?
      = some (0, amount) ∧
    (vintage_delay_audio_module.stream E (vintage_delay_audio_module.impulse_at t) (fun _ => 0)
        outs0 outs1 (vintage_delay_audio_module.activate s) 0 calls)[t + dr + dl]?
      = some (amount * fb, 0) ∧
    (∀ n, n ≤ t + dr + dl →
      (vintage_delay_audio_module.stream E (vintage_delay_audio_module.impulse_at t) (fun _ => 0)
        outs0 outs1 (vintage_delay_audio_module.activate s) 0 calls)[n]?
      = some (if n = t + dr + dl then amount * fb else 0, if n = t + dr then amount else 0)) := by
  have main := fun n (h1 : n < (calls.map Prod.snd).sum) (h2 : n ≤ t + dr + dl) =>
    vintage_delay_audio_module.stream_pingpong E k hk hM s dl dr t amount fb outs0 outs1 calls n
      hmode hmed hdl hdr hl0 hl1 hr0 hr1 ht hgal hgar hgfl hgfr hdry hchmix hsan0 hsan1 hsanfb
      hlerp hc h1 h2
  refine ⟨?_, ?_, fun n h => main n (by omega) h⟩
  · rw [main (t + dr) (by omega) (by omega), if_neg (by omega), if_pos rfl]
  · rw [main (t + dr + dl) (by omega) (le_refl _), if_pos rfl, if_neg (by omega)]

/-- C18, a run: 8 cells, delay times 2 and 3, amount 3, feedback 2, an impulse
at sample 1, three calls: sample 4 is `(0, 3)` and sample 6 is `(6, 0)`. -/
theorem vintage_pingpong_alternation_witness :
    (vintage_delay_audio_module.stream (vintage_delay_audio_module.settled 8 1)
        (vintage_delay_audio_module.impulse_at 1) (fun _ => 0) (fun _ => 0) (fun _ => 0)
        (vintage_delay_audio_module.activate
          (vintage_delay_audio_module.constructed 1 2 3 0 3 3 2 2 0 0 ())) 0
        [(0, 3), (2, 5), (0, 12)])[1 + 3]? = some (0, 3) ∧
    (vintage_delay_audio_module.stream (vintage_delay_audio_module.settled 8 1)
        (vintage_delay_audio_module.impulse_at 1) (fun _ => 0) (fun _ => 0) (fun _ => 0)
        (vintage_delay_audio_module.activate
          (vintage_delay_audio_module.constructed 1 2 3 0 3 3 2 2 0 0 ())) 0
        [(0, 3), (2, 5), (0, 12)])[1 + 3 + 2]? = some (3 * 2, 0) :=
  have h := @vintage_pingpong_alternation Int Int Unit _
    (vintage_delay_audio_module.settled 8 1) 3 (by decide) rfl
    (vintage_delay_audio_module.constructed 1 2 3 0 3 3 2 2 0 0 ()) 2 3 1 3 2
    (fun _ => 0) (fun _ => 0) [(0, 3), (2, 5), (0, 12)] rfl rfl rfl rfl
    (by decide) (by decide) (by decide) (by decide) (by decide)
    ⟨rfl, rfl⟩ ⟨rfl, rfl⟩ ⟨rfl, rfl⟩ ⟨rfl, rfl⟩ rfl rfl rfl rfl rfl
    (fun a b => by simp [vintage_delay_audio_module.settled]) (by decide) (by decide)
  ⟨h.1, h.2.1⟩

/-! ## Vintage delay: `calc_filters` -/

/-- The function `calc_filters` touches the four medium filters only: the
amount smoothers (and every other field) are as before. -/
theorem calc_filters_keeps_amounts {α G F : Type} (set_lp_rbj set_bp_rbj : F → Nat → F)
    (copy_coeffs : F → F → F) (srate : Nat) (t : vintage_delay_audio_module.State α G F) :
    (vintage_delay_audio_module.calc_filters set_lp_rbj set_bp_rbj copy_coeffs srate t).amt_left
      = t.amt_left ∧
    (vintage_delay_audio_module.calc_filters set_lp_rbj set_bp_rbj copy_coeffs srate t).amt_right
      = t.amt_right :=
  ⟨rfl, rfl⟩
